import Mathlib

/-!
# Multitrack video editor: entries, tracks, timeline rendering, video decoding, export

A shallow embedding of `include/timeline/TimelineEntry.h`, `src/timeline/Track.cpp`,
`src/timeline/Timeline.cpp`, `src/assets/Image.cpp`, `src/assets/Video.cpp`,
`src/assets/VideoAsset.cpp`, `src/export/ExportFacade.cpp`,
`src/assets/CompositeAssetFactory.cpp`, `include/graphics/Color.h` and
`include/filters/MeanBlurFilter.h`, followed by theorems about the embedded code.

Modelling conventions.

* A C++ `double` is modelled by the rational number it holds (`ℚ`): comparisons
  are exact, the results of `+`, `-`, `*` and `/` are rounded to binary64
  (`f64Add`, `f64Sub`, `f64Mul`, `f64Div`), and there is no NaN or infinity.
* Sizes, coordinates and indices (`int`, `size_t`) are natural numbers or
  integers; the `int` product of `compositeImages` and the conversions of a
  `double` to an integer type are modelled with their 32-bit range (`wrapInt`,
  `castInt`).
* An `IAsset*` is modelled by a natural number (the identity of the pointee).
* `std::vector<TimelineEntry>` is a `List TimelineEntry`; `size_t` indices are `Nat`.
* A mutating member function returning `bool` becomes a function returning the
  pair of the returned flag and the track after the call.
* `std::sort` with the comparator `a.getStartTime() < b.getStartTime()` is modelled
  by a stable insertion sort on the start time.  The C++ standard leaves the
  relative order of entries with equal start times unspecified; the theorems
  below only state of a sorted result that it is a permutation of the input
  and ascending by start time.
* The `float` arithmetic of the compositor is modelled exactly as binary32
  arithmetic (see `f32Round`).
* The decoder library is a parameter (`VideoReader`); the assets that a render
  may change are threaded through `renderFrameAt` as an explicit store.
* The image writers, the video encoder and `std::to_string` are parameters of
  the export facade (`ExportEnv`); the calls made into them are recorded.
* A `std::string` is a `String`, compared character by character.
-/

namespace csci3081

/-! ## graphics/Color.h (the part stored in a track) -/

/-- The RGBA colour tag of a track (used by the user interface only). -/
structure Color where
  r : Nat
  g : Nat
  b : Nat
  a : Nat
deriving DecidableEq, Repr

/-! ## Double-precision arithmetic

A `double` is modelled by the rational number it holds.  The result of an
arithmetic operation is the exact result rounded to binary64: to the nearest
multiple of `2 ^ (e - 52)`, `e` being the binary exponent of the exact result (at
least `-1022`, which gives the subnormal numbers), ties to the even multiple.
Results beyond the largest binary64 number, infinities and NaN are not
modelled. -/

/-- The binary exponent that binary64 uses for `a`: the largest `e` with
`2 ^ e ≤ |a|`, but at least `-1022`. -/
def f64Exponent (a : ℚ) : ℤ := max (Int.log 2 |a|) (-1022)

/-- The integer nearest to `x`, ties to the even one. -/
def roundTiesEven (x : ℚ) : ℤ :=
  if x - ⌊x⌋ < 1 / 2 then ⌊x⌋
  else if 1 / 2 < x - ⌊x⌋ then ⌊x⌋ + 1
  else if ⌊x⌋ % 2 = 0 then ⌊x⌋ else ⌊x⌋ + 1

/-- The binary64 number nearest to a non-negative `a`. -/
def roundMagnitude (a : ℚ) : ℚ :=
  roundTiesEven (a / 2 ^ (f64Exponent a - 52)) * 2 ^ (f64Exponent a - 52)

/-- The binary64 number nearest to `q`. -/
def roundDouble (q : ℚ) : ℚ :=
  if 0 ≤ q then roundMagnitude q else -roundMagnitude (-q)

/-- The `double` sum `x + y`. -/
def f64Add (x y : ℚ) : ℚ := roundDouble (x + y)

/-- The `double` difference `x - y`. -/
def f64Sub (x y : ℚ) : ℚ := roundDouble (x - y)

/-- The `double` product `x * y`. -/
def f64Mul (x y : ℚ) : ℚ := roundDouble (x * y)

/-- The `double` quotient `x / y`, for `y` other than 0. -/
def f64Div (x y : ℚ) : ℚ := roundDouble (x / y)

/-! ## timeline/TimelineEntry.h -/

/-- The class `TimelineEntry`: a non-owned asset with a start time and a duration. -/
structure TimelineEntry where
  asset : Nat
  startTime : ℚ
  duration : ℚ
deriving DecidableEq, Repr

namespace TimelineEntry

/-- The member `getEndTime`: `startTime + duration`, a `double` sum. -/
def getEndTime (e : TimelineEntry) : ℚ := f64Add e.startTime e.duration

/-- The member `setStartTime`. -/
def setStartTime (e : TimelineEntry) (time : ℚ) : TimelineEntry :=
  { e with startTime := time }

/-- The member `setDuration`. -/
def setDuration (e : TimelineEntry) (dur : ℚ) : TimelineEntry :=
  { e with duration := dur }

/-- The member `isActiveAt`: `time >= startTime && time < getEndTime()`. -/
def isActiveAt (e : TimelineEntry) (time : ℚ) : Bool :=
  decide (time ≥ e.startTime) && decide (time < e.getEndTime)

/-- The member `overlapsWith`:
`startTime < other.getEndTime() && other.startTime < getEndTime()`. -/
def overlapsWith (e other : TimelineEntry) : Bool :=
  decide (e.startTime < other.getEndTime) && decide (other.startTime < e.getEndTime)

end TimelineEntry

/-! ## timeline/Track.h, timeline/Track.cpp -/

/-- The class `Track`. -/
structure Track where
  name : String
  color : Color
  visible : Bool
  entries : List TimelineEntry
deriving DecidableEq, Repr

/-- The comparator handed to `std::sort`: `a.getStartTime() < b.getStartTime()`. -/
def startTimeLess (a b : TimelineEntry) : Bool := decide (a.startTime < b.startTime)

/-- One insertion step of the sort: `x` is placed in front of the first element
that the comparator does not put before it. -/
def sortInsert (x : TimelineEntry) : List TimelineEntry → List TimelineEntry
  | [] => [x]
  | y :: ys => if startTimeLess y x then y :: sortInsert x ys else x :: y :: ys

/-- The call `std::sort(entries.begin(), entries.end(), cmp)` with `cmp = startTimeLess`. -/
def sortByStartTime : List TimelineEntry → List TimelineEntry
  | [] => []
  | x :: xs => sortInsert x (sortByStartTime xs)

namespace Track

/-- The constructor `Track(name, color)`: visible, with no entries. -/
def new (name : String) (color : Color) : Track :=
  { name := name, color := color, visible := true, entries := [] }

/-- The loop of `Track::wouldOverlap` over a suffix of `entries`. -/
def wouldOverlapLoop (entry : TimelineEntry) : List TimelineEntry → Bool
  | [] => false
  | existing :: rest =>
    if entry.overlapsWith existing then true else wouldOverlapLoop entry rest

/-- The private member `Track::wouldOverlap`. -/
def wouldOverlap (t : Track) (entry : TimelineEntry) : Bool :=
  wouldOverlapLoop entry t.entries

/-- The member `Track::addEntry`. -/
def addEntry (t : Track) (entry : TimelineEntry) : Bool × Track :=
  if t.wouldOverlap entry then (false, t)
  else (true, { t with entries := sortByStartTime (t.entries ++ [entry]) })

/-- The member `Track::removeEntry`. -/
def removeEntry (t : Track) (index : Nat) : Bool × Track :=
  if index ≥ t.entries.length then (false, t)
  else (true, { t with entries := t.entries.eraseIdx index })

/-- The loop `for (i = 0; i < entries.size(); i++) if (i != index &&
entry.overlapsWith(entries[i])) ...` of the two update members, run from
position `i` over the remaining suffix; `true` means the early exit was taken. -/
def overlapsOtherLoop (entry : TimelineEntry) (index : Nat) :
    Nat → List TimelineEntry → Bool
  | _, [] => false
  | i, e :: rest =>
    if i ≠ index ∧ entry.overlapsWith e = true then true
    else overlapsOtherLoop entry index (i + 1) rest

/-- The member `Track::updateEntryStartTime`: the start time is written into the
vector first, the scan reads the written entry, and the early exit writes the
old start time back. -/
def updateEntryStartTime (t : Track) (index : Nat) (newStartTime : ℚ) : Bool × Track :=
  if h : index ≥ t.entries.length then (false, t)
  else if newStartTime < 0 then (false, t)
  else
    have hlt : index < t.entries.length := Nat.lt_of_not_le h
    let oldStartTime := t.entries[index].startTime
    let entry := t.entries[index].setStartTime newStartTime
    let written := t.entries.set index entry
    if overlapsOtherLoop entry index 0 written then
      (false, { t with entries := written.set index (entry.setStartTime oldStartTime) })
    else
      (true, { t with entries := sortByStartTime written })

/-- The floor `0.1` of `Track::updateEntryDuration` ("Minimum 0.1 seconds"): the
`double` literal `0.1`, the binary64 number nearest to one tenth. -/
def minDuration : ℚ := roundDouble (1 / 10)

/-- The member `Track::updateEntryDuration`: same write, scan and write-back as
`updateEntryStartTime`, with no sort on success. -/
def updateEntryDuration (t : Track) (index : Nat) (newDuration : ℚ) : Bool × Track :=
  if h : index ≥ t.entries.length then (false, t)
  else if newDuration ≤ minDuration then (false, t)
  else
    have hlt : index < t.entries.length := Nat.lt_of_not_le h
    let oldDuration := t.entries[index].duration
    let entry := t.entries[index].setDuration newDuration
    let written := t.entries.set index entry
    if overlapsOtherLoop entry index 0 written then
      (false, { t with entries := written.set index (entry.setDuration oldDuration) })
    else
      (true, { t with entries := written })

/-- The member `Track::clearEntries`. -/
def clearEntries (t : Track) : Track := { t with entries := [] }

/-- The loop of `Track::getEntryAt` over a suffix of `entries`; `none` is `nullptr`. -/
def getEntryAtLoop (time : ℚ) : List TimelineEntry → Option TimelineEntry
  | [] => none
  | entry :: rest => if entry.isActiveAt time then some entry else getEntryAtLoop time rest

/-- The member `Track::getEntryAt`. -/
def getEntryAt (t : Track) (time : ℚ) : Option TimelineEntry :=
  getEntryAtLoop time t.entries

/-- The loop of `Track::getTotalDuration`, threading `maxEndTime`. -/
def maxEndTimeLoop (maxEndTime : ℚ) : List TimelineEntry → ℚ
  | [] => maxEndTime
  | entry :: rest =>
    if entry.getEndTime > maxEndTime then maxEndTimeLoop entry.getEndTime rest
    else maxEndTimeLoop maxEndTime rest

/-- The member `Track::getTotalDuration`. -/
def getTotalDuration (t : Track) : ℚ :=
  if t.entries.isEmpty then 0 else maxEndTimeLoop 0 t.entries

end Track

/-! ## Call sequences on a track -/

/-- One call of a mutating member of `Track`, with its arguments. -/
inductive TrackOp where
  | addEntry (entry : TimelineEntry)
  | removeEntry (index : Nat)
  | updateEntryStartTime (index : Nat) (newStartTime : ℚ)
  | updateEntryDuration (index : Nat) (newDuration : ℚ)
  | clearEntries
deriving DecidableEq, Repr

/-- The track after one call; the returned flag is dropped, so a rejected call
is a step as well. -/
def TrackOp.apply (t : Track) : TrackOp → Track
  | .addEntry entry => (t.addEntry entry).2
  | .removeEntry index => (t.removeEntry index).2
  | .updateEntryStartTime index newStartTime => (t.updateEntryStartTime index newStartTime).2
  | .updateEntryDuration index newDuration => (t.updateEntryDuration index newDuration).2
  | .clearEntries => t.clearEntries

/-- The track after a finite sequence of calls, first call first. -/
def runOps (t : Track) : List TrackOp → Track
  | [] => t
  | op :: ops => runOps (op.apply t) ops

/-! ## Properties of entry sequences -/

/-- No two entries at distinct indices satisfy `overlapsWith`. -/
def NoOverlap (l : List TimelineEntry) : Prop :=
  ∀ (i j : Nat) (hi : i < l.length) (hj : j < l.length),
    i ≠ j → l[i].overlapsWith l[j] = false

/-- The sequence is ascending by start time: for `i < j`, the start time of
entry `i` is at most the start time of entry `j`. -/
def SortedByStart (l : List TimelineEntry) : Prop :=
  ∀ (i j : Nat) (hi : i < l.length) (hj : j < l.length),
    i < j → l[i].startTime ≤ l[j].startTime

/-! ## Example data: the scenario of the specification -/

/-- Entry `A`: start 0, duration 3. -/
def entryA : TimelineEntry := { asset := 1, startTime := 0, duration := 3 }

/-- Entry `B`: start 5, duration 2. -/
def entryB : TimelineEntry := { asset := 2, startTime := 5, duration := 2 }

/-- Entry `C`: start 2, duration 4. -/
def entryC : TimelineEntry := { asset := 3, startTime := 2, duration := 4 }

/-- Entry `D`: start 3, duration 2 (fits between `A` and `B`). -/
def entryD : TimelineEntry := { asset := 4, startTime := 3, duration := 2 }

/-- The track holding `A` and `B`. -/
def trackAB : Track :=
  { name := "Track", color := ⟨100, 100, 200, 255⟩, visible := true, entries := [entryA, entryB] }

/-- An entry lying before time zero: start -5, duration 1, end -4. -/
def entryBeforeZero : TimelineEntry := { asset := 5, startTime := -5, duration := 1 }

/-- The track holding only `entryBeforeZero`. -/
def trackBeforeZero : Track :=
  { name := "Track", color := ⟨100, 100, 200, 255⟩, visible := true,
    entries := [entryBeforeZero] }

/-- The entry the "+ Add" handler of `Application.cpp` builds for a `TextAsset`
on an empty track: start `getTotalDuration() = 0`, duration `getDuration() = 0`. -/
def entryZeroLength : TimelineEntry := { asset := 6, startTime := 0, duration := 0 }

/-- An entry starting at `2 ^ 53` seconds, one second long: the `double` sum
`startTime + duration` is `2 ^ 53` again. -/
def entryFar : TimelineEntry := { asset := 7, startTime := 9007199254740992, duration := 1 }

/-- An entry from 0 to `2 ^ 54` seconds. -/
def entryLong : TimelineEntry := { asset := 8, startTime := 0, duration := 18014398509481984 }

/-- An entry from 1 to 5 seconds. -/
def entryWide : TimelineEntry := { asset := 9, startTime := 1, duration := 4 }

/-- An entry starting at 1 second and `2 ^ (-60)` seconds long: the `double` sum
`startTime + duration` is 1 again. -/
def entryBrief : TimelineEntry :=
  { asset := 10, startTime := 1, duration := 1 / 1152921504606846976 }

/-- The track holding `entryWide`. -/
def trackWide : Track :=
  { name := "Track", color := ⟨100, 100, 200, 255⟩, visible := true, entries := [entryWide] }

/-- The track holding `entryWide` followed by `entryBrief`. -/
def trackWideBrief : Track :=
  { name := "Track", color := ⟨100, 100, 200, 255⟩, visible := true,
    entries := [entryWide, entryBrief] }

/-! ## Image.h, Image.cpp -/

/-- The constructor `Color(int r, int g, int b, int a)`: each argument is stored
in an `unsigned char`. -/
def Color.ofInts (r g b a : Nat) : Color :=
  { r := r % 256, g := g % 256, b := b % 256, a := a % 256 }

/-- The class `Image` with four components per pixel: `pixels` holds one `Color`
per pixel, row after row (the pixel `(x, y)` is at position `x + width * y`). -/
structure Image where
  width : Nat
  height : Nat
  pixels : List Color
deriving DecidableEq, Repr

namespace Image

/-- The constructor `Image(int width, int height)`.  The C++ buffer starts with
unspecified content; here it starts with zero bytes. -/
def new (width height : Nat) : Image :=
  { width := width, height := height,
    pixels := List.replicate (width * height) ⟨0, 0, 0, 0⟩ }

/-- The member `Image::getPixel`: both coordinates are clamped to the image, then
the pixel is read.  A read outside the buffer (possible only for an image
without pixels) is undefined in C++ and yields the zero colour here; the
position read is `Image.pixelIndex`, which lies inside the buffer of every image
with at least one pixel. -/
def getPixel (img : Image) (x y : Int) : Color :=
  let cx : Int := max 0 (min x ((img.width : Int) - 1))
  let cy : Int := max 0 (min y ((img.height : Int) - 1))
  img.pixels.getD (cx + (img.width : Int) * cy).toNat ⟨0, 0, 0, 0⟩

/-- The member `Image::setPixel`: no clamping; a write outside the buffer is
undefined in C++ and changes nothing here. -/
def setPixel (img : Image) (x y : Nat) (color : Color) : Image :=
  { img with pixels := img.pixels.set (x + img.width * y) color }

end Image

/-- The loop `for (int i = 0; i < n; i++) body`, as a state transformer. -/
def forLoop {σ : Type} (n : Nat) (body : Nat → σ → σ) (s : σ) : σ :=
  (List.range n).foldl (fun acc i => body i acc) s

/-! ## Single-precision arithmetic of `Timeline::compositeImages`

`compositeImages` blends in `float`.  Non-negative binary32 values are modelled
exactly: `F32.mk num scale` is the number `num / 2 ^ scale`, and every operation
rounds its exact result to 24 significant bits, ties to even.  Exponent range
limits (subnormal numbers, overflow) are not modelled; the blend stays far from
both.  Each C++ operation is rounded on its own (no fused multiply-add). -/

/-- The quotient `n / d` rounded to the nearest integer, ties to the even one. -/
def roundNearestEven (n d : Nat) : Nat :=
  let q := n / d
  let r := n % d
  if 2 * r < d then q
  else if 2 * r > d then q + 1
  else if q % 2 = 0 then q else q + 1

/-- The number `num / 2 ^ scale`. -/
structure F32 where
  num : Nat
  scale : Nat
deriving DecidableEq, Repr

/-- The position of the leading binary digit of `n` (0 for `n < 2`), by halving;
`fuel` bounds the number of halvings and `fuel = n` is always enough. -/
def floorLog2 : Nat → Nat → Nat
  | 0, _ => 0
  | fuel + 1, n => if n < 2 then 0 else floorLog2 fuel (n / 2) + 1

/-- The rational `n / d` rounded to binary32: with `e` the binary exponent of
`n / d`, the multiple of `2 ^ (e - 23)` nearest to `n / d`, ties to even. -/
def f32Round (n d : Nat) : F32 :=
  if n = 0 ∨ d = 0 then ⟨0, 0⟩
  else
    let e0 : Int := (floorLog2 n n : Int) - (floorLog2 d d : Int)
    let atLeast : Bool :=
      if 0 ≤ e0 then decide (d * 2 ^ e0.toNat ≤ n) else decide (d ≤ n * 2 ^ (-e0).toNat)
    let e : Int := if atLeast then e0 else e0 - 1
    let s : Int := 23 - e
    if 0 ≤ s then ⟨roundNearestEven (n * 2 ^ s.toNat) d, s.toNat⟩
    else ⟨roundNearestEven n (d * 2 ^ (-s).toNat) * 2 ^ (-s).toNat, 0⟩

namespace F32

/-- The conversion of a non-negative `int` to `float`. -/
def ofNat (i : Nat) : F32 := f32Round i 1

/-- The `float` division. -/
def div (x y : F32) : F32 := f32Round (x.num * 2 ^ y.scale) (y.num * 2 ^ x.scale)

/-- The `float` multiplication. -/
def mul (x y : F32) : F32 := f32Round (x.num * y.num) (2 ^ (x.scale + y.scale))

/-- The `float` addition. -/
def add (x y : F32) : F32 :=
  f32Round (x.num * 2 ^ y.scale + y.num * 2 ^ x.scale) (2 ^ (x.scale + y.scale))

/-- The `float` subtraction `x - y`, for `y` not larger than `x`. -/
def sub (x y : F32) : F32 :=
  f32Round (x.num * 2 ^ y.scale - y.num * 2 ^ x.scale) (2 ^ (x.scale + y.scale))

/-- The conversion `static_cast<int>` of a non-negative `float`: truncation. -/
def toNat (x : F32) : Nat := x.num / 2 ^ x.scale

end F32

/-- The rational number that an `F32` stands for. -/
def F32.toRat (x : F32) : ℚ := (x.num : ℚ) / 2 ^ x.scale

/-- The value `topPixel.alpha() / 255.0f` of `compositeImages`. -/
def alphaOf (a : Nat) : F32 := (F32.ofNat a).div (F32.ofNat 255)

/-- One channel of the blend of `compositeImages`:
`static_cast<int>(top * alpha + bottom * (1 - alpha))`. -/
def blendChannel (top bottom a : Nat) : Nat :=
  let alpha := alphaOf a
  (((F32.ofNat top).mul alpha).add
    ((F32.ofNat bottom).mul ((F32.ofNat 1).sub alpha))).toNat

/-! ## Video.h, assets/Video.cpp -/

/-- One call into the decoder library. -/
inductive ReaderCall where
  | read
  | seek (targetPts : Int)
deriving DecidableEq, Repr

/-- Modelled from the spec: the decoder library behind `video_reader_read_frame`
and `video_reader_seek_frame`, whose sources are not part of the repository;
`D` is the decoder session (`VideoReaderState`).  A successful read yields the
new content of the frame buffer and the presentation timestamp; a failed read
yields nothing and, as the specification states for decode failures, leaves the
frame buffer as it was.  A seek reports success or failure. -/
structure VideoReader (D : Type) where
  readFrame : D → Option (Image × Int) × D
  seekFrame : D → Int → Bool × D

/-- The class `Video`.  `timeBase` is `av_q2d(videoState.time_base)`.  The field
`calls` is not a C++ member: it records the decoder calls made so far, oldest
first. -/
structure Video (D : Type) where
  videoState : D
  timeBase : ℚ
  lastFrameTime : ℚ
  currentPts : Int
  frameRate : ℚ
  frame : Image
  calls : List ReaderCall

/-- Truncation towards zero. -/
def truncToInt (q : ℚ) : Int := if 0 ≤ q then ⌊q⌋ else ⌈q⌉

/-- The cast `(int64_t)` of a `double`: truncation towards zero when the
truncated value is an `int64_t`.  For other values the C++ conversion is
undefined; the value given here is the one that the conversion instruction of
x86-64 delivers, `INT64_MIN`. -/
def castInt64 (q : ℚ) : Int :=
  if -9223372036854775809 < q ∧ q < 9223372036854775808 then truncToInt q
  else -9223372036854775808

namespace Video

/-- The call `video_reader_read_frame(&videoState, frame_buffer, &pts)` on the
frame buffer of the video; the result is the `pts` of a successful read. -/
def readFrame {D : Type} (rd : VideoReader D) (v : Video D) : Option Int × Video D :=
  match rd.readFrame v.videoState with
  | (some (img, pts), d) =>
    (some pts, { v with videoState := d, frame := img, calls := v.calls ++ [ReaderCall.read] })
  | (none, d) =>
    (none, { v with videoState := d, calls := v.calls ++ [ReaderCall.read] })

/-- The call `video_reader_seek_frame(&videoState, target)`. -/
def seekReader {D : Type} (rd : VideoReader D) (v : Video D) (target : Int) :
    Bool × Video D :=
  match rd.seekFrame v.videoState target with
  | (ok, d) => (ok, { v with videoState := d, calls := v.calls ++ [ReaderCall.seek target] })

/-- The member `Video::seekFrame`.  The target is
`(int64_t)(time / av_q2d(videoState.time_base))`, a `double` quotient. -/
def seekFrame {D : Type} (rd : VideoReader D) (v : Video D) (time : ℚ) : Video D :=
  let target_pts : Int := castInt64 (f64Div time v.timeBase)
  match seekReader rd v target_pts with
  | (true, v1) =>
    match readFrame rd v1 with
    | (some pts, v2) => { v2 with currentPts := pts, lastFrameTime := time }
    | (none, v2) => v2
  | (false, v1) =>
    match seekReader rd v1 0 with
    | (true, v2) =>
      match readFrame rd v2 with
      | (some pts, v3) => { v3 with currentPts := pts, lastFrameTime := 0 }
      | (none, v3) => v3
    | (false, v2) => v2

/-- The member `Video::nextFrame`.  The tests are
`timeJump < -(2.0 / frameRate)`, `timeJump > 1.0` and
`time_since_last_frame >= (1.0 / frameRate)`, on `double` differences and
quotients. -/
def nextFrame {D : Type} (rd : VideoReader D) (v : Video D) (time : ℚ) : Bool × Video D :=
  let timeJump := f64Sub time v.lastFrameTime
  if timeJump < -(f64Div 2 v.frameRate) then (true, seekFrame rd v time)
  else if timeJump > 1 then (true, seekFrame rd v time)
  else
    let time_since_last_frame := f64Sub time v.lastFrameTime
    if time_since_last_frame ≥ f64Div 1 v.frameRate then
      match readFrame rd v with
      | (some pts, v1) => (true, { v1 with currentPts := pts, lastFrameTime := time })
      | (none, v1) => (false, v1)
    else (true, v)

end Video

/-! ## assets/IAsset.h and its implementations -/

/-- An asset behind an `IAsset*`: either one whose `getFrame` returns a stored
image whatever the time (`ImageAsset`, `TextAsset`, `TextOverlay`, `Caption`),
or a `VideoAsset`.  (`DefaultAsset`, which repaints its image on every call, is
not modelled.) -/
inductive Asset (D : Type) where
  | still (image : Image)
  | video (video : Video D)

/-- The virtual member `getFrame(time)`: the returned image and the asset after
the call.  `VideoAsset::getFrame` is `video->nextFrame(time); return
video->getFrame();`, the result of `nextFrame` being dropped. -/
def Asset.getFrame {D : Type} (rd : VideoReader D) (a : Asset D) (time : ℚ) :
    Image × Asset D :=
  match a with
  | Asset.still img => (img, Asset.still img)
  | Asset.video vid =>
    let v1 := (Video.nextFrame rd vid time).2
    (v1.frame, Asset.video v1)

/-- The assets of the application, addressed by the `asset` field of an entry. -/
abbrev AssetStore (D : Type) : Type := Nat → Asset D

/-- The member `TimelineEntry::getFrameAt`: `asset->getFrame(globalTime - startTime)`. -/
def TimelineEntry.getFrameAt {D : Type} (rd : VideoReader D) (store : AssetStore D)
    (e : TimelineEntry) (globalTime : ℚ) : Image × AssetStore D :=
  let localTime := f64Sub globalTime e.startTime
  let res := (store e.asset).getFrame rd localTime
  (res.1, Function.update store e.asset res.2)

/-! ## timeline/Timeline.h, timeline/Timeline.cpp -/

/-- The class `Timeline`: the tracks, bottom first. -/
structure Timeline where
  tracks : List Track
  currentTime : ℚ

/-- The colour written by one step of `compositeImages` at a pixel, from the
sampled pixel of the top image and the current pixel of the bottom image. -/
def blendPixel (topPixel bottomPixel : Color) : Color :=
  Color.ofInts (blendChannel topPixel.r bottomPixel.r topPixel.a)
    (blendChannel topPixel.g bottomPixel.g topPixel.a)
    (blendChannel topPixel.b bottomPixel.b topPixel.a) 255

/-- The result of an `int` operation whose exact value is `n`: the value that
two's complement arithmetic delivers.  (For an `n` outside the range of `int`
the C++ operation is undefined.) -/
def wrapInt (n : Int) : Int := (n + 2147483648) % 4294967296 - 2147483648

/-- The source coordinate of `compositeImages` along one axis:
`std::min((x * topWidth) / bottomWidth, topWidth - 1)`, the product and the
quotient being those of `int`. -/
def sourceCoord (x topSize bottomSize : Nat) : Int :=
  min (Int.tdiv (wrapInt ((x : Int) * (topSize : Int))) (bottomSize : Int))
    ((topSize : Int) - 1)

/-- The member `Timeline::compositeImages`, returning the bottom image after the
call. -/
def compositeImages (bottom top : Image) : Image :=
  let bottomWidth := bottom.width
  let bottomHeight := bottom.height
  let topWidth := top.width
  let topHeight := top.height
  forLoop bottomHeight (fun y img =>
    forLoop bottomWidth (fun x img =>
      let topX := sourceCoord x topWidth bottomWidth
      let topY := sourceCoord y topHeight bottomHeight
      let topPixel := top.getPixel topX topY
      let bottomPixel := img.getPixel x y
      img.setPixel x y (blendPixel topPixel bottomPixel)) img) bottom

/-- The first loop of `renderFrameAt`: a new image filled with `Color(32, 32, 32, 255)`. -/
def backgroundCanvas (width height : Nat) : Image :=
  forLoop height (fun y img =>
    forLoop width (fun x img => img.setPixel x y (Color.ofInts 32 32 32 255)) img)
    (Image.new width height)

/-- The second loop of `renderFrameAt` over the remaining tracks, threading the
result image and the assets. -/
def renderTracks {D : Type} (rd : VideoReader D) (time : ℚ) :
    List Track → Image × AssetStore D → Image × AssetStore D
  | [], acc => acc
  | track :: rest, acc =>
    if track.visible = false then renderTracks rd time rest acc
    else
      match track.getEntryAt time with
      | none => renderTracks rd time rest acc
      | some entry =>
        let layer := entry.getFrameAt rd acc.2 time
        renderTracks rd time rest (compositeImages acc.1 layer.1, layer.2)

/-- The member `Timeline::renderFrameAt`: the returned image and the assets after
the call. -/
def Timeline.renderFrameAt {D : Type} (rd : VideoReader D) (tl : Timeline)
    (store : AssetStore D) (time : ℚ) (width height : Nat) : Image × AssetStore D :=
  renderTracks rd time tl.tracks (backgroundCanvas width height, store)

/-! ## Auxiliary notions for the renderer -/

/-- The common shape of the two pixel loops of `Timeline.cpp`: for every row `y`
and every column `x`, in this order, the pixel `(x, y)` is overwritten by a colour
computed from its coordinates and its current colour. -/
def pixelLoop (f : Nat → Nat → Color → Color) (width height : Nat) (img : Image) : Image :=
  forLoop height (fun y im =>
    forLoop width (fun x im => im.setPixel x y (f x y (im.getPixel x y))) im) img

/-- The pixel buffer has one entry per pixel. -/
def Image.WellSized (img : Image) : Prop := img.pixels.length = img.width * img.height

/-- A frame as an asset delivers it: at least one pixel, a buffer of the right
size, and every channel a byte. -/
def Image.IsFrame (img : Image) : Prop :=
  img.WellSized ∧ 0 < img.width ∧ 0 < img.height ∧
    ∀ p ∈ img.pixels, p.r < 256 ∧ p.g < 256 ∧ p.b < 256 ∧ p.a < 256

/-- The frame can be composited onto a `width` by `height` canvas with every
operation defined: it is a frame with at least one pixel, the size of its buffer
in bytes is an `int`, and so are the products `x * topWidth` and `y * topHeight`
formed for the pixels of the canvas. -/
def Image.CompositesOnto (img : Image) (width height : Nat) : Prop :=
  img.IsFrame ∧ img.width * img.height * 4 < 2147483648 ∧
    width * img.width < 2147483648 ∧ height * img.height < 2147483648

/-- The entries that `renderFrameAt` draws at `time`, bottom first: the active
entry of each visible track that has one. -/
def Timeline.activeVisibleEntries (tl : Timeline) (time : ℚ) : List TimelineEntry :=
  tl.tracks.filterMap (fun track => if track.visible = true then track.getEntryAt time else none)

/-- Drawing one entry: its frame is requested from its asset and composited onto
the canvas. -/
def renderStep {D : Type} (rd : VideoReader D) (time : ℚ)
    (acc : Image × AssetStore D) (entry : TimelineEntry) : Image × AssetStore D :=
  (compositeImages acc.1 (entry.getFrameAt rd acc.2 time).1, (entry.getFrameAt rd acc.2 time).2)

/-- The frames delivered for a list of entries, in order, and the assets after
the last request. -/
def requestFrames {D : Type} (rd : VideoReader D) (time : ℚ) :
    List TimelineEntry → AssetStore D → List Image × AssetStore D
  | [], store => ([], store)
  | entry :: rest, store =>
    ((entry.getFrameAt rd store time).1 ::
        (requestFrames rd time rest (entry.getFrameAt rd store time).2).1,
      (requestFrames rd time rest (entry.getFrameAt rd store time).2).2)

/-- The asset is one whose `getFrame` returns a stored image. -/
def Asset.IsStill {D : Type} (a : Asset D) : Prop := ∃ img : Image, a = Asset.still img

/-- The decoder never fails: every read delivers a frame and every seek succeeds. -/
def VideoReader.Faultless {D : Type} (rd : VideoReader D) : Prop :=
  (∀ d : D, ∃ (img : Image) (pts : Int) (d1 : D), rd.readFrame d = (some (img, pts), d1)) ∧
  (∀ (d : D) (target : Int), ∃ d1 : D, rd.seekFrame d target = (true, d1))

/-! ## Example data: decoders and videos -/

/-- A one-pixel opaque frame whose red channel is `k`. -/
def frameNo (k : Nat) : Image :=
  { width := 1, height := 1, pixels := [Color.ofInts k 0 0 255] }

/-- A decoder whose session is a frame counter: a read at position `p` yields
frame `p` with timestamp `p` and moves to `p + 1`; a seek always succeeds and
sets the position. -/
def counterReader : VideoReader Nat :=
  { readFrame := fun p => (some (frameNo p, (p : Int)), p + 1),
    seekFrame := fun _ target => (true, target.toNat) }

/-- The frame counter with every seek failing. -/
def noSeekReader : VideoReader Nat :=
  { readFrame := fun p => (some (frameNo p, (p : Int)), p + 1),
    seekFrame := fun p _ => (false, p) }

/-- The frame counter with seeks succeeding to position 0 only. -/
def startOnlyReader : VideoReader Nat :=
  { readFrame := fun p => (some (frameNo p, (p : Int)), p + 1),
    seekFrame := fun p target => if target = 0 then (true, 0) else (false, p) }

/-- A decoder whose reads fail; seeks succeed. -/
def noReadReader : VideoReader Nat :=
  { readFrame := fun p => (none, p),
    seekFrame := fun _ target => (true, target.toNat) }

/-- A 30 fps video (time base `1.0 / 30`) whose last decoded query was at time `last`:
frame 0 is in the buffer and the decoder stands at position 1. -/
def videoAt (last : ℚ) : Video Nat :=
  { videoState := 1, timeBase := f64Div 1 30, lastFrameTime := last, currentPts := 0,
    frameRate := 30, frame := frameNo 0, calls := [] }

/-! ## Example data: timelines and assets -/

/-- Every asset is the still image `frameNo 0`. -/
def stillStore : AssetStore Nat := fun _ => Asset.still (frameNo 0)

/-- The timeline whose only track holds `A` (0, 3) and `B` (5, 2). -/
def timelineAB : Timeline := { tracks := [trackAB], currentTime := 0 }

/-- A clip of asset 0, from time 0, ten seconds long. -/
def clipEntry : TimelineEntry := { asset := 0, startTime := 0, duration := 10 }

/-- A clip of asset 0, from time 0.5, ten seconds long. -/
def lateClipEntry : TimelineEntry := { asset := 0, startTime := 1 / 2, duration := 10 }

/-- A clip of asset 1, from time 0, ten seconds long. -/
def overlayEntry : TimelineEntry := { asset := 1, startTime := 0, duration := 10 }

/-- A track holding `clipEntry`. -/
def clipTrack : Track :=
  { name := "Track 0", color := ⟨100, 150, 200, 255⟩, visible := true,
    entries := [clipEntry] }

/-- A track holding `lateClipEntry`. -/
def lateClipTrack : Track :=
  { name := "Track 1", color := ⟨200, 100, 150, 255⟩, visible := true,
    entries := [lateClipEntry] }

/-- A track holding `overlayEntry`. -/
def overlayTrack : Track :=
  { name := "Track 1", color := ⟨200, 100, 150, 255⟩, visible := true,
    entries := [overlayEntry] }

/-- Every asset is the 30 fps video of `videoAt last`. -/
def videoStore (last : ℚ) : AssetStore Nat := fun _ => Asset.video (videoAt last)

/-- A one-pixel opaque white frame. -/
def whiteFrame : Image := { width := 1, height := 1, pixels := [⟨255, 255, 255, 255⟩] }

/-- A one-pixel black frame of alpha 128. -/
def halfBlackFrame : Image := { width := 1, height := 1, pixels := [⟨0, 0, 0, 128⟩] }

/-- Asset 0 is the white frame, every other asset the half-transparent black one. -/
def blendStore : AssetStore Nat :=
  fun n => if n = 0 then Asset.still whiteFrame else Asset.still halfBlackFrame

/-- The video of `videoAt 5` after a query at 0.5 whose seek to position 15 failed
and whose fallback seek to position 0 succeeded. -/
def videoAfterFallback : Video Nat :=
  { videoState := 1, timeBase := f64Div 1 30, lastFrameTime := 0, currentPts := 0,
    frameRate := 30, frame := frameNo 0,
    calls := [ReaderCall.seek 15, ReaderCall.seek 0, ReaderCall.read] }

/-- The video of `videoAt 0` after a sequential read at time 0.5. -/
def videoRead1 : Video Nat :=
  { videoState := 2, timeBase := f64Div 1 30, lastFrameTime := 1 / 2, currentPts := 1,
    frameRate := 30, frame := frameNo 1, calls := [ReaderCall.read] }

/-- The video `videoRead1` after a sequential read at time 1. -/
def videoRead2 : Video Nat :=
  { videoState := 3, timeBase := f64Div 1 30, lastFrameTime := 1, currentPts := 2,
    frameRate := 30, frame := frameNo 2, calls := [ReaderCall.read, ReaderCall.read] }

/-- The video `videoRead2` after a seek back to time 0.5 (position 15). -/
def videoSeek15 : Video Nat :=
  { videoState := 16, timeBase := f64Div 1 30, lastFrameTime := 1 / 2, currentPts := 15,
    frameRate := 30, frame := frameNo 15,
    calls := [ReaderCall.read, ReaderCall.read, ReaderCall.seek 15, ReaderCall.read] }

/-- The timeline with the single track `clipTrack`. -/
def clipTimeline : Timeline := { tracks := [clipTrack], currentTime := 0 }

/-- The timeline with `lateClipTrack` below `clipTrack`: both clips show asset 0. -/
def sharedTimeline : Timeline := { tracks := [lateClipTrack, clipTrack], currentTime := 0 }

/-- The timeline with `clipTrack` (asset 0) below `overlayTrack` (asset 1). -/
def overlayTimeline : Timeline := { tracks := [clipTrack, overlayTrack], currentTime := 0 }

/-! ## The constructor of `Video` -/

/-- What a successful `video_reader_open` leaves in `videoState`: the decoder
session, the stream's time base `av_q2d(videoState.time_base)` and the frame
size.  The time base is a rational number here; the pair 0/0, for which
`av_q2d` is not a number, has no counterpart. -/
structure OpenedStream (D : Type) where
  videoState : D
  timeBase : ℚ
  width : Nat
  height : Nat

namespace Video

/-- The constructor `Video::Video(filename)`.  `opened` is the outcome of
`video_reader_open` (`none` when it fails) and `closed` the session a failed
open leaves behind.  The members start with their default initialisers
(`lastFrameTime = 0.0`, `currentPts = 0`, `frameRate = 30.0`).  After a failed
open the C++ `frame` pointer is not initialised; here it is the empty image.
The result of the first read is not checked: when it fails, `pts` is not
initialised in C++ and `currentPts` keeps 0 here. -/
def new {D : Type} (rd : VideoReader D) (closed : D) (opened : Option (OpenedStream D)) :
    Video D :=
  match opened with
  | some s =>
    let frameRate0 : ℚ := s.timeBase
    let frameRate1 : ℚ := f64Div 1 frameRate0
    let frameRate : ℚ := if frameRate1 > 60 ∨ frameRate1 < 1 then 30 else frameRate1
    let v0 : Video D :=
      { videoState := s.videoState, timeBase := s.timeBase, lastFrameTime := 0,
        currentPts := 0, frameRate := frameRate, frame := Image.new s.width s.height,
        calls := [] }
    match readFrame rd v0 with
    | (some pts, v1) => { v1 with currentPts := pts }
    | (none, v1) => v1
  | none =>
    { videoState := closed, timeBase := 0, lastFrameTime := 0, currentPts := 0,
      frameRate := 30, frame := Image.new 0 0, calls := [] }

/-- The member `Video::getFramesPerSecond`. -/
def getFramesPerSecond {D : Type} (v : Video D) : ℚ := v.frameRate

end Video

/-- One call of a state-changing public member of `Video`. -/
inductive VideoOp where
  | nextFrame (time : ℚ)
  | seekFrame (time : ℚ)

/-- The video after one call. -/
def VideoOp.apply {D : Type} (rd : VideoReader D) (v : Video D) : VideoOp → Video D
  | VideoOp.nextFrame time => (Video.nextFrame rd v time).2
  | VideoOp.seekFrame time => Video.seekFrame rd v time

/-- The video after a sequence of calls, first call first. -/
def runVideoOps {D : Type} (rd : VideoReader D) (v : Video D) : List VideoOp → Video D
  | [] => v
  | op :: rest => runVideoOps rd (op.apply rd v) rest

/-- The frame rate the constructor settles on for a stream whose time base is
`timeBase`, as the claim states it: `1 / timeBase` (the `double` quotient) when
that lies in `[1, 60]`, 30 otherwise. -/
def specFrameRate (timeBase : ℚ) : ℚ :=
  if 1 ≤ f64Div 1 timeBase ∧ f64Div 1 timeBase ≤ 60 then f64Div 1 timeBase else 30

/-- A stream of 25 frames per second, 4 by 2 pixels. -/
def stream25 : OpenedStream Nat := { videoState := 0, timeBase := f64Div 1 25, width := 4, height := 2 }

/-- A stream with a time base of one millisecond, as many containers report. -/
def streamMillis : OpenedStream Nat :=
  { videoState := 0, timeBase := f64Div 1 1000, width := 4, height := 2 }

/-- The default constructor `Image()`, also the result of loading a missing
file: no pixels. -/
def Image.empty : Image := { width := 0, height := 0, pixels := [] }

/-- The position in the pixel buffer that `getPixel(x, y)` reads, counted in
pixels: `x + width * y` after the clamping of both coordinates. -/
def Image.pixelIndex (img : Image) (x y : Int) : Int :=
  max 0 (min x ((img.width : Int) - 1)) + (img.width : Int) * max 0 (min y ((img.height : Int) - 1))

/-- A 2 by 2 opaque frame with four different colours. -/
def quadFrame : Image :=
  { width := 2, height := 2,
    pixels := [⟨10, 0, 0, 255⟩, ⟨20, 0, 0, 255⟩, ⟨30, 0, 0, 255⟩, ⟨40, 0, 0, 255⟩] }

/-- Asset 0 is the half-transparent black frame, every other asset the 2 by 2
opaque frame. -/
def quadStore : AssetStore Nat :=
  fun n => if n = 0 then Asset.still halfBlackFrame else Asset.still quadFrame

/-- Asset 0 is an image without pixels (as an `ImageAsset` whose file failed to
load delivers), every other asset the 2 by 2 opaque frame. -/
def missingFileStore : AssetStore Nat :=
  fun n => if n = 0 then Asset.still Image.empty else Asset.still quadFrame

/-! ## export/ExportFacade.h, export/ExportFacade.cpp -/

/-- The conversion `static_cast<int>` of a `double`: truncation towards zero when
the truncated value is an `int`.  For other values the C++ conversion is
undefined; the value given here is the one that the conversion instruction of
x86-64 delivers, `INT_MIN`. -/
def castInt (q : ℚ) : Int :=
  if -2147483649 < q ∧ q < 2147483648 then truncToInt q else -2147483648

/-- The enumeration `ExportFormat`. -/
inductive ExportFormat where
  | PNG
  | JPEG
  | BMP
  | PPM
  | MP4
deriving DecidableEq, Repr

/-- The structure `ExportSettings`. -/
structure ExportSettings where
  format : ExportFormat
  quality : Int
  width : Int
  height : Int
  frameRate : ℚ

/-- The constructor `ExportSettings()`. -/
def ExportSettings.new : ExportSettings :=
  { format := ExportFormat.PNG, quality := 90, width := -1, height := -1, frameRate := 30 }

/-- The four image writers of `stb_image_write.h` that `writeImageFile` calls. -/
inductive StbiWriter where
  | png
  | jpg
  | bmp
  | tga
deriving DecidableEq, Repr

/-- One call of the facade into a collaborator: the timeline renderer, an image
writer (the quality is passed to the JPEG writer only) or the video encoder. -/
inductive ExportCall where
  | renderFrameAt (time : ℚ) (width height : Nat)
  | stbiWrite (writer : StbiWriter) (filename : String) (image : Image) (quality : Option Int)
  | writerOpen (filename : String) (width height : Nat) (fps : Int)
  | writerWriteFrame (frame : Image)
  | writerClose

/-- The call is one of `video_writer_open`, `video_writer_write_frame`,
`video_writer_close`. -/
def ExportCall.isEncoderCall : ExportCall → Bool
  | ExportCall.writerOpen _ _ _ _ => true
  | ExportCall.writerWriteFrame _ => true
  | ExportCall.writerClose => true
  | _ => false

/-- The call is a `renderFrameAt`. -/
def ExportCall.isRenderCall : ExportCall → Bool
  | ExportCall.renderFrameAt _ _ _ => true
  | _ => false

/-- The collaborators of the facade whose code is outside the repository: the
image writers of stb (the returned `int`, 0 for failure), the encoder behind
`lib/video_writer.cpp` (FFmpeg; `W` is the `VideoWriterState`), and
`std::to_string(double)`. -/
structure ExportEnv (W : Type) where
  stbiWrite : StbiWriter → String → Image → Option Int → Int
  writerOpen : String → Nat → Nat → Int → Option W
  writerWriteFrame : W → Image → Bool × W
  timeToString : ℚ → String

/-- The class `ExportFacade`.  The field `calls` is not a C++ member: it records
the calls into collaborators made so far, oldest first. -/
structure ExportFacade where
  lastError : String
  calls : List ExportCall

/-- The static member `ExportFacade::getDefaultExtension`. -/
def getDefaultExtension : ExportFormat → String
  | ExportFormat.PNG => ".png"
  | ExportFormat.JPEG => ".jpg"
  | ExportFormat.BMP => ".bmp"
  | ExportFormat.PPM => ".ppm"
  | ExportFormat.MP4 => ".mp4"

/-- The static member `ExportFacade::isValidFilenameForFormat`.  A `std::string`
is the list of its characters; `::tolower` is `Char.toLower`, which changes the
letters `A` to `Z` only. -/
def isValidFilenameForFormat (filename : String) (format : ExportFormat) : Bool :=
  let ext : List Char := (getDefaultExtension format).toList
  let lower : List Char := filename.toList.map Char.toLower
  if lower.length < ext.length then false
  else
    let fileExt : List Char := lower.drop (lower.length - ext.length)
    if format = ExportFormat.JPEG ∧ fileExt = ".jpeg".toList then true
    else decide (fileExt = ext)

namespace ExportFacade

/-- The constructor `ExportFacade()`. -/
def new : ExportFacade := { lastError := "", calls := [] }

/-- The member `resizeIfNeeded`: always a copy of the image. -/
def resizeIfNeeded (fac : ExportFacade) (image : Image) (settings : ExportSettings) :
    Image × ExportFacade :=
  if settings.width ≤ 0 ∧ settings.height ≤ 0 then (image, fac)
  else
    (image, { fac with
      lastError := "Warning: Image resizing not yet implemented, using original size" })

/-- The tail of `writeImageFile` after the `switch`: one call of an stb writer
and the test of its result. -/
def stbiResult {W : Type} (env : ExportEnv W) (fac : ExportFacade) (writer : StbiWriter)
    (filename : String) (image : Image) (quality : Option Int) : Bool × ExportFacade :=
  let result : Int := env.stbiWrite writer filename image quality
  let fac1 : ExportFacade :=
    { fac with calls := fac.calls ++ [ExportCall.stbiWrite writer filename image quality] }
  if result = 0 then
    (false, { fac1 with
      lastError := "Failed to write image file (disk full or permission denied)" })
  else (true, fac1)

/-- The member `writeImageFile`. -/
def writeImageFile {W : Type} (env : ExportEnv W) (fac : ExportFacade) (image : Image)
    (filename : String) (format : ExportFormat) (quality : Int) : Bool × ExportFacade :=
  match format with
  | ExportFormat.PNG => stbiResult env fac StbiWriter.png filename image none
  | ExportFormat.JPEG => stbiResult env fac StbiWriter.jpg filename image (some quality)
  | ExportFormat.BMP => stbiResult env fac StbiWriter.bmp filename image none
  | ExportFormat.PPM => stbiResult env fac StbiWriter.tga filename image none
  | ExportFormat.MP4 => (false, { fac with lastError := "Use exportVideo() for MP4 format" })

/-- The member `exportImage`. -/
def exportImage {W : Type} (env : ExportEnv W) (fac : ExportFacade) (image : Image)
    (filename : String) (settings : ExportSettings) : Bool × ExportFacade :=
  let fac0 : ExportFacade := { fac with lastError := "" }
  if image.width ≤ 0 ∨ image.height ≤ 0 then
    (false, { fac0 with lastError := "Invalid image: dimensions must be positive" })
  else if isValidFilenameForFormat filename settings.format = false then
    (false, { fac0 with lastError := "Filename extension does not match export format" })
  else
    let processed := resizeIfNeeded fac0 image settings
    writeImageFile env processed.2 processed.1 filename settings.format settings.quality

/-- The member `exportAsset`; `none` is the null pointer.  The third component is
the asset after the call (`getFrame` may change a video asset). -/
def exportAsset {D W : Type} (rd : VideoReader D) (env : ExportEnv W) (fac : ExportFacade)
    (asset : Option (Asset D)) (filename : String) (settings : ExportSettings) :
    Bool × ExportFacade × Option (Asset D) :=
  match asset with
  | none => (false, { fac with lastError := "Asset is null" }, none)
  | some a =>
    let frame := a.getFrame rd 0
    let res := exportImage env fac frame.1 filename settings
    (res.1, res.2, some frame.2)

/-- The frame loop of `exportVideo` from frame number `i` on. -/
def writeFrames {W : Type} (env : ExportEnv W) (width height : Nat) :
    List Image → Nat → W → ExportFacade → Bool × ExportFacade
  | [], _, _, fac => (true, { fac with calls := fac.calls ++ [ExportCall.writerClose] })
  | frame :: rest, i, writer, fac =>
    if frame.width ≠ width ∨ frame.height ≠ height then
      writeFrames env width height rest (i + 1) writer fac
    else
      match env.writerWriteFrame writer frame with
      | (false, _) =>
        (false, { lastError := "Failed to write frame " ++ toString i,
                  calls := fac.calls ++ [ExportCall.writerWriteFrame frame,
                    ExportCall.writerClose] })
      | (true, writer1) =>
        writeFrames env width height rest (i + 1) writer1
          { fac with calls := fac.calls ++ [ExportCall.writerWriteFrame frame] }

/-- The member `exportVideo`. -/
def exportVideo {W : Type} (env : ExportEnv W) (fac : ExportFacade) (frames : List Image)
    (filename : String) (settings : ExportSettings) : Bool × ExportFacade :=
  match frames with
  | [] => (false, { fac with lastError := "No frames to export" })
  | first :: _ =>
    let width := first.width
    let height := first.height
    let fps : Int := castInt settings.frameRate
    let fac1 : ExportFacade :=
      { fac with calls := fac.calls ++ [ExportCall.writerOpen filename width height fps] }
    match env.writerOpen filename width height fps with
    | none => (false, { fac1 with lastError := "Failed to open video writer" })
    | some writer => writeFrames env width height frames 0 writer fac1

/-- The render loop of `exportTimeline` with `n` frames left, the next one being
frame number `i`, rendered at the time `i / settings.frameRate` (a `double`
quotient); `frames` are the frames rendered so far.  `render` is
`Timeline::renderFrameAt` as the facade sees it, a function that returns a
pointer (`none` is the null pointer) and may change the state `σ` of the assets.
The first component is `none` when the loop was left by `return false`. -/
def renderLoop {σ W : Type} (env : ExportEnv W)
    (render : Timeline → σ → ℚ → Nat → Nat → Option Image × σ) (timeline : Timeline)
    (frameRate : ℚ) (width height : Nat) :
    Nat → Nat → List Image → σ → ExportFacade → Option (List Image) × σ × ExportFacade
  | 0, _, frames, st, fac => (some frames, st, fac)
  | n + 1, i, frames, st, fac =>
    let time : ℚ := f64Div (i : ℚ) frameRate
    let fac1 : ExportFacade :=
      { fac with calls := fac.calls ++ [ExportCall.renderFrameAt time width height] }
    match render timeline st time width height with
    | (none, st1) =>
      (none, st1,
        { fac1 with lastError := "Failed to render frame at time " ++ env.timeToString time })
    | (some frame, st1) =>
      renderLoop env render timeline frameRate width height n (i + 1) (frames ++ [frame]) st1 fac1

end ExportFacade

/-- The member `Timeline::getTotalDuration`. -/
def Timeline.getTotalDuration (tl : Timeline) : ℚ :=
  tl.tracks.foldl (fun maxDuration track =>
    let trackDuration := track.getTotalDuration
    if trackDuration > maxDuration then trackDuration else maxDuration) 0

/-- The member `ExportFacade::exportTimeline`; `none` is the null pointer.  The
third component is the state of the assets after the call.  The number of frames
is `static_cast<int>(duration * settings.frameRate)`, a `double` product. -/
def ExportFacade.exportTimeline {σ W : Type} (env : ExportEnv W)
    (render : Timeline → σ → ℚ → Nat → Nat → Option Image × σ) (fac : ExportFacade)
    (timeline : Option Timeline) (st : σ) (filename : String) (settings : ExportSettings)
    (width height : Nat) : Bool × ExportFacade × σ :=
  match timeline with
  | none => (false, { fac with lastError := "Timeline is null" }, st)
  | some tl =>
    let duration : ℚ := tl.getTotalDuration
    if duration ≤ 0 then
      (false, { fac with lastError := "Timeline has no duration (empty or no tracks)" }, st)
    else if settings.format ≠ ExportFormat.MP4 then
      let fac1 : ExportFacade :=
        { fac with calls := fac.calls ++ [ExportCall.renderFrameAt 0 width height] }
      match render tl st 0 width height with
      | (none, st1) => (false, { fac1 with lastError := "Failed to render timeline frame" }, st1)
      | (some frame, st1) =>
        let res := ExportFacade.exportImage env fac1 frame filename settings
        (res.1, res.2, st1)
    else
      let numFrames : Int := castInt (f64Mul duration settings.frameRate)
      match ExportFacade.renderLoop env render tl settings.frameRate width height
          numFrames.toNat 0 [] st fac with
      | (none, st1, fac1) => (false, fac1, st1)
      | (some frames, st1, fac1) =>
        let res := ExportFacade.exportVideo env fac1 frames filename settings
        (res.1, res.2, st1)

/-- The member `Timeline::renderFrameAt` as a function returning a pointer: the
image is always allocated, so the pointer is never null. -/
def Timeline.renderFramePtr {D : Type} (rd : VideoReader D) (tl : Timeline)
    (store : AssetStore D) (time : ℚ) (width height : Nat) : Option Image × AssetStore D :=
  (some (tl.renderFrameAt rd store time width height).1,
    (tl.renderFrameAt rd store time width height).2)

/-! ## assets/CompositeAssetFactory.h, assets/CompositeAssetFactory.cpp -/

/-- A child factory behind an `IAssetFactory*`: its `const` member `create`, from
the path to the created asset, `none` for the null pointer.  `A` is the type of
assets. -/
abbrev AssetFactory (A : Type) : Type := String → Option A

/-- The class `CompositeAssetFactory`. -/
structure CompositeAssetFactory (A : Type) where
  factories : List (AssetFactory A)

namespace CompositeAssetFactory

/-- A composite without children, as the implicit constructor leaves it. -/
def new {A : Type} : CompositeAssetFactory A := { factories := [] }

/-- The member `add`: `factories.push_back(factory)`. -/
def add {A : Type} (c : CompositeAssetFactory A) (factory : AssetFactory A) :
    CompositeAssetFactory A :=
  { factories := c.factories ++ [factory] }

/-- The loop of `create` from child number `i` on.  The second component is not
computed by the C++ code: it lists the numbers of the children whose `create`
was called, `asked` being those called before. -/
def createLoop {A : Type} (value : String) :
    List (AssetFactory A) → Nat → List Nat → Option A × List Nat
  | [], _, asked => (none, asked)
  | factory :: rest, i, asked =>
    match factory value with
    | some asset => (some asset, asked ++ [i])
    | none => createLoop value rest (i + 1) (asked ++ [i])

/-- The member `create`, with the numbers of the children that were asked. -/
def create {A : Type} (c : CompositeAssetFactory A) (value : String) : Option A × List Nat :=
  createLoop value c.factories 0 []

end CompositeAssetFactory

/-- A factory for names ending in `.png`, creating the asset 1. -/
def pngFactory : AssetFactory Nat :=
  fun value => if isValidFilenameForFormat value ExportFormat.PNG then some 1 else none

/-- A factory for names ending in `.mp4`, creating the asset 2. -/
def mp4Factory : AssetFactory Nat :=
  fun value => if isValidFilenameForFormat value ExportFormat.MP4 then some 2 else none

/-- A factory that creates the asset 3 for every name, like `DefaultAssetFactory`. -/
def anyFactory : AssetFactory Nat := fun _ => some 3

/-! ## graphics/Color.h (arithmetic) and filters/MeanBlurFilter.h -/

/-- The member `Color::clamp(min, max)`, the result being built by the
constructor. -/
def Color.clamp (c : Color) (lo hi : Nat) : Color :=
  Color.ofInts (max lo (min hi c.r)) (max lo (min hi c.g)) (max lo (min hi c.b))
    (max lo (min hi c.a))

/-- The member `Color::operator+(const Color&)`: the four sums are passed to the
constructor, which stores each in an `unsigned char`, and the result is clamped
to `[0, 255]` afterwards. -/
def Color.add (c d : Color) : Color :=
  (Color.ofInts (c.r + d.r) (c.g + d.g) (c.b + d.b) (c.a + d.a)).clamp 0 255

/-- The member `Color::operator/(float)`: each channel is divided in `float` and
the quotient truncated. -/
def Color.divFloat (c : Color) (f : F32) : Color :=
  if f.num = 0 then c
  else
    (Color.ofInts ((F32.ofNat c.r).div f).toNat ((F32.ofNat c.g).div f).toNat
      ((F32.ofNat c.b).div f).toNat ((F32.ofNat c.a).div f).toNat).clamp 0 255

/-- The two inner loops of `MeanBlurFilter::Apply` at the pixel `(x, y)`: the
`Color` sum over `dx`, `dy` in `-1, 0, 1` of `original.getPixel(x + dx, y + dy)`. -/
def neighbourhoodSum (original : Image) (x y : Nat) : Color :=
  [(-1 : Int), 0, 1].foldl (fun sum dx =>
    [(-1 : Int), 0, 1].foldl (fun sum dy =>
      sum.add (original.getPixel ((x : Int) + dx) ((y : Int) + dy))) sum)
    (Color.ofInts 0 0 0 0)

/-- The member `MeanBlurFilter::Apply`, returning the image `filtered`. -/
def MeanBlurFilter.Apply (original : Image) : Image :=
  forLoop original.width (fun x filtered =>
    forLoop original.height (fun y filtered =>
      filtered.setPixel x y ((neighbourhoodSum original x y).divFloat (F32.ofNat 9)))
      filtered) original

/-- The sum of one channel over the 3 by 3 neighbourhood of `(x, y)`, pixels
outside the image being taken from the nearest edge pixel (the clamping of
`getPixel`). -/
def channelSum (channel : Color → Nat) (original : Image) (x y : Nat) : Nat :=
  (([(-1 : Int), 0, 1].map (fun dx =>
    ([(-1 : Int), 0, 1].map (fun dy =>
      channel (original.getPixel ((x : Int) + dx) ((y : Int) + dy)))).sum)).sum)

/-- A one-pixel image of the colour (100, 100, 100), opaque. -/
def grayPixel : Image := { width := 1, height := 1, pixels := [⟨100, 100, 100, 255⟩] }

/-- A 2 by 1 image of dark pixels. -/
def darkPair : Image :=
  { width := 2, height := 1, pixels := [⟨10, 20, 0, 5⟩, ⟨19, 2, 0, 5⟩] }

/-! ## Auxiliary notions for the export driver -/

/-- The frames that `n` successive calls of `renderFrameAt` return for the frame
numbers `i`, `i + 1`, ... at the times `number / frameRate` (`double`
quotients), each call starting
from the assets that the previous one left, and the assets after the last call. -/
def renderedFrames {D : Type} (rd : VideoReader D) (tl : Timeline) (frameRate : ℚ)
    (width height : Nat) : Nat → Nat → AssetStore D → List Image × AssetStore D
  | 0, _, store => ([], store)
  | n + 1, i, store =>
    ((tl.renderFrameAt rd store (f64Div (i : ℚ) frameRate) width height).1 ::
        (renderedFrames rd tl frameRate width height n (i + 1)
          (tl.renderFrameAt rd store (f64Div (i : ℚ) frameRate) width height).2).1,
      (renderedFrames rd tl frameRate width height n (i + 1)
          (tl.renderFrameAt rd store (f64Div (i : ℚ) frameRate) width height).2).2)

/-- The state in which frame number `i + j` is rendered when frame number `i` is
rendered in state `st` and every frame from the state its predecessor left. -/
def stateBeforeFrame {σ : Type} (render : Timeline → σ → ℚ → Nat → Nat → Option Image × σ)
    (tl : Timeline) (frameRate : ℚ) (width height : Nat) : Nat → Nat → σ → σ
  | _, 0, st => st
  | i, j + 1, st =>
    stateBeforeFrame render tl frameRate width height (i + 1) j
      (render tl st (f64Div (i : ℚ) frameRate) width height).2

/-- The calls `renderFrameAt(number / frameRate, width, height)` for a list of
frame numbers, the times being `double` quotients. -/
def renderCalls (frameRate : ℚ) (width height : Nat) (numbers : List Nat) : List ExportCall :=
  numbers.map (fun (j : Nat) => ExportCall.renderFrameAt (f64Div (j : ℚ) frameRate) width height)

/-- The facade after the render calls for the frame numbers `0` to `n - 1`. -/
def afterRenders (fac : ExportFacade) (frameRate : ℚ) (width height n : Nat) : ExportFacade :=
  { fac with calls := fac.calls ++ renderCalls frameRate width height (List.range n) }

/-- The name of an MP4 file. -/
def mp4File : String := "out.mp4"

/-- The name of a PNG file. -/
def pngFile : String := "title.png"

/-- A file name with the long JPEG extension. -/
def jpegFile : String := "photo.jpeg"

/-- A file name with the short JPEG extension, in capitals. -/
def jpgFile : String := "PHOTO.JPG"

/-- The class `TextAsset`: `renderedImage` is the image that the text renderer
produced at construction. -/
structure TextAsset where
  renderedImage : Image

/-- The member `TextAsset::getDuration`. -/
def TextAsset.getDuration (_a : TextAsset) : ℚ := 0

/-- The member `TextAsset::getFrame`. -/
def TextAsset.getFrame (a : TextAsset) (_time : ℚ) : Image := a.renderedImage

/-- A `TextAsset` behind an `IAsset*`. -/
def TextAsset.toAsset {D : Type} (a : TextAsset) : Asset D := Asset.still a.renderedImage

/-- A text asset whose rendered image is the one-pixel white frame. -/
def titleAsset : TextAsset := { renderedImage := whiteFrame }

/-- Collaborators that never fail. -/
def okEnv : ExportEnv Unit :=
  { stbiWrite := fun _ _ _ _ => 1,
    writerOpen := fun _ _ _ _ => some (),
    writerWriteFrame := fun writer _ => (true, writer),
    timeToString := fun q => toString q.num ++ "/" ++ toString q.den }

/-- A renderer whose state counts its calls and whose call number `k` (counted
from 0) returns the null pointer. -/
def failingRender (k : Nat) : Timeline → Nat → ℚ → Nat → Nat → Option Image × Nat :=
  fun _ count _ width height =>
    (if count = k then none else some (backgroundCanvas width height), count + 1)

/-- Settings for an MP4 export at one frame per second. -/
def mp4Settings : ExportSettings :=
  { format := ExportFormat.MP4, quality := 90, width := -1, height := -1, frameRate := 1 }

/-- A timeline without tracks. -/
def emptyTimeline : Timeline := { tracks := [], currentTime := 0 }

/-- A clip of asset 0, from time 0, lasting 0.7 s (the `double` nearest to 7/10). -/
def shortClipEntry : TimelineEntry :=
  { asset := 0, startTime := 0, duration := roundDouble (7 / 10) }

/-- A track holding `shortClipEntry`. -/
def shortClipTrack : Track :=
  { name := "Track 0", color := ⟨100, 150, 200, 255⟩, visible := true,
    entries := [shortClipEntry] }

/-- The timeline with the single track `shortClipTrack`. -/
def shortClipTimeline : Timeline := { tracks := [shortClipTrack], currentTime := 0 }

/-- Settings for an MP4 export at ten frames per second. -/
def mp4Settings10 : ExportSettings :=
  { format := ExportFormat.MP4, quality := 90, width := -1, height := -1, frameRate := 10 }

/-! ## Rounding to binary64 -/

theorem floor_le_roundTiesEven (x : ℚ) : ⌊x⌋ ≤ roundTiesEven x := by
  unfold roundTiesEven
  split_ifs <;> omega

theorem roundTiesEven_le_floor_succ (x : ℚ) : roundTiesEven x ≤ ⌊x⌋ + 1 := by
  unfold roundTiesEven
  split_ifs <;> omega

theorem roundTiesEven_le_of_le_int (x : ℚ) (n : ℤ) (h : x ≤ n) : roundTiesEven x ≤ n := by
  have hfl : ⌊x⌋ ≤ n := Int.floor_le_floor h |>.trans (le_of_eq (Int.floor_intCast n))
  rcases lt_or_eq_of_le hfl with hlt | heq
  · exact (roundTiesEven_le_floor_succ x).trans (by omega)
  · have hx : x = n := le_antisymm h (by rw [← heq]; exact Int.floor_le x)
    unfold roundTiesEven
    rw [hx, Int.floor_intCast, sub_self, if_pos (by norm_num)]

theorem int_le_roundTiesEven (x : ℚ) (n : ℤ) (h : (n : ℚ) ≤ x) : n ≤ roundTiesEven x :=
  (Int.le_floor.mpr h).trans (floor_le_roundTiesEven x)

theorem roundTiesEven_intCast (n : ℤ) : roundTiesEven (n : ℚ) = n :=
  le_antisymm (roundTiesEven_le_of_le_int _ n (le_refl _)) (int_le_roundTiesEven _ n (le_refl _))

theorem roundTiesEven_mono {x y : ℚ} (h : x ≤ y) : roundTiesEven x ≤ roundTiesEven y := by
  have hfl : ⌊x⌋ ≤ ⌊y⌋ := Int.floor_le_floor h
  rcases lt_or_eq_of_le hfl with hlt | heq
  · exact (roundTiesEven_le_floor_succ x).trans ((by omega : ⌊x⌋ + 1 ≤ ⌊y⌋).trans
      (floor_le_roundTiesEven y))
  · have hfrac : x - ⌊x⌋ ≤ y - ⌊y⌋ := by rw [heq]; linarith
    unfold roundTiesEven
    rw [heq]
    rw [heq] at hfrac
    split_ifs <;> first | omega | linarith

theorem f64Exponent_ge (a : ℚ) : -1022 ≤ f64Exponent a := le_max_right _ _

theorem f64Exponent_eq {a : ℚ} {e : ℤ} (he : -1022 ≤ e) (h1 : (2 : ℚ) ^ e ≤ |a|)
    (h2 : |a| < (2 : ℚ) ^ (e + 1)) : f64Exponent a = e := by
  have hpos : 0 < |a| := lt_of_lt_of_le (by positivity) h1
  have hlog : Int.log 2 |a| = e := by
    apply le_antisymm
    · have := (Int.lt_zpow_iff_log_lt (by norm_num : 1 < 2) hpos).mp (by exact_mod_cast h2)
      omega
    · exact (Int.zpow_le_iff_le_log (by norm_num : 1 < 2) hpos).mp (by exact_mod_cast h1)
  unfold f64Exponent
  rw [hlog]
  exact max_eq_left he

theorem lt_two_zpow_f64Exponent (a : ℚ) : |a| < (2 : ℚ) ^ (f64Exponent a + 1) := by
  have h := Int.lt_zpow_succ_log_self (by norm_num : 1 < 2) |a|
  have hle : Int.log 2 |a| + 1 ≤ f64Exponent a + 1 := by
    unfold f64Exponent
    have := le_max_left (Int.log 2 |a|) (-1022)
    omega
  calc |a| < ((2 : ℕ) : ℚ) ^ (Int.log 2 |a| + 1) := h
    _ = (2 : ℚ) ^ (Int.log 2 |a| + 1) := by norm_num
    _ ≤ (2 : ℚ) ^ (f64Exponent a + 1) := zpow_le_zpow_right₀ (by norm_num) hle

theorem two_zpow_f64Exponent_le {a : ℚ} (ha : a ≠ 0) (h : -1022 < f64Exponent a) :
    (2 : ℚ) ^ f64Exponent a ≤ |a| := by
  have hlog : f64Exponent a = Int.log 2 |a| := by
    unfold f64Exponent at h ⊢
    rcases le_total (Int.log 2 |a|) (-1022) with hle | hle
    · rw [max_eq_right hle] at h; omega
    · exact max_eq_left hle
  have hpos : 0 < |a| := abs_pos.mpr ha
  rw [hlog]
  have := Int.zpow_log_le_self (by norm_num : 1 < 2) hpos
  exact_mod_cast this

theorem f64Exponent_mono {a b : ℚ} (ha : a ≠ 0) (h : |a| ≤ |b|) :
    f64Exponent a ≤ f64Exponent b :=
  max_le_max (Int.log_mono_right (abs_pos.mpr ha) h) (le_refl _)

theorem roundMagnitude_zero : roundMagnitude 0 = 0 := by
  unfold roundMagnitude
  rw [zero_div]
  have : roundTiesEven 0 = 0 := by simpa using roundTiesEven_intCast 0
  rw [this]
  simp

theorem quantum_pos (a : ℚ) : (0 : ℚ) < 2 ^ (f64Exponent a - 52) := by positivity

/-- A multiple of the quantum of `a` that is at least `a` is at least the rounded `a`. -/
theorem roundMagnitude_le_of_le (a : ℚ) (n : ℤ)
    (h : a ≤ n * 2 ^ (f64Exponent a - 52)) :
    roundMagnitude a ≤ n * 2 ^ (f64Exponent a - 52) := by
  unfold roundMagnitude
  have hq := quantum_pos a
  have hx : a / 2 ^ (f64Exponent a - 52) ≤ n := by
    rw [div_le_iff₀ hq]; exact h
  have := roundTiesEven_le_of_le_int _ n hx
  exact mul_le_mul_of_nonneg_right (by exact_mod_cast this) (le_of_lt hq)

theorem le_roundMagnitude_of_le (a : ℚ) (n : ℤ)
    (h : (n : ℚ) * 2 ^ (f64Exponent a - 52) ≤ a) :
    (n : ℚ) * 2 ^ (f64Exponent a - 52) ≤ roundMagnitude a := by
  unfold roundMagnitude
  have hq := quantum_pos a
  have hx : (n : ℚ) ≤ a / 2 ^ (f64Exponent a - 52) := by
    rw [le_div_iff₀ hq]; exact h
  have := int_le_roundTiesEven _ n hx
  exact mul_le_mul_of_nonneg_right (by exact_mod_cast this) (le_of_lt hq)

theorem roundMagnitude_nonneg {a : ℚ} (h : 0 ≤ a) : 0 ≤ roundMagnitude a := by
  have := le_roundMagnitude_of_le a 0 (by simpa using h)
  simpa using this

theorem roundMagnitude_of_multiple (a : ℚ) (n : ℤ)
    (h : a = n * 2 ^ (f64Exponent a - 52)) : roundMagnitude a = a := by
  apply le_antisymm
  · have := roundMagnitude_le_of_le a n (le_of_eq h)
    rw [← h] at this
    exact this
  · have := le_roundMagnitude_of_le a n (le_of_eq h.symm)
    rw [← h] at this
    exact this

/-- A value `m * 2 ^ k` with `|m| < 2 ^ 53` and `k ≥ -1074` is a multiple of its
own quantum. -/
theorem exists_int_mul_quantum (m k : ℤ) (hm : |m| < 2 ^ 53) (hk : -1074 ≤ k) :
    ∃ n : ℤ, (m : ℚ) * 2 ^ k = n * 2 ^ (f64Exponent ((m : ℚ) * 2 ^ k) - 52) := by
  by_cases hz : m = 0
  · exact ⟨0, by simp [hz]⟩
  · have hpow : (0 : ℚ) < 2 ^ k := by positivity
    have hapos : 0 < |(m : ℚ) * 2 ^ k| := by
      rw [abs_pos]
      exact mul_ne_zero (by exact_mod_cast hz) (ne_of_gt hpow)
    have hlt : |(m : ℚ) * 2 ^ k| < ((2 : ℕ) : ℚ) ^ (53 + k) := by
      rw [abs_mul, abs_of_pos hpow, zpow_add₀ (by norm_num)]
      have hmq : |(m : ℚ)| < 2 ^ 53 := by
        have : ((|m| : ℤ) : ℚ) < ((2 ^ 53 : ℤ) : ℚ) := by exact_mod_cast hm
        rw [Int.cast_abs] at this
        simpa using this
      have h2 : ((2 : ℕ) : ℚ) ^ (53 : ℤ) = 2 ^ 53 := by norm_num
      rw [h2]
      have h3 : ((2 : ℕ) : ℚ) ^ k = 2 ^ k := by norm_num
      rw [h3]
      exact mul_lt_mul_of_pos_right hmq hpow
    have hlog := (Int.lt_zpow_iff_log_lt (by norm_num : 1 < 2) hapos).mp hlt
    have hexp : f64Exponent ((m : ℚ) * 2 ^ k) - 52 ≤ k := by
      unfold f64Exponent
      have := max_le (by omega : Int.log 2 |(m : ℚ) * 2 ^ k| ≤ k + 52)
        (by omega : (-1022 : ℤ) ≤ k + 52)
      omega
    obtain ⟨d, hd⟩ := Int.eq_ofNat_of_zero_le (sub_nonneg.mpr hexp)
    refine ⟨m * 2 ^ d, ?_⟩
    have hk2 : k = (d : ℤ) + (f64Exponent ((m : ℚ) * 2 ^ k) - 52) := by omega
    conv_lhs => rw [hk2]
    rw [zpow_add₀ (by norm_num), zpow_natCast]
    push_cast
    ring

/-- Values with at most 53 significant bits round to themselves. -/
theorem roundMagnitude_of_representable (m k : ℤ) (hm : |m| < 2 ^ 53) (hk : -1074 ≤ k) :
    roundMagnitude ((m : ℚ) * 2 ^ k) = (m : ℚ) * 2 ^ k := by
  obtain ⟨n, hn⟩ := exists_int_mul_quantum m k hm hk
  exact roundMagnitude_of_multiple _ n hn

theorem roundMagnitude_mono {a b : ℚ} (ha : 0 ≤ a) (hab : a ≤ b) :
    roundMagnitude a ≤ roundMagnitude b := by
  rcases eq_or_lt_of_le ha with h0 | hpos
  · rw [← h0, roundMagnitude_zero]
    exact roundMagnitude_nonneg (le_trans ha hab)
  · have hbpos : 0 < b := lt_of_lt_of_le hpos hab
    have hexp : f64Exponent a ≤ f64Exponent b :=
      f64Exponent_mono (ne_of_gt hpos) (by rw [abs_of_pos hpos, abs_of_pos hbpos]; exact hab)
    rcases eq_or_lt_of_le hexp with heq | hlt
    · unfold roundMagnitude
      rw [heq]
      have hq := quantum_pos b
      have hdiv : a / 2 ^ (f64Exponent b - 52) ≤ b / 2 ^ (f64Exponent b - 52) :=
        div_le_div_of_nonneg_right hab (le_of_lt hq)
      have := roundTiesEven_mono hdiv
      exact mul_le_mul_of_nonneg_right (by exact_mod_cast this) (le_of_lt hq)
    · -- different binades: a rounds to at most 2 ^ (ea + 1), b to at least 2 ^ eb
      have h1 : roundMagnitude a ≤ 2 ^ (f64Exponent a + 1) := by
        have hle : a ≤ ((2 ^ 53 : ℤ) : ℚ) * 2 ^ (f64Exponent a - 52) := by
          have := lt_two_zpow_f64Exponent a
          rw [abs_of_pos hpos] at this
          have hsplit : (2 : ℚ) ^ (f64Exponent a + 1) =
              ((2 ^ 53 : ℤ) : ℚ) * 2 ^ (f64Exponent a - 52) := by
            have : f64Exponent a + 1 = 53 + (f64Exponent a - 52) := by ring
            rw [this, zpow_add₀ (by norm_num)]
            norm_num
          rw [← hsplit]
          exact le_of_lt this
        have := roundMagnitude_le_of_le a (2 ^ 53) hle
        have hsplit : (2 : ℚ) ^ (f64Exponent a + 1) =
            ((2 ^ 53 : ℤ) : ℚ) * 2 ^ (f64Exponent a - 52) := by
          have : f64Exponent a + 1 = 53 + (f64Exponent a - 52) := by ring
          rw [this, zpow_add₀ (by norm_num)]
          norm_num
        rw [hsplit]
        exact this
      have h2 : (2 : ℚ) ^ f64Exponent b ≤ roundMagnitude b := by
        have hb1 : -1022 < f64Exponent b := lt_of_le_of_lt (f64Exponent_ge a) hlt
        have hle := two_zpow_f64Exponent_le (ne_of_gt hbpos) hb1
        rw [abs_of_pos hbpos] at hle
        have hsplit : (2 : ℚ) ^ f64Exponent b =
            ((2 ^ 52 : ℤ) : ℚ) * 2 ^ (f64Exponent b - 52) := by
          have : f64Exponent b = 52 + (f64Exponent b - 52) := by ring
          conv_lhs => rw [this]
          rw [zpow_add₀ (by norm_num)]
          norm_num
        rw [hsplit] at hle ⊢
        exact le_roundMagnitude_of_le b (2 ^ 52) hle
      have h3 : (2 : ℚ) ^ (f64Exponent a + 1) ≤ 2 ^ f64Exponent b :=
        zpow_le_zpow_right₀ (by norm_num) (by omega)
      exact h1.trans (h3.trans h2)

theorem roundDouble_of_nonneg {q : ℚ} (h : 0 ≤ q) : roundDouble q = roundMagnitude q := by
  unfold roundDouble
  rw [if_pos h]

theorem roundDouble_of_neg {q : ℚ} (h : q < 0) : roundDouble q = -roundMagnitude (-q) := by
  unfold roundDouble
  rw [if_neg (not_le.mpr h)]

@[simp]
theorem roundDouble_zero : roundDouble 0 = 0 := by
  rw [roundDouble_of_nonneg (le_refl _), roundMagnitude_zero]

@[simp]
theorem roundDouble_neg (q : ℚ) : roundDouble (-q) = -roundDouble q := by
  rcases lt_trichotomy q 0 with h | h | h
  · rw [roundDouble_of_neg h, roundDouble_of_nonneg (by linarith : (0 : ℚ) ≤ -q), neg_neg]
  · rw [h, neg_zero, roundDouble_zero, neg_zero]
  · rw [roundDouble_of_nonneg (le_of_lt h), roundDouble_of_neg (by linarith : -q < 0), neg_neg]

theorem roundDouble_nonneg {q : ℚ} (h : 0 ≤ q) : 0 ≤ roundDouble q := by
  rw [roundDouble_of_nonneg h]
  exact roundMagnitude_nonneg h

theorem roundDouble_nonpos {q : ℚ} (h : q ≤ 0) : roundDouble q ≤ 0 := by
  have := roundDouble_nonneg (by linarith : (0 : ℚ) ≤ -q)
  rw [roundDouble_neg] at this
  linarith

/-- Rounding to binary64 is monotone. -/
theorem roundDouble_mono {x y : ℚ} (h : x ≤ y) : roundDouble x ≤ roundDouble y := by
  rcases le_or_lt 0 x with hx | hx
  · rw [roundDouble_of_nonneg hx, roundDouble_of_nonneg (le_trans hx h)]
    exact roundMagnitude_mono hx h
  · rcases le_or_lt 0 y with hy | hy
    · exact (roundDouble_nonpos (le_of_lt hx)).trans (roundDouble_nonneg hy)
    · rw [roundDouble_of_neg hx, roundDouble_of_neg hy]
      exact neg_le_neg (roundMagnitude_mono (by linarith) (by linarith))

/-- A value `m * 2 ^ k` with `|m| < 2 ^ 53` and `k ≥ -1074` is a binary64 number:
rounding leaves it as it is. -/
theorem roundDouble_of_representable (m k : ℤ) (hm : |m| < 2 ^ 53) (hk : -1074 ≤ k) :
    roundDouble ((m : ℚ) * 2 ^ k) = (m : ℚ) * 2 ^ k := by
  rcases le_or_lt 0 m with h | h
  · rw [roundDouble_of_nonneg (mul_nonneg (by exact_mod_cast h) (by positivity))]
    exact roundMagnitude_of_representable m k hm hk
  · have hneg : (m : ℚ) * 2 ^ k < 0 :=
      mul_neg_of_neg_of_pos (by exact_mod_cast h) (by positivity)
    rw [roundDouble_of_neg hneg]
    have := roundMagnitude_of_representable (-m) k (by rw [abs_neg]; exact hm) hk
    push_cast at this
    rw [neg_mul] at this
    rw [this, neg_neg]

theorem roundDouble_intCast (n : ℤ) (hn : |n| < 2 ^ 53) : roundDouble (n : ℚ) = n := by
  have := roundDouble_of_representable n 0 hn (by norm_num)
  simpa using this

theorem roundTiesEven_eq_of_near (x : ℚ) (m : ℤ) (h1 : (m : ℚ) - 1 / 2 < x)
    (h2 : x < m + 1 / 2) : roundTiesEven x = m := by
  unfold roundTiesEven
  rcases le_or_lt (m : ℚ) x with hge | hlt
  · have hfl : ⌊x⌋ = m := Int.floor_eq_iff.mpr ⟨hge, by linarith⟩
    rw [hfl, if_pos (by linarith)]
  · have hfl : ⌊x⌋ = m - 1 := Int.floor_eq_iff.mpr ⟨by push_cast; linarith, by push_cast; linarith⟩
    rw [hfl]
    push_cast
    rw [if_neg (by linarith), if_pos (by linarith)]
    ring

theorem roundTiesEven_tie (m : ℤ) (hm : m % 2 = 0) :
    roundTiesEven ((m : ℚ) + 1 / 2) = m ∧ roundTiesEven ((m : ℚ) - 1 / 2) = m := by
  constructor
  · unfold roundTiesEven
    have hfl : ⌊(m : ℚ) + 1 / 2⌋ = m := Int.floor_eq_iff.mpr ⟨by linarith, by linarith⟩
    rw [hfl, if_neg (by linarith), if_neg (by linarith), if_pos hm]
  · unfold roundTiesEven
    have hfl : ⌊(m : ℚ) - 1 / 2⌋ = m - 1 :=
      Int.floor_eq_iff.mpr ⟨by push_cast; linarith, by push_cast; linarith⟩
    rw [hfl]
    push_cast
    rw [if_neg (by linarith), if_neg (by linarith), if_neg (by omega)]
    ring

/-- The rounding of a positive number, from its binary exponent. -/
theorem roundDouble_eq_of_exponent {q : ℚ} (e : ℤ) (hq : 0 < q) (he : -1022 ≤ e)
    (h1 : (2 : ℚ) ^ e ≤ q) (h2 : q < (2 : ℚ) ^ (e + 1)) :
    roundDouble q = roundTiesEven (q / 2 ^ (e - 52)) * 2 ^ (e - 52) := by
  have hexp : f64Exponent q = e :=
    f64Exponent_eq he (by rw [abs_of_pos hq]; exact h1) (by rw [abs_of_pos hq]; exact h2)
  rw [roundDouble_of_nonneg (le_of_lt hq)]
  unfold roundMagnitude
  rw [hexp]

theorem roundDouble_natCast (n : ℕ) (h : n < 2 ^ 53) : roundDouble (n : ℚ) = n := by
  have := roundDouble_intCast (n : ℤ) (by rw [abs_of_nonneg (by positivity)]; exact_mod_cast h)
  simpa using this

@[simp]
theorem roundDouble_ofNat (n : ℕ) [n.AtLeastTwo] (h : n < 2 ^ 53) :
    roundDouble (no_index (OfNat.ofNat n : ℚ)) = OfNat.ofNat n := by
  have := roundDouble_natCast n h
  simpa using this

@[simp]
theorem roundDouble_one : roundDouble 1 = 1 := by
  simpa using roundDouble_natCast 1 (by norm_num)

@[simp]
theorem roundDouble_ofNat_div_two (n : ℕ) [n.AtLeastTwo] (h : n < 2 ^ 53) :
    roundDouble ((no_index (OfNat.ofNat n : ℚ)) / 2) = OfNat.ofNat n / 2 := by
  have := roundDouble_of_representable (n : ℤ) (-1)
    (by rw [abs_of_nonneg (by positivity)]; exact_mod_cast h) (by norm_num)
  have h2 : ((n : ℤ) : ℚ) * 2 ^ (-1 : ℤ) = (OfNat.ofNat n : ℚ) / 2 := by
    rw [zpow_neg_one, div_eq_mul_inv]
    have : ((OfNat.ofNat n : ℕ) : ℚ) = (OfNat.ofNat n : ℚ) := Nat.cast_ofNat
    simp only [Int.cast_natCast]
    exact congrArg (· * (2 : ℚ)⁻¹) this
  rw [h2] at this
  exact this

@[simp]
theorem roundDouble_one_half : roundDouble (1 / 2) = 1 / 2 := by
  have := roundDouble_of_representable 1 (-1) (by norm_num) (by norm_num)
  have h2 : ((1 : ℤ) : ℚ) * 2 ^ (-1 : ℤ) = 1 / 2 := by norm_num
  rw [h2] at this
  exact this

/-- Rounding does not cross a binary64 number. -/
theorem roundDouble_le_of_le {x r : ℚ} (hr : roundDouble r = r) (h : x ≤ r) :
    roundDouble x ≤ r := by
  rw [← hr]; exact roundDouble_mono h

theorem le_roundDouble_of_le {x r : ℚ} (hr : roundDouble r = r) (h : r ≤ x) :
    r ≤ roundDouble x := by
  rw [← hr]; exact roundDouble_mono h

theorem roundDouble_div_two_pow (a : ℤ) (k : ℕ) (ha : |a| < 2 ^ 53) (hk : k ≤ 1074) :
    roundDouble ((a : ℚ) / 2 ^ k) = (a : ℚ) / 2 ^ k := by
  have := roundDouble_of_representable a (-(k : ℤ)) ha (by omega)
  rw [zpow_neg, zpow_natCast, ← div_eq_mul_inv] at this
  exact this

/-- The rounding of a positive number, from its binary exponent `e` and the
multiple `m` of `2 ^ (e - 52)` nearest to it. -/
theorem roundDouble_of_nearest {q : ℚ} (e m : ℤ) (hq : 0 < q) (he : -1022 ≤ e)
    (h1 : (2 : ℚ) ^ e ≤ q) (h2 : q < (2 : ℚ) ^ (e + 1))
    (hlo : (m : ℚ) - 1 / 2 < q / 2 ^ (e - 52)) (hhi : q / 2 ^ (e - 52) < m + 1 / 2) :
    roundDouble q = m * 2 ^ (e - 52) := by
  rw [roundDouble_eq_of_exponent e hq he h1 h2, roundTiesEven_eq_of_near _ m hlo hhi]

/-- A quotient of at least `2 ^ -1074`, the smallest positive binary64 number,
does not round to 0. -/
theorem roundDouble_pos {q : ℚ} (h : (2 : ℚ) ^ (-1074 : ℤ) ≤ q) : 0 < roundDouble q := by
  have hr : roundDouble ((2 : ℚ) ^ (-1074 : ℤ)) = (2 : ℚ) ^ (-1074 : ℤ) := by
    have := roundDouble_of_representable 1 (-1074) (by norm_num) (by norm_num)
    simpa using this
  exact lt_of_lt_of_le (by positivity) (le_roundDouble_of_le hr h)

theorem f64Div_one_30 : f64Div 1 30 = 4803839602528529 / 144115188075855872 := by
  unfold f64Div
  rw [roundDouble_of_nearest (-5) 4803839602528529 (by norm_num) (by norm_num) (by norm_num)
    (by norm_num) (by norm_num) (by norm_num)]
  norm_num

theorem f64Div_two_30 : f64Div 2 30 = 4803839602528529 / 72057594037927936 := by
  unfold f64Div
  rw [roundDouble_of_nearest (-4) 4803839602528529 (by norm_num) (by norm_num) (by norm_num)
    (by norm_num) (by norm_num) (by norm_num)]
  norm_num

theorem minDuration_eq : Track.minDuration = 3602879701896397 / 36028797018963968 := by
  unfold Track.minDuration
  rw [roundDouble_eq_of_exponent (-4) (by norm_num) (by norm_num) (by norm_num) (by norm_num),
    roundTiesEven_eq_of_near _ 7205759403792794 (by norm_num) (by norm_num)]
  norm_num

theorem getEndTime_entryFar : entryFar.getEndTime = 9007199254740992 := by
  unfold TimelineEntry.getEndTime f64Add entryFar
  simp only []
  rw [roundDouble_eq_of_exponent 53 (by norm_num) (by norm_num) (by norm_num) (by norm_num)]
  have h : ((9007199254740992 : ℚ) + 1) / 2 ^ ((53 : ℤ) - 52) =
      ((4503599627370496 : ℤ) : ℚ) + 1 / 2 := by norm_num
  rw [h, (roundTiesEven_tie 4503599627370496 (by norm_num)).1]
  norm_num

theorem getEndTime_entryLong : entryLong.getEndTime = 18014398509481984 := by
  unfold TimelineEntry.getEndTime f64Add entryLong
  simp only []
  have h := roundDouble_of_representable 4503599627370496 2 (by norm_num) (by norm_num)
  norm_num at h ⊢
  exact h

theorem getEndTime_entryBrief : entryBrief.getEndTime = 1 := by
  unfold TimelineEntry.getEndTime f64Add entryBrief
  simp only []
  rw [roundDouble_eq_of_exponent 0 (by norm_num) (by norm_num) (by norm_num) (by norm_num),
    roundTiesEven_eq_of_near _ 4503599627370496 (by norm_num) (by norm_num)]
  norm_num

/-! ## Lemmas on the entry predicates -/

theorem overlapsWith_comm (a b : TimelineEntry) : a.overlapsWith b = b.overlapsWith a := by
  unfold TimelineEntry.overlapsWith
  exact Bool.and_comm _ _

theorem overlapsWith_iff (a b : TimelineEntry) :
    a.overlapsWith b = true ↔ a.startTime < b.getEndTime ∧ b.startTime < a.getEndTime := by
  simp [TimelineEntry.overlapsWith]

theorem isActiveAt_iff (e : TimelineEntry) (time : ℚ) :
    e.isActiveAt time = true ↔ e.startTime ≤ time ∧ time < e.getEndTime := by
  simp [TimelineEntry.isActiveAt]

theorem overlapsWith_of_active {a b : TimelineEntry} {time : ℚ}
    (ha : a.isActiveAt time = true) (hb : b.isActiveAt time = true) :
    a.overlapsWith b = true := by
  rw [isActiveAt_iff] at ha hb
  rw [overlapsWith_iff]
  exact ⟨lt_of_le_of_lt ha.1 hb.2, lt_of_le_of_lt hb.1 ha.2⟩

theorem setStartTime_setStartTime_self (e : TimelineEntry) (v : ℚ) :
    (e.setStartTime v).setStartTime e.startTime = e := by
  cases e; rfl

theorem setDuration_setDuration_self (e : TimelineEntry) (v : ℚ) :
    (e.setDuration v).setDuration e.duration = e := by
  cases e; rfl

/-! ## Lemmas on the scans -/

theorem wouldOverlapLoop_iff (entry : TimelineEntry) (l : List TimelineEntry) :
    Track.wouldOverlapLoop entry l = true ↔ ∃ x ∈ l, entry.overlapsWith x = true := by
  induction l with
  | nil => simp [Track.wouldOverlapLoop]
  | cons y ys ih =>
    unfold Track.wouldOverlapLoop
    by_cases hy : entry.overlapsWith y = true
    · simp [hy]
    · simp [hy, ih]

theorem overlapsOtherLoop_iff (entry : TimelineEntry) (index : Nat)
    (l : List TimelineEntry) (k : Nat) :
    Track.overlapsOtherLoop entry index k l = true ↔
      ∃ (j : Nat) (hj : j < l.length), k + j ≠ index ∧ entry.overlapsWith l[j] = true := by
  induction l generalizing k with
  | nil => simp [Track.overlapsOtherLoop]
  | cons y ys ih =>
    unfold Track.overlapsOtherLoop
    by_cases hy : k ≠ index ∧ entry.overlapsWith y = true
    · rw [if_pos hy]
      refine ⟨fun _ => ⟨0, by simp, by simpa using hy⟩, fun _ => rfl⟩
    · rw [if_neg hy, ih]
      constructor
      · rintro ⟨j, hj, hne, hov⟩
        refine ⟨j + 1, by simpa using hj, ?_, by simpa using hov⟩
        omega
      · rintro ⟨j, hj, hne, hov⟩
        cases j with
        | zero => exact absurd ⟨by simpa using hne, by simpa using hov⟩ hy
        | succ j =>
          refine ⟨j, by simpa using hj, ?_, by simpa using hov⟩
          omega

/-! ## Lemmas on the sort -/

theorem sortInsert_perm (x : TimelineEntry) (l : List TimelineEntry) :
    (sortInsert x l).Perm (x :: l) := by
  induction l with
  | nil => exact List.Perm.refl _
  | cons y ys ih =>
    unfold sortInsert
    split
    · exact (List.Perm.cons y ih).trans (List.Perm.swap x y ys)
    · exact List.Perm.refl _

theorem sortByStartTime_perm (l : List TimelineEntry) : (sortByStartTime l).Perm l := by
  induction l with
  | nil => exact List.Perm.refl _
  | cons x xs ih =>
    unfold sortByStartTime
    exact (sortInsert_perm x _).trans (List.Perm.cons x ih)

theorem sortInsert_pairwise (x : TimelineEntry) (l : List TimelineEntry)
    (h : l.Pairwise (fun a b => a.startTime ≤ b.startTime)) :
    (sortInsert x l).Pairwise (fun a b => a.startTime ≤ b.startTime) := by
  induction l with
  | nil => simp [sortInsert]
  | cons y ys ih =>
    unfold sortInsert
    rw [List.pairwise_cons] at h
    by_cases hyx : startTimeLess y x = true
    · rw [if_pos hyx, List.pairwise_cons]
      refine ⟨?_, ih h.2⟩
      intro z hz
      rcases List.mem_cons.mp ((sortInsert_perm x ys).mem_iff.mp hz) with hz | hz
      · have hlt : y.startTime < x.startTime := by simpa [startTimeLess] using hyx
        rw [hz]; exact hlt.le
      · exact h.1 z hz
    · rw [if_neg hyx, List.pairwise_cons]
      have hxy : x.startTime ≤ y.startTime := by simpa [startTimeLess] using hyx
      refine ⟨?_, List.pairwise_cons.mpr h⟩
      intro z hz
      rcases List.mem_cons.mp hz with hz | hz
      · rw [hz]; exact hxy
      · exact le_trans hxy (h.1 z hz)

theorem sortByStartTime_pairwise (l : List TimelineEntry) :
    (sortByStartTime l).Pairwise (fun a b => a.startTime ≤ b.startTime) := by
  induction l with
  | nil => simp [sortByStartTime]
  | cons x xs ih =>
    unfold sortByStartTime
    exact sortInsert_pairwise x _ ih

/-! ## The two sequence predicates as `List.Pairwise` -/

theorem sortedByStart_iff_pairwise (l : List TimelineEntry) :
    SortedByStart l ↔ l.Pairwise (fun a b => a.startTime ≤ b.startTime) := by
  rw [List.pairwise_iff_getElem]
  exact Iff.rfl

theorem noOverlap_iff_pairwise (l : List TimelineEntry) :
    NoOverlap l ↔ l.Pairwise (fun a b => a.overlapsWith b = false) := by
  rw [List.pairwise_iff_getElem]
  constructor
  · intro h i j hi hj hij
    exact h i j hi hj (Nat.ne_of_lt hij)
  · intro h i j hi hj hne
    rcases Nat.lt_or_gt_of_ne hne with hij | hji
    · exact h i j hi hj hij
    · rw [overlapsWith_comm]
      exact h j i hj hi hji

theorem noOverlap_of_perm {l l' : List TimelineEntry} (hp : l.Perm l') (h : NoOverlap l) :
    NoOverlap l' := by
  rw [noOverlap_iff_pairwise] at h ⊢
  refine (hp.pairwise_iff ?_).mp h
  intro a b hab
  rw [overlapsWith_comm]
  exact hab

theorem noOverlap_of_sublist {l l' : List TimelineEntry} (hs : l'.Sublist l) (h : NoOverlap l) :
    NoOverlap l' := by
  rw [noOverlap_iff_pairwise] at h ⊢
  exact h.sublist hs

theorem sortedByStart_of_sublist {l l' : List TimelineEntry} (hs : l'.Sublist l)
    (h : SortedByStart l) : SortedByStart l' := by
  rw [sortedByStart_iff_pairwise] at h ⊢
  exact h.sublist hs

theorem sortedByStart_sortByStartTime (l : List TimelineEntry) :
    SortedByStart (sortByStartTime l) :=
  (sortedByStart_iff_pairwise _).mpr (sortByStartTime_pairwise l)

theorem noOverlap_append_singleton {l : List TimelineEntry} {e : TimelineEntry}
    (h : NoOverlap l) (he : ∀ x ∈ l, e.overlapsWith x = false) : NoOverlap (l ++ [e]) := by
  rw [noOverlap_iff_pairwise] at h ⊢
  rw [List.pairwise_append]
  refine ⟨h, List.pairwise_singleton _ _, ?_⟩
  intro a ha b hb
  rw [List.mem_singleton] at hb
  rw [hb, overlapsWith_comm]
  exact he a ha

/-- Writing an entry at `index` keeps the sequence overlap-free when the written
entry overlaps no entry at another position. -/
theorem noOverlap_set {l : List TimelineEntry} {index : Nat} {entry : TimelineEntry}
    (h : NoOverlap l)
    (hscan : ∀ (j : Nat) (hj : j < l.length), j ≠ index → entry.overlapsWith l[j] = false) :
    NoOverlap (l.set index entry) := by
  intro i j hi hj hne
  have hi' : i < l.length := by simpa using hi
  have hj' : j < l.length := by simpa using hj
  rw [List.getElem_set, List.getElem_set]
  by_cases h1 : index = i
  · have h2 : ¬ index = j := fun h2 => hne (h1.symm.trans h2)
    rw [if_pos h1, if_neg h2]
    exact hscan j hj' (fun e => h2 e.symm)
  · rw [if_neg h1]
    by_cases h2 : index = j
    · rw [if_pos h2, overlapsWith_comm]
      exact hscan i hi' (fun e => h1 e.symm)
    · rw [if_neg h2]
      exact h i j hi' hj' hne

/-- Writing an entry with the same start time keeps the sequence ascending. -/
theorem sortedByStart_set {l : List TimelineEntry} {index : Nat} {entry : TimelineEntry}
    (h : SortedByStart l) (hlt : index < l.length)
    (hs : entry.startTime = l[index].startTime) :
    SortedByStart (l.set index entry) := by
  intro i j hi hj hij
  have hi' : i < l.length := by simpa using hi
  have hj' : j < l.length := by simpa using hj
  have key : ∀ (k : Nat) (hk : k < (l.set index entry).length) (hk' : k < l.length),
      ((l.set index entry)[k]).startTime = l[k].startTime := by
    intro k hk hk'
    rw [List.getElem_set]
    by_cases h1 : index = k
    · subst h1; rw [if_pos rfl, hs]
    · rw [if_neg h1]
  rw [key i hi hi', key j hj hj']
  exact h i j hi' hj' hij

/-- The scan of the update members, stated on the list before the write. -/
theorem overlapsOtherLoop_set_false_iff (l : List TimelineEntry) (index : Nat)
    (entry : TimelineEntry) :
    Track.overlapsOtherLoop entry index 0 (l.set index entry) = false ↔
      ∀ (j : Nat) (hj : j < l.length), j ≠ index → entry.overlapsWith l[j] = false := by
  rw [← Bool.not_eq_true, overlapsOtherLoop_iff]
  constructor
  · intro h j hj hne
    by_contra hov
    apply h
    refine ⟨j, by simpa using hj, by simpa using hne, ?_⟩
    rw [List.getElem_set, if_neg (fun e => hne e.symm)]
    simpa using hov
  · rintro h ⟨j, hj, hne, hov⟩
    have hj' : j < l.length := by simpa using hj
    have hne' : j ≠ index := by simpa using hne
    rw [List.getElem_set, if_neg (fun e => hne' e.symm)] at hov
    rw [h j hj' hne'] at hov
    exact Bool.false_ne_true hov

/-- Writing back the element already stored at a position changes nothing. -/
theorem set_getElem_same (l : List TimelineEntry) (index : Nat) (h : index < l.length) :
    l.set index l[index] = l := by
  apply List.ext_getElem (by simp)
  intro n h1 h2
  rw [List.getElem_set]
  split
  · next heq => subst heq; rfl
  · rfl

/-! ## The update members, case by case -/

theorem updateEntryStartTime_of_index_ge (t : Track) (index : Nat) (v : ℚ)
    (h : t.entries.length ≤ index) : t.updateEntryStartTime index v = (false, t) := by
  unfold Track.updateEntryStartTime
  rw [dif_pos h]

theorem updateEntryStartTime_of_neg (t : Track) (index : Nat) (v : ℚ)
    (h : v < 0) : t.updateEntryStartTime index v = (false, t) := by
  unfold Track.updateEntryStartTime
  by_cases hi : index ≥ t.entries.length
  · rw [dif_pos hi]
  · rw [dif_neg hi, if_pos h]

theorem updateEntryStartTime_of_overlap (t : Track) (index : Nat) (v : ℚ)
    (h : index < t.entries.length)
    (hov : ∃ (j : Nat) (hj : j < t.entries.length),
      j ≠ index ∧ (t.entries[index].setStartTime v).overlapsWith t.entries[j] = true) :
    t.updateEntryStartTime index v = (false, t) := by
  unfold Track.updateEntryStartTime
  rw [dif_neg (Nat.not_le.mpr h)]
  split
  · rfl
  · have hscan : Track.overlapsOtherLoop (t.entries[index].setStartTime v) index 0
        (t.entries.set index (t.entries[index].setStartTime v)) = true := by
      by_contra hc
      rw [Bool.not_eq_true, overlapsOtherLoop_set_false_iff] at hc
      obtain ⟨j, hj, hne, hj2⟩ := hov
      rw [hc j hj hne] at hj2
      exact Bool.false_ne_true hj2
    simp only [hscan, if_true, List.set_set, setStartTime_setStartTime_self,
      set_getElem_same]

theorem updateEntryStartTime_of_free (t : Track) (index : Nat) (v : ℚ)
    (h : index < t.entries.length) (h0 : 0 ≤ v)
    (hfree : ∀ (j : Nat) (hj : j < t.entries.length),
      j ≠ index → (t.entries[index].setStartTime v).overlapsWith t.entries[j] = false) :
    t.updateEntryStartTime index v =
      (true, { t with entries :=
        sortByStartTime (t.entries.set index (t.entries[index].setStartTime v)) }) := by
  unfold Track.updateEntryStartTime
  rw [dif_neg (Nat.not_le.mpr h), if_neg (not_lt.mpr h0)]
  have hscan := (overlapsOtherLoop_set_false_iff t.entries index
    (t.entries[index].setStartTime v)).mpr hfree
  simp only [hscan, Bool.false_eq_true, if_false]

theorem updateEntryDuration_of_index_ge (t : Track) (index : Nat) (v : ℚ)
    (h : t.entries.length ≤ index) : t.updateEntryDuration index v = (false, t) := by
  unfold Track.updateEntryDuration
  rw [dif_pos h]

theorem updateEntryDuration_of_small (t : Track) (index : Nat) (v : ℚ)
    (h : v ≤ Track.minDuration) : t.updateEntryDuration index v = (false, t) := by
  unfold Track.updateEntryDuration
  by_cases hi : index ≥ t.entries.length
  · rw [dif_pos hi]
  · rw [dif_neg hi, if_pos h]

theorem updateEntryDuration_of_overlap (t : Track) (index : Nat) (v : ℚ)
    (h : index < t.entries.length)
    (hov : ∃ (j : Nat) (hj : j < t.entries.length),
      j ≠ index ∧ (t.entries[index].setDuration v).overlapsWith t.entries[j] = true) :
    t.updateEntryDuration index v = (false, t) := by
  unfold Track.updateEntryDuration
  rw [dif_neg (Nat.not_le.mpr h)]
  split
  · rfl
  · have hscan : Track.overlapsOtherLoop (t.entries[index].setDuration v) index 0
        (t.entries.set index (t.entries[index].setDuration v)) = true := by
      by_contra hc
      rw [Bool.not_eq_true, overlapsOtherLoop_set_false_iff] at hc
      obtain ⟨j, hj, hne, hj2⟩ := hov
      rw [hc j hj hne] at hj2
      exact Bool.false_ne_true hj2
    simp only [hscan, if_true, List.set_set, setDuration_setDuration_self,
      set_getElem_same]

theorem updateEntryDuration_of_free (t : Track) (index : Nat) (v : ℚ)
    (h : index < t.entries.length) (h0 : Track.minDuration < v)
    (hfree : ∀ (j : Nat) (hj : j < t.entries.length),
      j ≠ index → (t.entries[index].setDuration v).overlapsWith t.entries[j] = false) :
    t.updateEntryDuration index v =
      (true, { t with entries := t.entries.set index (t.entries[index].setDuration v) }) := by
  unfold Track.updateEntryDuration
  rw [dif_neg (Nat.not_le.mpr h), if_neg (not_le.mpr h0)]
  have hscan := (overlapsOtherLoop_set_false_iff t.entries index
    (t.entries[index].setDuration v)).mpr hfree
  simp only [hscan, Bool.false_eq_true, if_false]

/-- The scan either finds an overlapping entry at another position or finds none. -/
theorem overlap_or_free (l : List TimelineEntry) (index : Nat) (entry : TimelineEntry) :
    (∃ (j : Nat) (hj : j < l.length), j ≠ index ∧ entry.overlapsWith l[j] = true) ∨
    (∀ (j : Nat) (hj : j < l.length), j ≠ index → entry.overlapsWith l[j] = false) := by
  by_cases h : ∃ (j : Nat) (hj : j < l.length), j ≠ index ∧ entry.overlapsWith l[j] = true
  · exact Or.inl h
  · refine Or.inr (fun j hj hne => ?_)
    by_contra hc
    exact h ⟨j, hj, hne, by simpa using hc⟩

/-! ## `addEntry`, case by case -/

theorem addEntry_of_overlap (t : Track) (entry : TimelineEntry)
    (h : ∃ x ∈ t.entries, entry.overlapsWith x = true) : t.addEntry entry = (false, t) := by
  unfold Track.addEntry Track.wouldOverlap
  rw [if_pos ((wouldOverlapLoop_iff entry t.entries).mpr h)]

theorem addEntry_of_free (t : Track) (entry : TimelineEntry)
    (h : ∀ x ∈ t.entries, entry.overlapsWith x = false) :
    t.addEntry entry =
      (true, { t with entries := sortByStartTime (t.entries ++ [entry]) }) := by
  unfold Track.addEntry Track.wouldOverlap
  have hscan : ¬ Track.wouldOverlapLoop entry t.entries = true := by
    rw [wouldOverlapLoop_iff]
    rintro ⟨x, hx, hov⟩
    rw [h x hx] at hov
    exact Bool.false_ne_true hov
  rw [if_neg hscan]

theorem addEntry_overlap_or_free (l : List TimelineEntry) (entry : TimelineEntry) :
    (∃ x ∈ l, entry.overlapsWith x = true) ∨ (∀ x ∈ l, entry.overlapsWith x = false) := by
  by_cases h : ∃ x ∈ l, entry.overlapsWith x = true
  · exact Or.inl h
  · refine Or.inr (fun x hx => ?_)
    by_contra hc
    exact h ⟨x, hx, by simpa using hc⟩

/-! ## One call preserves the two sequence invariants -/

theorem noOverlap_apply (t : Track) (op : TrackOp) (h : NoOverlap t.entries) :
    NoOverlap (op.apply t).entries := by
  cases op with
  | addEntry entry =>
    show NoOverlap (t.addEntry entry).2.entries
    rcases addEntry_overlap_or_free t.entries entry with hov | hfree
    · rw [addEntry_of_overlap t entry hov]; exact h
    · rw [addEntry_of_free t entry hfree]
      exact noOverlap_of_perm (sortByStartTime_perm _).symm
        (noOverlap_append_singleton h hfree)
  | removeEntry index =>
    show NoOverlap (t.removeEntry index).2.entries
    unfold Track.removeEntry
    split
    · exact h
    · exact noOverlap_of_sublist (List.eraseIdx_sublist _ _) h
  | updateEntryStartTime index v =>
    show NoOverlap (t.updateEntryStartTime index v).2.entries
    by_cases hi : t.entries.length ≤ index
    · rw [updateEntryStartTime_of_index_ge t index v hi]; exact h
    · have hlt : index < t.entries.length := Nat.lt_of_not_le hi
      by_cases hv : v < 0
      · rw [updateEntryStartTime_of_neg t index v hv]; exact h
      · rcases overlap_or_free t.entries index (t.entries[index].setStartTime v) with hov | hfree
        · rw [updateEntryStartTime_of_overlap t index v hlt hov]; exact h
        · rw [updateEntryStartTime_of_free t index v hlt (not_lt.mp hv) hfree]
          exact noOverlap_of_perm (sortByStartTime_perm _).symm (noOverlap_set h hfree)
  | updateEntryDuration index v =>
    show NoOverlap (t.updateEntryDuration index v).2.entries
    by_cases hi : t.entries.length ≤ index
    · rw [updateEntryDuration_of_index_ge t index v hi]; exact h
    · have hlt : index < t.entries.length := Nat.lt_of_not_le hi
      by_cases hv : v ≤ Track.minDuration
      · rw [updateEntryDuration_of_small t index v hv]; exact h
      · rcases overlap_or_free t.entries index (t.entries[index].setDuration v) with hov | hfree
        · rw [updateEntryDuration_of_overlap t index v hlt hov]; exact h
        · rw [updateEntryDuration_of_free t index v hlt (not_le.mp hv) hfree]
          exact noOverlap_set h hfree
  | clearEntries =>
    intro i j hi
    exact absurd hi (Nat.not_lt_zero i)

theorem sortedByStart_apply (t : Track) (op : TrackOp) (h : SortedByStart t.entries) :
    SortedByStart (op.apply t).entries := by
  cases op with
  | addEntry entry =>
    show SortedByStart (t.addEntry entry).2.entries
    rcases addEntry_overlap_or_free t.entries entry with hov | hfree
    · rw [addEntry_of_overlap t entry hov]; exact h
    · rw [addEntry_of_free t entry hfree]
      exact sortedByStart_sortByStartTime _
  | removeEntry index =>
    show SortedByStart (t.removeEntry index).2.entries
    unfold Track.removeEntry
    split
    · exact h
    · exact sortedByStart_of_sublist (List.eraseIdx_sublist _ _) h
  | updateEntryStartTime index v =>
    show SortedByStart (t.updateEntryStartTime index v).2.entries
    by_cases hi : t.entries.length ≤ index
    · rw [updateEntryStartTime_of_index_ge t index v hi]; exact h
    · have hlt : index < t.entries.length := Nat.lt_of_not_le hi
      by_cases hv : v < 0
      · rw [updateEntryStartTime_of_neg t index v hv]; exact h
      · rcases overlap_or_free t.entries index (t.entries[index].setStartTime v) with hov | hfree
        · rw [updateEntryStartTime_of_overlap t index v hlt hov]; exact h
        · rw [updateEntryStartTime_of_free t index v hlt (not_lt.mp hv) hfree]
          exact sortedByStart_sortByStartTime _
  | updateEntryDuration index v =>
    show SortedByStart (t.updateEntryDuration index v).2.entries
    by_cases hi : t.entries.length ≤ index
    · rw [updateEntryDuration_of_index_ge t index v hi]; exact h
    · have hlt : index < t.entries.length := Nat.lt_of_not_le hi
      by_cases hv : v ≤ Track.minDuration
      · rw [updateEntryDuration_of_small t index v hv]; exact h
      · rcases overlap_or_free t.entries index (t.entries[index].setDuration v) with hov | hfree
        · rw [updateEntryDuration_of_overlap t index v hlt hov]; exact h
        · rw [updateEntryDuration_of_free t index v hlt (not_le.mp hv) hfree]
          exact sortedByStart_set h hlt rfl
  | clearEntries =>
    intro i j hi
    exact absurd hi (Nat.not_lt_zero i)

theorem noOverlap_runOps (ops : List TrackOp) (t : Track) (h : NoOverlap t.entries) :
    NoOverlap (runOps t ops).entries := by
  induction ops generalizing t with
  | nil => exact h
  | cons op ops ih => exact ih (op.apply t) (noOverlap_apply t op h)

theorem sortedByStart_runOps (ops : List TrackOp) (t : Track) (h : SortedByStart t.entries) :
    SortedByStart (runOps t ops).entries := by
  induction ops generalizing t with
  | nil => exact h
  | cons op ops ih => exact ih (op.apply t) (sortedByStart_apply t op h)

/-! ## `getEntryAt` and `getTotalDuration` -/

theorem getEntryAtLoop_eq_find (time : ℚ) (l : List TimelineEntry) :
    Track.getEntryAtLoop time l = l.find? (fun e => e.isActiveAt time) := by
  induction l with
  | nil => rfl
  | cons y ys ih =>
    unfold Track.getEntryAtLoop
    by_cases hy : y.isActiveAt time = true
    · rw [if_pos hy]
      simp [List.find?_cons, hy]
    · rw [if_neg hy, ih]
      simp [List.find?_cons, hy]

theorem active_index_unique {l : List TimelineEntry} (h : NoOverlap l) (time : ℚ)
    (i j : Nat) (hi : i < l.length) (hj : j < l.length)
    (hai : l[i].isActiveAt time = true) (haj : l[j].isActiveAt time = true) : i = j := by
  by_contra hne
  have hov := overlapsWith_of_active hai haj
  rw [h i j hi hj hne] at hov
  exact Bool.false_ne_true hov

theorem maxEndTimeLoop_ge (m : ℚ) (l : List TimelineEntry) :
    m ≤ Track.maxEndTimeLoop m l := by
  induction l generalizing m with
  | nil => exact le_refl m
  | cons y ys ih =>
    unfold Track.maxEndTimeLoop
    split
    · next hgt => exact le_trans (le_of_lt hgt) (ih _)
    · exact ih m

theorem maxEndTimeLoop_upper (m : ℚ) (l : List TimelineEntry) :
    ∀ e ∈ l, e.getEndTime ≤ Track.maxEndTimeLoop m l := by
  induction l generalizing m with
  | nil => intro e he; exact absurd he (List.not_mem_nil e)
  | cons y ys ih =>
    intro e he
    unfold Track.maxEndTimeLoop
    rcases List.mem_cons.mp he with heq | hmem
    · subst heq
      split
      · exact maxEndTimeLoop_ge _ ys
      · next hle => exact le_trans (not_lt.mp hle) (maxEndTimeLoop_ge m ys)
    · split
      · exact ih _ e hmem
      · exact ih m e hmem

theorem maxEndTimeLoop_attained (m : ℚ) (l : List TimelineEntry) :
    Track.maxEndTimeLoop m l = m ∨ ∃ e ∈ l, e.getEndTime = Track.maxEndTimeLoop m l := by
  induction l generalizing m with
  | nil => exact Or.inl rfl
  | cons y ys ih =>
    unfold Track.maxEndTimeLoop
    split
    · rcases ih y.getEndTime with h | ⟨e, he, h⟩
      · exact Or.inr ⟨y, List.mem_cons_self y ys, h.symm⟩
      · exact Or.inr ⟨e, List.mem_cons_of_mem y he, h⟩
    · rcases ih m with h | ⟨e, he, h⟩
      · exact Or.inl h
      · exact Or.inr ⟨e, List.mem_cons_of_mem y he, h⟩

theorem getTotalDuration_eq_loop (t : Track) :
    t.getTotalDuration = Track.maxEndTimeLoop 0 t.entries := by
  unfold Track.getTotalDuration
  cases h : t.entries with
  | nil => rfl
  | cons y ys => rfl

/-! ## The claims -/

/-- C1: in every track state reached from the empty track by a finite sequence of
`addEntry`, `removeEntry`, `updateEntryStartTime`, `updateEntryDuration` and
`clearEntries` calls with arbitrary arguments, accepted or rejected, no two
entries at distinct indices satisfy `overlapsWith`. -/
theorem reachable_noOverlap (name : String) (color : Color) (ops : List TrackOp) :
    NoOverlap (runOps (Track.new name color) ops).entries := by
  apply noOverlap_runOps
  intro i j hi
  exact absurd hi (Nat.not_lt_zero i)

/-- C2: for a valid index, an `updateEntryStartTime` or `updateEntryDuration` call
whose tentative value makes the indexed entry overlap an entry at another index
returns `false` and leaves the track exactly as it was (same entries with the
same asset, start time and duration, in the same order). -/
theorem update_rollback (t : Track) (index : Nat) (v : ℚ) (h : index < t.entries.length) :
    ((∃ (j : Nat) (hj : j < t.entries.length),
        j ≠ index ∧ (t.entries[index].setStartTime v).overlapsWith t.entries[j] = true) →
      t.updateEntryStartTime index v = (false, t)) ∧
    ((∃ (j : Nat) (hj : j < t.entries.length),
        j ≠ index ∧ (t.entries[index].setDuration v).overlapsWith t.entries[j] = true) →
      t.updateEntryDuration index v = (false, t)) :=
  ⟨updateEntryStartTime_of_overlap t index v h, updateEntryDuration_of_overlap t index v h⟩

/-- Witness of C2 on the track holding `A` and `B`: moving `A` to start 6, or
stretching it to duration 6, collides with `B` and is rolled back. -/
theorem update_rollback_witness :
    trackAB.updateEntryStartTime 0 6 = (false, trackAB) ∧
    trackAB.updateEntryDuration 0 6 = (false, trackAB) :=
  ⟨(update_rollback trackAB 0 6 (by decide)).1
      ⟨1, by decide, by decide, by
        norm_num [trackAB, entryA, entryB, TimelineEntry.setStartTime,
          TimelineEntry.overlapsWith, TimelineEntry.getEndTime, f64Add]⟩,
   (update_rollback trackAB 0 6 (by decide)).2
      ⟨1, by decide, by decide, by
        norm_num [trackAB, entryA, entryB, TimelineEntry.setDuration,
          TimelineEntry.overlapsWith, TimelineEntry.getEndTime, f64Add]⟩⟩

/-- C3: `addEntry(e)` returns `false` exactly when `e` overlaps an existing
entry, and then the track is unchanged; otherwise it returns `true` and the new
entry sequence is a rearrangement of the old entries plus `e` (one entry more),
ascending by start time, the other fields of the track being untouched.  On the
track holding `A` (0, 3) and `B` (5, 2), adding `C` (2, 4) is rejected. -/
theorem addEntry_spec (t : Track) (e : TimelineEntry) :
    ((t.addEntry e).1 = false ↔ ∃ x ∈ t.entries, e.overlapsWith x = true) ∧
    ((∃ x ∈ t.entries, e.overlapsWith x = true) → t.addEntry e = (false, t)) ∧
    ((∀ x ∈ t.entries, e.overlapsWith x = false) →
      (t.addEntry e).1 = true ∧
      (t.addEntry e).2.entries.Perm (t.entries ++ [e]) ∧
      (t.addEntry e).2.entries.length = t.entries.length + 1 ∧
      SortedByStart (t.addEntry e).2.entries ∧
      (t.addEntry e).2.name = t.name ∧ (t.addEntry e).2.color = t.color ∧
      (t.addEntry e).2.visible = t.visible) ∧
    trackAB.addEntry entryC = (false, trackAB) := by
  refine ⟨?_, addEntry_of_overlap t e, ?_, ?_⟩
  · rcases addEntry_overlap_or_free t.entries e with hov | hfree
    · rw [addEntry_of_overlap t e hov]
      exact ⟨fun _ => hov, fun _ => rfl⟩
    · rw [addEntry_of_free t e hfree]
      constructor
      · intro hc; exact absurd hc.symm Bool.false_ne_true
      · rintro ⟨x, hx, hov⟩
        rw [hfree x hx] at hov
        exact absurd hov Bool.false_ne_true
  · intro hfree
    rw [addEntry_of_free t e hfree]
    refine ⟨rfl, sortByStartTime_perm _, ?_, sortedByStart_sortByStartTime _, rfl, rfl, rfl⟩
    rw [(sortByStartTime_perm _).length_eq, List.length_append, List.length_singleton]
  · apply addEntry_of_overlap
    exact ⟨entryA, by simp [trackAB], by
      norm_num [entryA, entryC, TimelineEntry.overlapsWith, TimelineEntry.getEndTime, f64Add]⟩

/-- Witness of C3: on the track holding `A` and `B`, adding `C` is rejected
without change, and adding `D` (3, 2), which fits in the gap, gives `A, D, B`. -/
theorem addEntry_spec_witness :
    trackAB.addEntry entryC = (false, trackAB) ∧
    (trackAB.addEntry entryD).1 = true ∧
    (trackAB.addEntry entryD).2.entries.length = 3 ∧
    SortedByStart (trackAB.addEntry entryD).2.entries :=
  ⟨(addEntry_spec trackAB entryC).2.1 ⟨entryA, by simp [trackAB], by
      norm_num [entryA, entryC, TimelineEntry.overlapsWith, TimelineEntry.getEndTime, f64Add]⟩,
   ((addEntry_spec trackAB entryD).2.2.1 (by
      norm_num [trackAB, entryA, entryB, entryD, TimelineEntry.overlapsWith,
        TimelineEntry.getEndTime, f64Add])).1,
   ((addEntry_spec trackAB entryD).2.2.1 (by
      norm_num [trackAB, entryA, entryB, entryD, TimelineEntry.overlapsWith,
        TimelineEntry.getEndTime, f64Add])).2.2.1,
   ((addEntry_spec trackAB entryD).2.2.1 (by
      norm_num [trackAB, entryA, entryB, entryD, TimelineEntry.overlapsWith,
        TimelineEntry.getEndTime, f64Add])).2.2.2.1⟩

/-- C4: `updateEntryStartTime(index, newStart)` returns `false` and changes
nothing when the index is out of range or `newStart < 0`; otherwise it returns
`true` exactly when the indexed entry with its start replaced by `newStart`
overlaps no entry at another index, and then the resulting entries are the old
ones with only that entry's start time replaced (same asset, same duration),
rearranged into ascending order of start time. -/
theorem updateEntryStartTime_spec (t : Track) (index : Nat) (newStart : ℚ) :
    ((t.entries.length ≤ index ∨ newStart < 0) →
      t.updateEntryStartTime index newStart = (false, t)) ∧
    (∀ (h : index < t.entries.length), 0 ≤ newStart →
      (((t.updateEntryStartTime index newStart).1 = true ↔
          ∀ (j : Nat) (hj : j < t.entries.length), j ≠ index →
            (t.entries[index].setStartTime newStart).overlapsWith t.entries[j] = false) ∧
       ((t.updateEntryStartTime index newStart).1 = true →
          (t.updateEntryStartTime index newStart).2.entries.Perm
            (t.entries.set index
              { asset := t.entries[index].asset, startTime := newStart,
                duration := t.entries[index].duration }) ∧
          SortedByStart (t.updateEntryStartTime index newStart).2.entries ∧
          (t.updateEntryStartTime index newStart).2.name = t.name ∧
          (t.updateEntryStartTime index newStart).2.color = t.color ∧
          (t.updateEntryStartTime index newStart).2.visible = t.visible))) := by
  constructor
  · rintro (h | h)
    · exact updateEntryStartTime_of_index_ge t index newStart h
    · exact updateEntryStartTime_of_neg t index newStart h
  · intro h h0
    rcases overlap_or_free t.entries index (t.entries[index].setStartTime newStart)
      with hov | hfree
    · rw [updateEntryStartTime_of_overlap t index newStart h hov]
      refine ⟨⟨fun hc => absurd hc Bool.false_ne_true, fun hfree => ?_⟩,
        fun hc => absurd hc Bool.false_ne_true⟩
      obtain ⟨j, hj, hne, hj2⟩ := hov
      rw [hfree j hj hne] at hj2
      exact absurd hj2 Bool.false_ne_true
    · rw [updateEntryStartTime_of_free t index newStart h h0 hfree]
      exact ⟨⟨fun _ => hfree, fun _ => rfl⟩,
        fun _ => ⟨sortByStartTime_perm _, sortedByStart_sortByStartTime _, rfl, rfl, rfl⟩⟩

/-- Witness of C4 on the track holding `A` and `B`: moving `A` to start 10 is
accepted and gives `B` followed by the moved `A`; index 2 and start `-1` are
rejected without change. -/
theorem updateEntryStartTime_spec_witness :
    trackAB.updateEntryStartTime 2 1 = (false, trackAB) ∧
    trackAB.updateEntryStartTime 0 (-1) = (false, trackAB) ∧
    (trackAB.updateEntryStartTime 0 10).1 = true ∧
    SortedByStart (trackAB.updateEntryStartTime 0 10).2.entries :=
  ⟨(updateEntryStartTime_spec trackAB 2 1).1 (Or.inl (by decide)),
   (updateEntryStartTime_spec trackAB 0 (-1)).1 (Or.inr (by norm_num)),
   ((updateEntryStartTime_spec trackAB 0 10).2 (by decide) (by norm_num)).1.2 (by
      intro j hj hne
      have hj1 : j = 1 := by
        have : j < 2 := hj
        omega
      subst hj1
      norm_num [trackAB, entryA, entryB, TimelineEntry.setStartTime,
        TimelineEntry.overlapsWith, TimelineEntry.getEndTime, f64Add]),
   (((updateEntryStartTime_spec trackAB 0 10).2 (by decide) (by norm_num)).2 (by
      norm_num [Track.updateEntryStartTime, Track.overlapsOtherLoop, trackAB, entryA,
        entryB, TimelineEntry.setStartTime, TimelineEntry.overlapsWith,
        TimelineEntry.getEndTime, f64Add])).2.1⟩

/-- C5: `updateEntryDuration(index, newDuration)` returns `false` and changes
nothing when the index is out of range or `newDuration <= 0.1` (exactly `0.1`
included), `0.1` being the `double` literal of the code, the binary64 number
`3602879701896397 / 2 ^ 55` nearest to one tenth; otherwise it returns `true`
exactly when the resized entry overlaps no entry at another index, and then the
entry at the same index has duration `newDuration` with its asset and start
unchanged, every other entry and the order of the entries being as before. -/
theorem updateEntryDuration_spec (t : Track) (index : Nat) (newDuration : ℚ) :
    ((t.entries.length ≤ index ∨ newDuration ≤ Track.minDuration) →
      t.updateEntryDuration index newDuration = (false, t)) ∧
    t.updateEntryDuration index Track.minDuration = (false, t) ∧
    (Track.minDuration = roundDouble (1 / 10) ∧
      Track.minDuration = 3602879701896397 / 36028797018963968 ∧
      1 / 10 < Track.minDuration) ∧
    (∀ (h : index < t.entries.length), Track.minDuration < newDuration →
      (((t.updateEntryDuration index newDuration).1 = true ↔
          ∀ (j : Nat) (hj : j < t.entries.length), j ≠ index →
            (t.entries[index].setDuration newDuration).overlapsWith t.entries[j] = false) ∧
       ((t.updateEntryDuration index newDuration).1 = true →
          (t.updateEntryDuration index newDuration).2 =
            { name := t.name, color := t.color, visible := t.visible,
              entries := t.entries.set index
                (TimelineEntry.mk t.entries[index].asset t.entries[index].startTime
                  newDuration) }))) := by
  refine ⟨?_, updateEntryDuration_of_small t index _ (le_refl _),
    ⟨rfl, minDuration_eq, by rw [minDuration_eq]; norm_num⟩, ?_⟩
  · rintro (h | h)
    · exact updateEntryDuration_of_index_ge t index newDuration h
    · exact updateEntryDuration_of_small t index newDuration h
  · intro h h0
    rcases overlap_or_free t.entries index (t.entries[index].setDuration newDuration)
      with hov | hfree
    · rw [updateEntryDuration_of_overlap t index newDuration h hov]
      refine ⟨⟨fun hc => absurd hc Bool.false_ne_true, fun hfree => ?_⟩,
        fun hc => absurd hc Bool.false_ne_true⟩
      obtain ⟨j, hj, hne, hj2⟩ := hov
      rw [hfree j hj hne] at hj2
      exact absurd hj2 Bool.false_ne_true
    · rw [updateEntryDuration_of_free t index newDuration h h0 hfree]
      exact ⟨⟨fun _ => hfree, fun _ => rfl⟩, fun _ => rfl⟩

/-- Witness of C5 on the track holding `A` and `B`: index 2 and the duration
`0.1` are rejected without change; stretching `A` to duration 5 is accepted. -/
theorem updateEntryDuration_spec_witness :
    trackAB.updateEntryDuration 2 1 = (false, trackAB) ∧
    trackAB.updateEntryDuration 0 (3602879701896397 / 36028797018963968)
      = (false, trackAB) ∧
    (trackAB.updateEntryDuration 0 5).1 = true :=
  ⟨(updateEntryDuration_spec trackAB 2 1).1 (Or.inl (by decide)),
   (updateEntryDuration_spec trackAB 0 (3602879701896397 / 36028797018963968)).1
     (Or.inr (le_of_eq minDuration_eq.symm)),
   ((updateEntryDuration_spec trackAB 0 5).2.2.2 (by decide)
      (by rw [minDuration_eq]; norm_num)).1.2 (by
      intro j hj hne
      have hj1 : j = 1 := by
        have : j < 2 := hj
        omega
      subst hj1
      norm_num [trackAB, entryA, entryB, TimelineEntry.setDuration,
        TimelineEntry.overlapsWith, TimelineEntry.getEndTime, f64Add])⟩

/-- C6: in every track state reached from the empty track by a finite sequence of
`addEntry`, `removeEntry`, `updateEntryStartTime`, `updateEntryDuration` and
`clearEntries` calls, the entry sequence is ascending by start time. -/
theorem reachable_sortedByStart (name : String) (color : Color) (ops : List TrackOp) :
    SortedByStart (runOps (Track.new name color) ops).entries := by
  apply sortedByStart_runOps
  intro i j hi
  exact absurd hi (Nat.not_lt_zero i)

/-- C7: on a track whose entries are pairwise non-overlapping, at most one index
holds an entry active at `time`; `getEntryAt(time)` returns the entry at that
index when there is one, it is the first active entry of the sequence, and it
returns null exactly when no entry is active at `time`.  With `A` (0, 3) and
`B` (5, 2): `getEntryAt(1)` is `A`, `getEntryAt(4)` is null, `getEntryAt(6)` is `B`. -/
theorem getEntryAt_spec (t : Track) (time : ℚ) (h : NoOverlap t.entries) :
    (∀ (i j : Nat) (hi : i < t.entries.length) (hj : j < t.entries.length),
      t.entries[i].isActiveAt time = true → t.entries[j].isActiveAt time = true → i = j) ∧
    (∀ (i : Nat) (hi : i < t.entries.length),
      t.entries[i].isActiveAt time = true → t.getEntryAt time = some t.entries[i]) ∧
    t.getEntryAt time = t.entries.find? (fun e => e.isActiveAt time) ∧
    (t.getEntryAt time = none ↔ ∀ e ∈ t.entries, e.isActiveAt time = false) ∧
    (trackAB.getEntryAt 1 = some entryA ∧ trackAB.getEntryAt 4 = none ∧
      trackAB.getEntryAt 6 = some entryB) := by
  have hfind : t.getEntryAt time = t.entries.find? (fun e => e.isActiveAt time) :=
    getEntryAtLoop_eq_find time t.entries
  refine ⟨active_index_unique h time, ?_, hfind, ?_, ?_⟩
  · intro i hi hai
    rw [hfind]
    cases hf : t.entries.find? (fun e => e.isActiveAt time) with
    | none =>
      rw [List.find?_eq_none] at hf
      exact absurd hai (hf _ (List.getElem_mem hi))
    | some e =>
      have hact := List.find?_some hf
      simp only at hact
      obtain ⟨k, hk, hke⟩ := List.getElem_of_mem (List.mem_of_find?_eq_some hf)
      have hki : k = i := active_index_unique h time k i hk hi (by rw [hke]; exact hact) hai
      subst hki
      rw [hke]
  · rw [hfind, List.find?_eq_none]
    constructor
    · intro hn e he
      simpa using hn e he
    · intro hn e he
      simpa using hn e he
  · refine ⟨?_, ?_, ?_⟩ <;>
      norm_num [Track.getEntryAt, Track.getEntryAtLoop, TimelineEntry.isActiveAt,
        TimelineEntry.getEndTime, f64Add, trackAB, entryA, entryB]

/-- Witness of C7: the track holding `A` and `B` is overlap-free, and its lookup
at time 6 is `B`. -/
theorem getEntryAt_spec_witness : trackAB.getEntryAt 6 = some entryB :=
  (getEntryAt_spec trackAB 6 (by
    intro i j hi hj hne
    have hi2 : i < 2 := hi
    have hj2 : j < 2 := hj
    have hcases : (i = 0 ∧ j = 1) ∨ (i = 1 ∧ j = 0) := by omega
    rcases hcases with ⟨rfl, rfl⟩ | ⟨rfl, rfl⟩ <;>
      norm_num [trackAB, entryA, entryB, TimelineEntry.overlapsWith,
        TimelineEntry.getEndTime, f64Add])).2.1 1 (by decide) (by
    norm_num [trackAB, entryB, TimelineEntry.isActiveAt, TimelineEntry.getEndTime, f64Add])

/-- C8 as stated fails: the entry starting at `2 ^ 53` with duration 1 and the
entry from 0 to `2 ^ 54` have positive durations and `overlapsWith` holds for
them, but the first one is active at no time, its end time `startTime + duration`
being rounded to its start time. -/
theorem overlap_without_common_time :
    0 < entryFar.duration ∧ 0 < entryLong.duration ∧
    entryFar.overlapsWith entryLong = true ∧
    entryFar.getEndTime = entryFar.startTime ∧
    (∀ time : ℚ, entryFar.isActiveAt time = false) ∧
    ¬ (∃ time : ℚ, entryFar.isActiveAt time = true ∧ entryLong.isActiveAt time = true) := by
  have hnever : ∀ time : ℚ, entryFar.isActiveAt time = false := by
    intro time
    rw [← Bool.not_eq_true, isActiveAt_iff, getEndTime_entryFar]
    rintro ⟨h1, h2⟩
    have : entryFar.startTime = 9007199254740992 := rfl
    rw [this] at h1
    exact absurd h2 (not_lt.mpr h1)
  refine ⟨by norm_num [entryFar], by norm_num [entryLong], ?_, ?_, hnever, ?_⟩
  · rw [overlapsWith_iff, getEndTime_entryFar, getEndTime_entryLong]
    norm_num [entryFar, entryLong]
  · rw [getEndTime_entryFar]
    rfl
  · rintro ⟨time, h1, _⟩
    rw [hnever time] at h1
    exact absurd h1 Bool.false_ne_true

/-- C8, amended: for entries `a` and `b` whose end time `getEndTime()`, the
`double` sum `startTime + duration`, is greater than their start time,
`a.overlapsWith(b)` holds exactly when some time is active for both, that is,
when the half-open intervals from start to end share a point; and
`overlapsWith` is symmetric. -/
theorem overlapsWith_iff_common_time (a b : TimelineEntry)
    (hae : a.startTime < a.getEndTime) (hbe : b.startTime < b.getEndTime) :
    (a.overlapsWith b = true ↔
      (a.startTime < b.getEndTime ∧ b.startTime < a.getEndTime)) ∧
    (a.overlapsWith b = true ↔
      ∃ time : ℚ, a.isActiveAt time = true ∧ b.isActiveAt time = true) ∧
    a.overlapsWith b = b.overlapsWith a := by
  refine ⟨overlapsWith_iff a b, ⟨fun hov => ?_, fun hex => ?_⟩, overlapsWith_comm a b⟩
  · rw [overlapsWith_iff] at hov
    refine ⟨max a.startTime b.startTime, ?_, ?_⟩
    · rw [isActiveAt_iff]
      exact ⟨le_max_left _ _, max_lt hae hov.2⟩
    · rw [isActiveAt_iff]
      exact ⟨le_max_right _ _, max_lt hov.1 hbe⟩
  · obtain ⟨time, h1, h2⟩ := hex
    exact overlapsWith_of_active h1 h2

/-- Witness of C8: `A` (0, 3) and `C` (2, 4) overlap, in both directions. -/
theorem overlapsWith_iff_common_time_witness :
    entryA.overlapsWith entryC = true ∧ entryC.overlapsWith entryA = true :=
  have h := overlapsWith_iff_common_time entryA entryC
    (by norm_num [entryA, TimelineEntry.getEndTime, f64Add])
    (by norm_num [entryC, TimelineEntry.getEndTime, f64Add])
  ⟨h.2.1.mpr ⟨2, by
      norm_num [entryA, entryC, TimelineEntry.isActiveAt, TimelineEntry.getEndTime, f64Add]⟩,
   h.2.2 ▸ h.2.1.mpr ⟨2, by
      norm_num [entryA, entryC, TimelineEntry.isActiveAt, TimelineEntry.getEndTime, f64Add]⟩⟩

/-- C9, the code at the failing inputs: on an empty track `addEntry` accepts an
entry of duration 0 (the one the "+ Add" handler builds for a `TextAsset`) and an
entry with a negative start time, so a reachable track holds an entry that
violates `duration > 0`, and another one that violates `startTime >= 0`. -/
theorem addEntry_accepts_invalid_entry :
    (Track.new "Track" ⟨100, 100, 200, 255⟩).addEntry entryZeroLength =
      (true, { name := "Track", color := ⟨100, 100, 200, 255⟩, visible := true,
               entries := [entryZeroLength] }) ∧
    ¬ (0 < entryZeroLength.duration) ∧
    (runOps (Track.new "Track" ⟨100, 100, 200, 255⟩)
      [TrackOp.addEntry entryBeforeZero]).entries = [entryBeforeZero] ∧
    ¬ (0 ≤ entryBeforeZero.startTime) := by
  refine ⟨?_, ?_, ?_, ?_⟩
  · rfl
  · norm_num [entryZeroLength]
  · rfl
  · norm_num [entryBeforeZero]

/-- C10 as stated fails: the track holding the single entry (start -5,
duration 1) is not empty, every `startTime + duration` on it is -4, and
`getTotalDuration()` returns 0, which is the end time of none of its entries. -/
theorem getTotalDuration_not_max_end :
    trackBeforeZero.entries ≠ [] ∧
    (∀ e ∈ trackBeforeZero.entries, e.startTime + e.duration = -4) ∧
    trackBeforeZero.getTotalDuration = 0 ∧
    ¬ (∃ e ∈ trackBeforeZero.entries,
        e.startTime + e.duration = trackBeforeZero.getTotalDuration) ∧
    (∀ e ∈ trackBeforeZero.entries, e.getEndTime = -4) := by
  have hval : trackBeforeZero.getTotalDuration = 0 := by
    norm_num [Track.getTotalDuration, Track.maxEndTimeLoop, TimelineEntry.getEndTime, f64Add,
      trackBeforeZero, entryBeforeZero]
  refine ⟨by simp [trackBeforeZero], ?_, hval, ?_, ?_⟩
  · intro e he
    have heq : e = entryBeforeZero := by simpa [trackBeforeZero] using he
    rw [heq]
    norm_num [entryBeforeZero]
  · rintro ⟨e, he, hsum⟩
    have heq : e = entryBeforeZero := by simpa [trackBeforeZero] using he
    rw [heq, hval] at hsum
    norm_num [entryBeforeZero] at hsum
  · intro e he
    have heq : e = entryBeforeZero := by simpa [trackBeforeZero] using he
    rw [heq]
    norm_num [entryBeforeZero, TimelineEntry.getEndTime, f64Add]

/-- C10, amended: `getTotalDuration()` returns 0 on a track without entries;
otherwise it returns the larger of 0 and the maximum of `startTime + duration`
(the `double` sum that `getEndTime()` returns) over the entries: it bounds every
end time, it is never negative, and it is 0 or the end time of an entry.  Hence
it is the maximum end time as soon as some entry has a non-negative end time.
For `A` (0, 3) and `B` (5, 2) it is 7. -/
theorem getTotalDuration_spec (t : Track) :
    (t.entries = [] → t.getTotalDuration = 0) ∧
    (∀ e ∈ t.entries, e.getEndTime ≤ t.getTotalDuration) ∧
    0 ≤ t.getTotalDuration ∧
    (t.getTotalDuration = 0 ∨
      ∃ e ∈ t.entries, e.getEndTime = t.getTotalDuration) ∧
    ((∃ e ∈ t.entries, 0 ≤ e.getEndTime) →
      ∃ e ∈ t.entries, e.getEndTime = t.getTotalDuration) ∧
    trackAB.getTotalDuration = 7 := by
  have hupper : ∀ e ∈ t.entries, e.getEndTime ≤ t.getTotalDuration := by
    rw [getTotalDuration_eq_loop]
    exact maxEndTimeLoop_upper 0 t.entries
  have hatt : t.getTotalDuration = 0 ∨
      ∃ e ∈ t.entries, e.getEndTime = t.getTotalDuration := by
    rw [getTotalDuration_eq_loop]
    exact maxEndTimeLoop_attained 0 t.entries
  refine ⟨?_, hupper, ?_, hatt, ?_, ?_⟩
  · intro hnil
    unfold Track.getTotalDuration
    rw [hnil]
    rfl
  · rw [getTotalDuration_eq_loop]
    exact maxEndTimeLoop_ge 0 t.entries
  · rintro ⟨e, he, hpos⟩
    rcases hatt with h0 | hex
    · refine ⟨e, he, ?_⟩
      have hle := hupper e he
      rw [h0] at hle ⊢
      exact le_antisymm hle hpos
    · exact hex
  · norm_num [Track.getTotalDuration, Track.maxEndTimeLoop, TimelineEntry.getEndTime, f64Add,
      trackAB, entryA, entryB]

/-- Witness of C10, amended: on the track holding `A` and `B` the returned value
is the end time of one of the two entries. -/
theorem getTotalDuration_spec_witness :
    ∃ e ∈ trackAB.entries, e.getEndTime = trackAB.getTotalDuration :=
  (getTotalDuration_spec trackAB).2.2.2.2.1
    ⟨entryA, by simp [trackAB], by norm_num [entryA, TimelineEntry.getEndTime, f64Add]⟩

/-! ## The last entry of a well-formed track -/

theorem endTime_le_last_endTime {l : List TimelineEntry}
    (hlive : ∀ e ∈ l, e.startTime < e.getEndTime)
    (hs : SortedByStart l) (hno : NoOverlap l)
    (i : Nat) (hi : i < l.length) (hn : l.length - 1 < l.length) :
    l[i].getEndTime ≤ l[l.length - 1].getEndTime := by
  by_cases hlast : i = l.length - 1
  · subst hlast; exact le_refl _
  · have hlt : i < l.length - 1 := by omega
    have hsort := hs i (l.length - 1) hi hn hlt
    have hov := hno i (l.length - 1) hi hn hlast
    have hlast1 := hlive _ (List.getElem_mem hn)
    have hnot : ¬ (l[i].overlapsWith l[l.length - 1] = true) := by
      rw [hov]; exact Bool.false_ne_true
    rw [overlapsWith_iff] at hnot
    by_contra hcon
    apply hnot
    constructor <;> linarith

/-- C11 as stated fails: the track holding the entry from 1 to 5 followed by the
entry starting at 1 with duration `2 ^ (-60)` has entries with `startTime >= 0`
and `duration > 0`, is ascending by start time and free of overlaps (the end time
of the second entry, the `double` sum `1 + 2 ^ (-60)`, is 1), and its total
duration is 5 while the last entry ends at 1. -/
theorem last_end_not_total :
    trackWideBrief.entries ≠ [] ∧
    (∀ e ∈ trackWideBrief.entries, 0 ≤ e.startTime ∧ 0 < e.duration) ∧
    SortedByStart trackWideBrief.entries ∧ NoOverlap trackWideBrief.entries ∧
    trackWideBrief.getTotalDuration = 5 ∧
    trackWideBrief.entries.getLast? = some entryBrief ∧
    entryBrief.getEndTime = 1 ∧
    entryBrief.startTime + entryBrief.duration < 5 ∧
    (runOps (Track.new "Track" ⟨100, 100, 200, 255⟩)
      [TrackOp.addEntry entryWide, TrackOp.addEntry entryBrief]) = trackWideBrief := by
  have hwide : entryWide.getEndTime = 5 := by
    norm_num [entryWide, TimelineEntry.getEndTime, f64Add]
  have hov1 : entryWide.overlapsWith entryBrief = false := by
    rw [← Bool.not_eq_true, overlapsWith_iff, getEndTime_entryBrief]
    norm_num [entryWide]
  have hov2 : entryBrief.overlapsWith entryWide = false := by
    rw [overlapsWith_comm]; exact hov1
  refine ⟨by simp [trackWideBrief], ?_, ?_, ?_, ?_, rfl, getEndTime_entryBrief, ?_, ?_⟩
  · intro e he
    have hcases : e = entryWide ∨ e = entryBrief := by simpa [trackWideBrief] using he
    rcases hcases with rfl | rfl
    · norm_num [entryWide]
    · norm_num [entryBrief]
  · intro i j hi hj hij
    have hi2 : i < 2 := hi
    have hj2 : j < 2 := hj
    have hcases : i = 0 ∧ j = 1 := by omega
    rcases hcases with ⟨rfl, rfl⟩
    norm_num [trackWideBrief, entryWide, entryBrief]
  · intro i j hi hj hne
    have hi2 : i < 2 := hi
    have hj2 : j < 2 := hj
    have hcases : (i = 0 ∧ j = 1) ∨ (i = 1 ∧ j = 0) := by omega
    rcases hcases with ⟨rfl, rfl⟩ | ⟨rfl, rfl⟩
    · exact hov1
    · exact hov2
  · unfold Track.getTotalDuration trackWideBrief
    simp only [Track.maxEndTimeLoop, hwide, getEndTime_entryBrief]
    norm_num
  · norm_num [entryBrief]
  · have h1 : (Track.new "Track" ⟨100, 100, 200, 255⟩).addEntry entryWide =
        (true, trackWide) := rfl
    have h2 : trackWide.addEntry entryBrief = (true, trackWideBrief) := by
      unfold Track.addEntry
      simp only [Track.wouldOverlap, Track.wouldOverlapLoop, trackWide, hov2]
      norm_num [sortByStartTime, sortInsert, startTimeLess, trackWideBrief, entryWide,
        entryBrief]
    simp only [runOps, TrackOp.apply, h1, h2]

/-- C11, amended: on a non-empty track whose entries all have `startTime >= 0`,
`duration > 0` and an end time `getEndTime()` (the `double` sum
`startTime + duration`) greater than their start time, ascending by start time
and pairwise non-overlapping, `getTotalDuration()` is the end time of the last
entry. -/
theorem getTotalDuration_eq_last_end (t : Track) (hne : t.entries ≠ [])
    (hpos : ∀ e ∈ t.entries, 0 ≤ e.startTime ∧ 0 < e.duration)
    (hlive : ∀ e ∈ t.entries, e.startTime < e.getEndTime)
    (hs : SortedByStart t.entries) (hno : NoOverlap t.entries) :
    t.getTotalDuration = (t.entries.getLast hne).getEndTime := by
  have hlen : 0 < t.entries.length := List.length_pos.mpr hne
  have hn : t.entries.length - 1 < t.entries.length := by omega
  rw [List.getLast_eq_getElem]
  have hlastpos := hpos _ (List.getElem_mem hn)
  have hlastlive := hlive _ (List.getElem_mem hn)
  have hupper := maxEndTimeLoop_upper 0 t.entries _ (List.getElem_mem hn)
  rw [getTotalDuration_eq_loop]
  rcases maxEndTimeLoop_attained 0 t.entries with h0 | ⟨e, he, hatt⟩
  · rw [h0] at hupper
    linarith [hlastpos.1]
  · obtain ⟨i, hi, hie⟩ := List.getElem_of_mem he
    have hle := endTime_le_last_endTime hlive hs hno i hi hn
    rw [hie, hatt] at hle
    exact le_antisymm hle hupper

/-- Witness of C11: the track holding `A` (0, 3) and `B` (5, 2) is well formed, and
its total duration is the end time 7 of `B`. -/
theorem getTotalDuration_eq_last_end_witness : trackAB.getTotalDuration = 7 := by
  have h := getTotalDuration_eq_last_end trackAB (by simp [trackAB])
    (by
      intro e he
      have hcases : e = entryA ∨ e = entryB := by simpa [trackAB] using he
      rcases hcases with rfl | rfl
      · norm_num [entryA]
      · norm_num [entryB])
    (by
      intro e he
      have hcases : e = entryA ∨ e = entryB := by simpa [trackAB] using he
      rcases hcases with rfl | rfl
      · norm_num [entryA, TimelineEntry.getEndTime, f64Add]
      · norm_num [entryB, TimelineEntry.getEndTime, f64Add])
    (by
      intro i j hi hj hij
      have hi2 : i < 2 := hi
      have hj2 : j < 2 := hj
      have hcases : i = 0 ∧ j = 1 := by omega
      rcases hcases with ⟨rfl, rfl⟩
      norm_num [trackAB, entryA, entryB])
    (by
      intro i j hi hj hne
      have hi2 : i < 2 := hi
      have hj2 : j < 2 := hj
      have hcases : (i = 0 ∧ j = 1) ∨ (i = 1 ∧ j = 0) := by omega
      rcases hcases with ⟨rfl, rfl⟩ | ⟨rfl, rfl⟩ <;>
        norm_num [trackAB, entryA, entryB, TimelineEntry.overlapsWith,
          TimelineEntry.getEndTime, f64Add])
  rw [h]
  norm_num [trackAB, entryB, TimelineEntry.getEndTime, f64Add]

/-! ## `Video::nextFrame` and `Video::seekFrame`, branch by branch -/

theorem nextFrame_of_backward {D : Type} (rd : VideoReader D) (v : Video D) (time : ℚ)
    (h : f64Sub time v.lastFrameTime < -(f64Div 2 v.frameRate)) :
    Video.nextFrame rd v time = (true, Video.seekFrame rd v time) := by
  unfold Video.nextFrame
  simp only [h, if_true]

theorem nextFrame_of_forward {D : Type} (rd : VideoReader D) (v : Video D) (time : ℚ)
    (h : f64Sub time v.lastFrameTime > 1) :
    Video.nextFrame rd v time = (true, Video.seekFrame rd v time) := by
  unfold Video.nextFrame
  by_cases hb : f64Sub time v.lastFrameTime < -(f64Div 2 v.frameRate)
  · simp only [hb, if_true]
  · simp only [hb, if_false, h, if_true]

theorem nextFrame_of_window {D : Type} (rd : VideoReader D) (v : Video D) (time : ℚ)
    (hb : ¬ f64Sub time v.lastFrameTime < -(f64Div 2 v.frameRate))
    (hf : ¬ f64Sub time v.lastFrameTime > 1)
    (hs : ¬ f64Sub time v.lastFrameTime ≥ f64Div 1 v.frameRate) :
    Video.nextFrame rd v time = (true, v) := by
  unfold Video.nextFrame
  simp only [hb, hf, hs, if_false]

theorem nextFrame_of_sequential {D : Type} (rd : VideoReader D) (v : Video D) (time : ℚ)
    (hb : ¬ f64Sub time v.lastFrameTime < -(f64Div 2 v.frameRate))
    (hf : ¬ f64Sub time v.lastFrameTime > 1)
    (hs : f64Sub time v.lastFrameTime ≥ f64Div 1 v.frameRate) :
    Video.nextFrame rd v time =
      match Video.readFrame rd v with
      | (some pts, v1) => (true, { v1 with currentPts := pts, lastFrameTime := time })
      | (none, v1) => (false, v1) := by
  unfold Video.nextFrame
  simp only [hb, hf, hs, if_false, if_true]

theorem readFrame_of_some {D : Type} (rd : VideoReader D) (v : Video D)
    (img : Image) (pts : Int) (d : D)
    (h : rd.readFrame v.videoState = (some (img, pts), d)) :
    Video.readFrame rd v =
      (some pts, { v with videoState := d, frame := img,
                          calls := v.calls ++ [ReaderCall.read] }) := by
  unfold Video.readFrame
  rw [h]

theorem readFrame_of_none {D : Type} (rd : VideoReader D) (v : Video D) (d : D)
    (h : rd.readFrame v.videoState = (none, d)) :
    Video.readFrame rd v =
      (none, { v with videoState := d, calls := v.calls ++ [ReaderCall.read] }) := by
  unfold Video.readFrame
  rw [h]

theorem seekReader_eq {D : Type} (rd : VideoReader D) (v : Video D) (target : Int)
    (ok : Bool) (d : D) (h : rd.seekFrame v.videoState target = (ok, d)) :
    Video.seekReader rd v target =
      (ok, { v with videoState := d, calls := v.calls ++ [ReaderCall.seek target] }) := by
  unfold Video.seekReader
  rw [h]

/-- A difference that is a binary64 number is computed exactly. -/
theorem f64Sub_exact (x y : ℚ) (a : ℤ) (k : ℕ) (h : x - y = (a : ℚ) / 2 ^ k)
    (ha : |a| < 2 ^ 53) (hk : k ≤ 1074) : f64Sub x y = x - y := by
  unfold f64Sub
  rw [h]
  exact roundDouble_div_two_pow a k ha hk

theorem f64Sub_self (x : ℚ) : f64Sub x x = 0 := by
  unfold f64Sub
  rw [sub_self, roundDouble_zero]

theorem f64Div_one_le_one {fr : ℚ} (hfr : 1 ≤ fr) : f64Div 1 fr ≤ 1 := by
  unfold f64Div
  have h : 1 / fr ≤ 1 := by
    rw [div_le_one (lt_of_lt_of_le one_pos hfr)]
    exact hfr
  have := roundDouble_mono h
  rw [roundDouble_one] at this
  exact this

theorem f64Div_nonneg {x fr : ℚ} (hx : 0 ≤ x) (hfr : 0 ≤ fr) : 0 ≤ f64Div x fr :=
  roundDouble_nonneg (div_nonneg hx hfr)

/-- The quotient `1.0 / frameRate` is positive for every frame rate in the range
of binary64. -/
theorem f64Div_one_pos {fr : ℚ} (hfr : 0 < fr) (hmax : fr < 2 ^ 1024) : 0 < f64Div 1 fr := by
  unfold f64Div
  apply roundDouble_pos
  have h1 : (2 : ℚ) ^ (-1074 : ℤ) = 1 / 2 ^ 1074 := by
    rw [zpow_neg, one_div]
    norm_cast
  rw [h1]
  apply one_div_le_one_div_of_le hfr
  have h2 : (2 : ℚ) ^ 1024 ≤ 2 ^ 1074 := pow_le_pow_right₀ (by norm_num) (by norm_num)
  exact le_trans (le_of_lt hmax) h2

/-- The three tests of `nextFrame` between `1/frameRate` and one second after the
last decoded frame: rounding is monotone, so the bounds on the exact difference
carry over to the computed one. -/
theorem sequential_guards {D : Type} (v : Video D) (time : ℚ) (hfr : 1 ≤ v.frameRate)
    (hlo : 1 / v.frameRate ≤ time - v.lastFrameTime)
    (hhi : time - v.lastFrameTime ≤ 1) :
    ¬ f64Sub time v.lastFrameTime < -(f64Div 2 v.frameRate) ∧
    ¬ f64Sub time v.lastFrameTime > 1 ∧
    f64Sub time v.lastFrameTime ≥ f64Div 1 v.frameRate := by
  have hpos : 0 ≤ v.frameRate := le_trans zero_le_one hfr
  have h1 : 0 ≤ f64Div 1 v.frameRate := f64Div_nonneg zero_le_one hpos
  have h2 : 0 ≤ f64Div 2 v.frameRate := f64Div_nonneg zero_le_two hpos
  have hs : f64Div 1 v.frameRate ≤ f64Sub time v.lastFrameTime := roundDouble_mono hlo
  have hf : f64Sub time v.lastFrameTime ≤ 1 := by
    have := roundDouble_mono hhi
    rw [roundDouble_one] at this
    exact this
  exact ⟨fun hc => by linarith, not_lt.mpr hf, hs⟩

theorem nextFrame_of_between {D : Type} (rd : VideoReader D) (v : Video D) (time : ℚ)
    (hfr : 1 ≤ v.frameRate) (hlo : 1 / v.frameRate ≤ time - v.lastFrameTime)
    (hhi : time - v.lastFrameTime ≤ 1) :
    Video.nextFrame rd v time =
      match Video.readFrame rd v with
      | (some pts, v1) => (true, { v1 with currentPts := pts, lastFrameTime := time })
      | (none, v1) => (false, v1) := by
  obtain ⟨hb, hf, hs⟩ := sequential_guards v time hfr hlo hhi
  exact nextFrame_of_sequential rd v time hb hf hs

theorem seekFrame_of_ok {D : Type} (rd : VideoReader D) (v : Video D) (time : ℚ)
    (d1 d2 : D) (img : Image) (pts : Int)
    (hs : rd.seekFrame v.videoState (castInt64 (f64Div time v.timeBase)) = (true, d1))
    (hr : rd.readFrame d1 = (some (img, pts), d2)) :
    Video.seekFrame rd v time =
      { videoState := d2, timeBase := v.timeBase, lastFrameTime := time,
        currentPts := pts, frameRate := v.frameRate, frame := img,
        calls := v.calls ++ [ReaderCall.seek (castInt64 (f64Div time v.timeBase))]
          ++ [ReaderCall.read] } := by
  unfold Video.seekFrame
  simp only [seekReader_eq rd v _ true d1 hs]
  rw [readFrame_of_some rd _ img pts d2 hr]

theorem seekFrame_of_fallback {D : Type} (rd : VideoReader D) (v : Video D) (time : ℚ)
    (d1 d2 d3 : D) (img : Image) (pts : Int)
    (hs : rd.seekFrame v.videoState (castInt64 (f64Div time v.timeBase)) = (false, d1))
    (hs0 : rd.seekFrame d1 0 = (true, d2))
    (hr : rd.readFrame d2 = (some (img, pts), d3)) :
    Video.seekFrame rd v time =
      { videoState := d3, timeBase := v.timeBase, lastFrameTime := 0,
        currentPts := pts, frameRate := v.frameRate, frame := img,
        calls := v.calls ++ [ReaderCall.seek (castInt64 (f64Div time v.timeBase))]
          ++ [ReaderCall.seek 0] ++ [ReaderCall.read] } := by
  unfold Video.seekFrame
  simp only [seekReader_eq rd v _ false d1 hs]
  rw [seekReader_eq rd _ 0 true d2 hs0]
  simp only []
  rw [readFrame_of_some rd _ img pts d3 hr]

theorem seekFrame_of_fail {D : Type} (rd : VideoReader D) (v : Video D) (time : ℚ)
    (d1 d2 : D)
    (hs : rd.seekFrame v.videoState (castInt64 (f64Div time v.timeBase)) = (false, d1))
    (hs0 : rd.seekFrame d1 0 = (false, d2)) :
    Video.seekFrame rd v time =
      { videoState := d2, timeBase := v.timeBase, lastFrameTime := v.lastFrameTime,
        currentPts := v.currentPts, frameRate := v.frameRate, frame := v.frame,
        calls := v.calls ++ [ReaderCall.seek (castInt64 (f64Div time v.timeBase))]
          ++ [ReaderCall.seek 0] } := by
  unfold Video.seekFrame
  simp only [seekReader_eq rd v _ false d1 hs]
  rw [seekReader_eq rd _ 0 false d2 hs0]

/-- Whatever the decoder answers, `seekFrame` keeps the frame rate and starts by
a seek call to the target position. -/
theorem seekFrame_frameRate_calls {D : Type} (rd : VideoReader D) (v : Video D) (time : ℚ) :
    (Video.seekFrame rd v time).frameRate = v.frameRate ∧
    ∃ rest : List ReaderCall, (Video.seekFrame rd v time).calls =
      v.calls ++ ReaderCall.seek (castInt64 (f64Div time v.timeBase)) :: rest := by
  rcases hs : rd.seekFrame v.videoState (castInt64 (f64Div time v.timeBase)) with ⟨ok, d1⟩
  cases ok with
  | true =>
    rcases hr : rd.readFrame d1 with ⟨_ | ⟨img, pts⟩, d2⟩
    · unfold Video.seekFrame
      simp only [seekReader_eq rd v _ true d1 hs]
      rw [readFrame_of_none rd _ d2 hr]
      exact ⟨rfl, [ReaderCall.read], by simp⟩
    · rw [seekFrame_of_ok rd v time d1 d2 img pts hs hr]
      exact ⟨rfl, [ReaderCall.read], by simp⟩
  | false =>
    rcases hs0 : rd.seekFrame d1 0 with ⟨ok0, d2⟩
    cases ok0 with
    | true =>
      rcases hr : rd.readFrame d2 with ⟨_ | ⟨img, pts⟩, d3⟩
      · unfold Video.seekFrame
        simp only [seekReader_eq rd v _ false d1 hs]
        rw [seekReader_eq rd _ 0 true d2 hs0]
        simp only []
        rw [readFrame_of_none rd _ d3 hr]
        exact ⟨rfl, [ReaderCall.seek 0, ReaderCall.read], by simp⟩
      · rw [seekFrame_of_fallback rd v time d1 d2 d3 img pts hs hs0 hr]
        exact ⟨rfl, [ReaderCall.seek 0, ReaderCall.read], by simp⟩
    | false =>
      rw [seekFrame_of_fail rd v time d1 d2 hs hs0]
      exact ⟨rfl, [ReaderCall.seek 0], by simp⟩

theorem nextFrame_frameRate {D : Type} (rd : VideoReader D) (v : Video D) (time : ℚ) :
    (Video.nextFrame rd v time).2.frameRate = v.frameRate := by
  by_cases hb : f64Sub time v.lastFrameTime < -(f64Div 2 v.frameRate)
  · rw [nextFrame_of_backward rd v time hb]
    exact (seekFrame_frameRate_calls rd v time).1
  · by_cases hf : f64Sub time v.lastFrameTime > 1
    · rw [nextFrame_of_forward rd v time hf]
      exact (seekFrame_frameRate_calls rd v time).1
    · by_cases hs : f64Sub time v.lastFrameTime ≥ f64Div 1 v.frameRate
      · rw [nextFrame_of_sequential rd v time hb hf hs]
        rcases hr : rd.readFrame v.videoState with ⟨_ | ⟨img, pts⟩, d⟩
        · rw [readFrame_of_none rd v d hr]
        · rw [readFrame_of_some rd v img pts d hr]
      · rw [nextFrame_of_window rd v time hb hf hs]

/-- The seek targets of the 30 fps example video: times 5, 1 and 0.5 divided by
the time base `1.0 / 30` give the positions 150, 30 and 15. -/
theorem seek_targets_30 :
    castInt64 (f64Div 5 (f64Div 1 30)) = 150 ∧
    castInt64 (f64Div 1 (f64Div 1 30)) = 30 ∧
    castInt64 (f64Div (1 / 2) (f64Div 1 30)) = 15 := by
  rw [f64Div_one_30]
  unfold f64Div
  refine ⟨?_, ?_, ?_⟩
  · rw [roundDouble_of_nearest 7 5277655813324800 (by norm_num) (by norm_num) (by norm_num)
      (by norm_num) (by norm_num) (by norm_num)]
    norm_num [castInt64, truncToInt]
  · rw [roundDouble_of_nearest 4 8444249301319680 (by norm_num) (by norm_num) (by norm_num)
      (by norm_num) (by norm_num) (by norm_num)]
    norm_num [castInt64, truncToInt]
  · rw [roundDouble_of_nearest 3 8444249301319680 (by norm_num) (by norm_num) (by norm_num)
      (by norm_num) (by norm_num) (by norm_num)]
    norm_num [castInt64, truncToInt]

/-- At 0.7 s (the `double` nearest to 7/10) the 30 fps example video seeks to
position 21, although the exact quotient lies below 21. -/
theorem seek_target_at_0_7 :
    castInt64 (f64Div (roundDouble (7 / 10)) (f64Div 1 30)) = 21 ∧
    roundDouble (7 / 10) / (1 / 30) < 21 := by
  have h7 : roundDouble (7 / 10) = 3152519739159347 / 4503599627370496 := by
    rw [roundDouble_of_nearest (-1) 6305039478318694 (by norm_num) (by norm_num) (by norm_num)
      (by norm_num) (by norm_num) (by norm_num)]
    norm_num
  rw [h7, f64Div_one_30]
  unfold f64Div
  constructor
  · rw [roundDouble_of_nearest 4 5910974510923776 (by norm_num) (by norm_num) (by norm_num)
      (by norm_num) (by norm_num) (by norm_num)]
    norm_num [castInt64, truncToInt]
  · norm_num

/-- C17 as stated fails at 30 frames per second: from `lastFrameTime = 0`, the
query at `1.0 / 30` (the `double` quotient, which lies below 1/30) satisfies
`-2/frameRate <= t - lastFrameTime < 1/frameRate`, yet the test
`time_since_last_frame >= 1.0 / frameRate` compares the query time with the same
`double` and succeeds: the decoder reads frame 1 and `lastFrameTime` moves. -/
theorem rate_limit_window_reads :
    1 ≤ (videoAt 0).frameRate ∧
    -(2 / (videoAt 0).frameRate) ≤ f64Div 1 30 - (videoAt 0).lastFrameTime ∧
    f64Div 1 30 - (videoAt 0).lastFrameTime < 1 / (videoAt 0).frameRate ∧
    (Video.nextFrame counterReader (videoAt 0) (f64Div 1 30)).2.calls = [ReaderCall.read] ∧
    (Video.nextFrame counterReader (videoAt 0) (f64Div 1 30)).2.frame = frameNo 1 ∧
    (Video.nextFrame counterReader (videoAt 0) (f64Div 1 30)).2.lastFrameTime = f64Div 1 30 ∧
    (Video.nextFrame counterReader (videoAt 0) (f64Div 1 30)).2 ≠ videoAt 0 := by
  have hsub : f64Sub (f64Div 1 30) (videoAt 0).lastFrameTime = f64Div 1 30 := by
    rw [f64Div_one_30]
    have h := f64Sub_exact (4803839602528529 / 144115188075855872) 0 4803839602528529 57
      (by norm_num) (by norm_num) (by norm_num)
    rw [sub_zero] at h
    exact h
  have hq : Video.nextFrame counterReader (videoAt 0) (f64Div 1 30) =
      (true, { videoState := 2, timeBase := f64Div 1 30, lastFrameTime := f64Div 1 30,
               currentPts := 1, frameRate := 30, frame := frameNo 1,
               calls := [ReaderCall.read] }) := by
    rw [nextFrame_of_sequential counterReader (videoAt 0) (f64Div 1 30)
      (by
        rw [hsub]
        show ¬ f64Div 1 30 < -(f64Div 2 30)
        rw [f64Div_one_30, f64Div_two_30]
        norm_num)
      (by rw [hsub, f64Div_one_30]; norm_num)
      (by rw [hsub]; exact le_refl _)]
    rfl
  refine ⟨by norm_num [videoAt], ?_, ?_, ?_, ?_, ?_, ?_⟩
  · rw [f64Div_one_30]; norm_num [videoAt]
  · rw [f64Div_one_30]; norm_num [videoAt]
  · rw [hq]
  · rw [hq]
  · rw [hq]
  · rw [hq]
    intro hc
    have h2 := congrArg Video.videoState hc
    exact absurd h2 (by decide)

/-- C17, amended: for a video with `frameRate >= 1` and a query time whose
computed distance `time - lastFrameTime` from the last decoded query is at least
the computed `-(2.0 / frameRate)` and below the computed `1.0 / frameRate`,
`nextFrame(time)` returns `true` and leaves the whole video as it was: no decoder
call is recorded, and the frame buffer, `lastFrameTime` and `currentPts` are
unchanged. -/
theorem nextFrame_rate_limited {D : Type} (rd : VideoReader D) (v : Video D) (time : ℚ)
    (hfr : 1 ≤ v.frameRate)
    (hlo : -(f64Div 2 v.frameRate) ≤ f64Sub time v.lastFrameTime)
    (hhi : f64Sub time v.lastFrameTime < f64Div 1 v.frameRate) :
    Video.nextFrame rd v time = (true, v) ∧
    (Video.nextFrame rd v time).2.calls = v.calls ∧
    (Video.nextFrame rd v time).2.frame = v.frame ∧
    (Video.nextFrame rd v time).2.lastFrameTime = v.lastFrameTime ∧
    (Video.nextFrame rd v time).2.currentPts = v.currentPts := by
  have h := nextFrame_of_window rd v time (not_lt.mpr hlo)
    (not_lt.mpr (le_trans (le_of_lt hhi) (f64Div_one_le_one hfr)))
    (not_le.mpr hhi)
  rw [h]
  exact ⟨rfl, rfl, rfl, rfl, rfl⟩

/-- Witness of C17, amended: at 30 frames per second, a query 1/1024 s after the
last decoded query (time 5) changes nothing. -/
theorem nextFrame_rate_limited_witness :
    Video.nextFrame counterReader (videoAt 5) (5121 / 1024) = (true, videoAt 5) := by
  have hsub : f64Sub (5121 / 1024) (videoAt 5).lastFrameTime = 1 / 1024 := by
    rw [f64Sub_exact (5121 / 1024) (videoAt 5).lastFrameTime 1 10 (by norm_num [videoAt])
      (by norm_num) (by norm_num)]
    norm_num [videoAt]
  exact (nextFrame_rate_limited counterReader (videoAt 5) (5121 / 1024)
    (by norm_num [videoAt])
    (by
      rw [hsub]
      show -(f64Div 2 30) ≤ 1 / 1024
      rw [f64Div_two_30]
      norm_num)
    (by
      rw [hsub]
      show (1 : ℚ) / 1024 < f64Div 1 30
      rw [f64Div_one_30]
      norm_num)).1

/-- C18: for a video with `frameRate >= 1` and a query time with
`1/frameRate <= time - lastFrameTime <= 1`, `nextFrame(time)` makes exactly one
decoder call, a read.  If the read succeeds, the call returns `true`, the buffer
holds the decoded frame, `currentPts` is the returned timestamp and
`lastFrameTime` is `time`; if it fails, the call returns `false` and the buffer,
`lastFrameTime` and `currentPts` are unchanged. -/
theorem nextFrame_sequential {D : Type} (rd : VideoReader D) (v : Video D) (time : ℚ)
    (hfr : 1 ≤ v.frameRate)
    (hlo : 1 / v.frameRate ≤ time - v.lastFrameTime)
    (hhi : time - v.lastFrameTime ≤ 1) :
    (Video.nextFrame rd v time).2.calls = v.calls ++ [ReaderCall.read] ∧
    (∀ (img : Image) (pts : Int) (d : D),
      rd.readFrame v.videoState = (some (img, pts), d) →
      Video.nextFrame rd v time =
        (true, { videoState := d, timeBase := v.timeBase, lastFrameTime := time,
                 currentPts := pts, frameRate := v.frameRate, frame := img,
                 calls := v.calls ++ [ReaderCall.read] })) ∧
    (∀ (d : D), rd.readFrame v.videoState = (none, d) →
      Video.nextFrame rd v time =
        (false, { videoState := d, timeBase := v.timeBase,
                  lastFrameTime := v.lastFrameTime, currentPts := v.currentPts,
                  frameRate := v.frameRate, frame := v.frame,
                  calls := v.calls ++ [ReaderCall.read] })) := by
  obtain ⟨hb, hf, hs⟩ := sequential_guards v time hfr hlo hhi
  have h := nextFrame_of_sequential rd v time hb hf hs
  refine ⟨?_, ?_, ?_⟩
  · rw [h]
    rcases hr : rd.readFrame v.videoState with ⟨_ | ⟨img, pts⟩, d⟩
    · rw [readFrame_of_none rd v d hr]
    · rw [readFrame_of_some rd v img pts d hr]
  · intro img pts d hr
    rw [h, readFrame_of_some rd v img pts d hr]
  · intro d hr
    rw [h, readFrame_of_none rd v d hr]

/-- Witness of C18: at 30 frames per second, a query half a second after the last
decoded query reads the next frame (frame 1) and moves `lastFrameTime` to the
query time; with a decoder whose reads fail the call returns `false`. -/
theorem nextFrame_sequential_witness :
    Video.nextFrame counterReader (videoAt 5) (11 / 2) =
      (true, { videoState := 2, timeBase := f64Div 1 30, lastFrameTime := 11 / 2,
               currentPts := 1, frameRate := 30, frame := frameNo 1,
               calls := [ReaderCall.read] }) ∧
    (Video.nextFrame noReadReader (videoAt 5) (11 / 2)).1 = false :=
  ⟨(nextFrame_sequential counterReader (videoAt 5) (11 / 2)
      (by norm_num [videoAt]) (by norm_num [videoAt]) (by norm_num [videoAt])).2.1
      (frameNo 1) 1 2 rfl,
   by
    rw [(nextFrame_sequential noReadReader (videoAt 5) (11 / 2)
      (by norm_num [videoAt]) (by norm_num [videoAt]) (by norm_num [videoAt])).2.2 1 rfl]⟩

/-- C19: `seekFrame(time)` first seeks to `(int64_t)(time / time_base)`, the
quotient being the `double` one.  If that seek and the read after it succeed,
`lastFrameTime` becomes `time` and `currentPts` the decoded timestamp.  If the
seek fails but the fallback seek to position 0 and its read succeed,
`lastFrameTime` becomes 0, not `time`.  If both seeks fail, no read is attempted
and `lastFrameTime`, `currentPts` and the frame buffer are unchanged. -/
theorem seekFrame_spec {D : Type} (rd : VideoReader D) (v : Video D) (time : ℚ) :
    (∀ (d1 d2 : D) (img : Image) (pts : Int),
      rd.seekFrame v.videoState (castInt64 (f64Div time v.timeBase)) = (true, d1) →
      rd.readFrame d1 = (some (img, pts), d2) →
      Video.seekFrame rd v time =
        { videoState := d2, timeBase := v.timeBase, lastFrameTime := time,
          currentPts := pts, frameRate := v.frameRate, frame := img,
          calls := v.calls ++ [ReaderCall.seek (castInt64 (f64Div time v.timeBase))]
            ++ [ReaderCall.read] }) ∧
    (∀ (d1 d2 d3 : D) (img : Image) (pts : Int),
      rd.seekFrame v.videoState (castInt64 (f64Div time v.timeBase)) = (false, d1) →
      rd.seekFrame d1 0 = (true, d2) →
      rd.readFrame d2 = (some (img, pts), d3) →
      Video.seekFrame rd v time =
        { videoState := d3, timeBase := v.timeBase, lastFrameTime := 0,
          currentPts := pts, frameRate := v.frameRate, frame := img,
          calls := v.calls ++ [ReaderCall.seek (castInt64 (f64Div time v.timeBase))]
            ++ [ReaderCall.seek 0] ++ [ReaderCall.read] }) ∧
    (∀ (d1 d2 : D),
      rd.seekFrame v.videoState (castInt64 (f64Div time v.timeBase)) = (false, d1) →
      rd.seekFrame d1 0 = (false, d2) →
      Video.seekFrame rd v time =
        { videoState := d2, timeBase := v.timeBase, lastFrameTime := v.lastFrameTime,
          currentPts := v.currentPts, frameRate := v.frameRate, frame := v.frame,
          calls := v.calls ++ [ReaderCall.seek (castInt64 (f64Div time v.timeBase))]
            ++ [ReaderCall.seek 0] }) := by
  exact ⟨seekFrame_of_ok rd v time, seekFrame_of_fallback rd v time,
    seekFrame_of_fail rd v time⟩

/-- Witness of C19 on the 30 fps video last decoded at time 5, asked to seek to
time 1 (position 30): with working seeks `lastFrameTime` becomes 1; with seeks
working to position 0 only it becomes 0; with failing seeks nothing is read and
`lastFrameTime` stays 5. -/
theorem seekFrame_spec_witness :
    (Video.seekFrame counterReader (videoAt 5) 1).lastFrameTime = 1 ∧
    (Video.seekFrame startOnlyReader (videoAt 5) 1).lastFrameTime = 0 ∧
    (Video.seekFrame noSeekReader (videoAt 5) 1).lastFrameTime = 5 ∧
    (Video.seekFrame noSeekReader (videoAt 5) 1).frame = frameNo 0 := by
  have h30 : castInt64 (f64Div 1 (videoAt 5).timeBase) = 30 := seek_targets_30.2.1
  refine ⟨?_, ?_, ?_, ?_⟩
  · rw [(seekFrame_spec counterReader (videoAt 5) 1).1 30 31 (frameNo 30) 30
      (by rw [h30]; rfl) rfl]
  · rw [(seekFrame_spec startOnlyReader (videoAt 5) 1).2.1 1 0 1 (frameNo 0) 0
      (by rw [h30]; rfl) rfl rfl]
  · rw [(seekFrame_spec noSeekReader (videoAt 5) 1).2.2 1 1
      (by rw [h30]; rfl) rfl]
    rfl
  · rw [(seekFrame_spec noSeekReader (videoAt 5) 1).2.2 1 1
      (by rw [h30]; rfl) rfl]
    rfl

/-- The computed distances used in the examples at 30 frames per second. -/
theorem example_distances :
    f64Sub 5 0 = 5 ∧ f64Sub 1 0 = 1 ∧ f64Sub (1 / 2) 0 = 1 / 2 ∧ f64Sub 1 5 = -4 ∧
    f64Sub (33 / 32) 1 = 1 / 32 ∧ f64Sub (15 / 16) 1 = -(1 / 16) ∧
    f64Sub (15 / 16) (33 / 32) = -(3 / 32) ∧ f64Sub (1 / 1024) 0 = 1 / 1024 := by
  refine ⟨?_, ?_, ?_, ?_, ?_, ?_, ?_, ?_⟩
  · rw [f64Sub_exact 5 0 5 0 (by norm_num) (by norm_num) (by norm_num)]; norm_num
  · rw [f64Sub_exact 1 0 1 0 (by norm_num) (by norm_num) (by norm_num)]; norm_num
  · rw [f64Sub_exact (1 / 2) 0 1 1 (by norm_num) (by norm_num) (by norm_num)]; norm_num
  · rw [f64Sub_exact 1 5 (-4) 0 (by norm_num) (by norm_num) (by norm_num)]; norm_num
  · rw [f64Sub_exact (33 / 32) 1 1 5 (by norm_num) (by norm_num) (by norm_num)]; norm_num
  · rw [f64Sub_exact (15 / 16) 1 (-1) 4 (by norm_num) (by norm_num) (by norm_num)]; norm_num
  · rw [f64Sub_exact (15 / 16) (33 / 32) (-3) 5 (by norm_num) (by norm_num) (by norm_num)]
    norm_num
  · rw [f64Sub_exact (1 / 1024) 0 1 10 (by norm_num) (by norm_num) (by norm_num)]; norm_num

/-- C16 as stated fails, at 30 frames per second.  (1) With a decoder whose
seeks succeed to position 0 only, from `lastFrameTime = 0` the query
`nextFrame(5)` falls back to position 0 and leaves `lastFrameTime = 0`, and the
following `nextFrame(1)` makes a single decoder call, a sequential read, and no
seek.  (2) With a faultless decoder, from `lastFrameTime = 1` the query at
1.03125 is rate-limited, and the following query at 0.9375, which lies more than
`2/30` before 1.03125, makes no decoder call at all. -/
theorem backward_jump_without_seek :
    (Video.nextFrame startOnlyReader (videoAt 0) 5).2.calls =
      [ReaderCall.seek 150, ReaderCall.seek 0, ReaderCall.read] ∧
    (Video.nextFrame startOnlyReader (videoAt 0) 5).2.lastFrameTime = 0 ∧
    (Video.nextFrame startOnlyReader
        (Video.nextFrame startOnlyReader (videoAt 0) 5).2 1).2.calls =
      [ReaderCall.seek 150, ReaderCall.seek 0, ReaderCall.read] ++ [ReaderCall.read] ∧
    ((15 : ℚ) / 16 - 33 / 32 < -(2 / (videoAt 1).frameRate)) ∧
    (f64Sub (15 / 16) (33 / 32) < -(f64Div 2 (videoAt 1).frameRate)) ∧
    Video.nextFrame counterReader (videoAt 1) (33 / 32) = (true, videoAt 1) ∧
    Video.nextFrame counterReader
        (Video.nextFrame counterReader (videoAt 1) (33 / 32)).2 (15 / 16) =
      (true, videoAt 1) := by
  obtain ⟨hd5, hd1, _, _, hd33, hd15, hd1533, _⟩ := example_distances
  have h150 : castInt64 (f64Div 5 (videoAt 0).timeBase) = 150 := seek_targets_30.1
  have hq1 : Video.nextFrame startOnlyReader (videoAt 0) 5 =
      (true, { videoState := 1, timeBase := f64Div 1 30, lastFrameTime := 0, currentPts := 0,
               frameRate := 30, frame := frameNo 0,
               calls := [ReaderCall.seek 150, ReaderCall.seek 0, ReaderCall.read] }) := by
    rw [nextFrame_of_forward startOnlyReader (videoAt 0) 5
        (by show f64Sub 5 0 > 1; rw [hd5]; norm_num),
      seekFrame_of_fallback startOnlyReader (videoAt 0) 5 1 0 1 (frameNo 0) 0
        (by rw [h150]; rfl) rfl rfl, h150]
    rfl
  have hw1 : Video.nextFrame counterReader (videoAt 1) (33 / 32) = (true, videoAt 1) :=
    nextFrame_of_window counterReader (videoAt 1) (33 / 32)
      (by show ¬ f64Sub (33 / 32) 1 < -(f64Div 2 30); rw [hd33, f64Div_two_30]; norm_num)
      (by show ¬ f64Sub (33 / 32) 1 > 1; rw [hd33]; norm_num)
      (by show ¬ f64Sub (33 / 32) 1 ≥ f64Div 1 30; rw [hd33, f64Div_one_30]; norm_num)
  refine ⟨?_, ?_, ?_, ?_, ?_, hw1, ?_⟩
  · rw [hq1]
  · rw [hq1]
  · rw [hq1, nextFrame_of_sequential startOnlyReader _ 1
      (by show ¬ f64Sub 1 0 < -(f64Div 2 30); rw [hd1, f64Div_two_30]; norm_num)
      (by show ¬ f64Sub 1 0 > 1; rw [hd1]; norm_num)
      (by show f64Sub 1 0 ≥ f64Div 1 30; rw [hd1, f64Div_one_30]; norm_num)]
    rfl
  · norm_num [videoAt]
  · show f64Sub (15 / 16) (33 / 32) < -(f64Div 2 30)
    rw [hd1533, f64Div_two_30]
    norm_num
  · rw [hw1]
    exact nextFrame_of_window counterReader (videoAt 1) (15 / 16)
      (by show ¬ f64Sub (15 / 16) 1 < -(f64Div 2 30); rw [hd15, f64Div_two_30]; norm_num)
      (by show ¬ f64Sub (15 / 16) 1 > 1; rw [hd15]; norm_num)
      (by show ¬ f64Sub (15 / 16) 1 ≥ f64Div 1 30; rw [hd15, f64Div_one_30]; norm_num)

/-- C16, amended: a query seeks exactly according to its distance from
`lastFrameTime`, the time of the last query that decoded a frame: whenever the
computed `time - lastFrameTime` is below the computed `-(2.0 / frameRate)`,
`nextFrame(time)` is `seekFrame(time)`, whose first decoder call is the seek to
`(int64_t)(time / time_base)`, and it returns `true`.  Hence, when the query at
`t1` has left `lastFrameTime = t1` (its decode or seek succeeded) and `t2 - t1`
is below `-(2.0 / frameRate)`, the query at `t2` seeks; in particular at 30
frames per second for the queries 5 then 1. -/
theorem backward_jump_seeks {D : Type} (rd : VideoReader D) (v : Video D) (t1 t2 : ℚ) :
    (f64Sub t2 v.lastFrameTime < -(f64Div 2 v.frameRate) →
      Video.nextFrame rd v t2 = (true, Video.seekFrame rd v t2) ∧
      ∃ rest : List ReaderCall, (Video.nextFrame rd v t2).2.calls =
        v.calls ++ ReaderCall.seek (castInt64 (f64Div t2 v.timeBase)) :: rest) ∧
    ((Video.nextFrame rd v t1).2.lastFrameTime = t1 →
      f64Sub t2 t1 < -(f64Div 2 v.frameRate) →
      Video.nextFrame rd (Video.nextFrame rd v t1).2 t2 =
        (true, Video.seekFrame rd (Video.nextFrame rd v t1).2 t2)) ∧
    (v.frameRate = 30 → (Video.nextFrame rd v 5).2.lastFrameTime = 5 →
      Video.nextFrame rd (Video.nextFrame rd v 5).2 1 =
        (true, Video.seekFrame rd (Video.nextFrame rd v 5).2 1)) := by
  refine ⟨?_, ?_, ?_⟩
  · intro h
    rw [nextFrame_of_backward rd v t2 h]
    exact ⟨rfl, (seekFrame_frameRate_calls rd v t2).2⟩
  · intro hlast hjump
    apply nextFrame_of_backward
    rw [hlast, nextFrame_frameRate]
    exact hjump
  · intro hfr hlast
    apply nextFrame_of_backward
    rw [hlast, nextFrame_frameRate, hfr, example_distances.2.2.2.1, f64Div_two_30]
    norm_num

/-- Witness of C16, amended: with the faultless frame counter at 30 frames per
second, the query at 5 seeks and leaves `lastFrameTime = 5`, and the following
query at 1 seeks to position 30. -/
theorem backward_jump_seeks_witness :
    (Video.nextFrame counterReader (Video.nextFrame counterReader (videoAt 0) 5).2 1).2.calls =
      [ReaderCall.seek 150, ReaderCall.read, ReaderCall.seek 30, ReaderCall.read] := by
  have h150 : castInt64 (f64Div 5 (videoAt 0).timeBase) = 150 := seek_targets_30.1
  have hq1 : Video.nextFrame counterReader (videoAt 0) 5 =
      (true, { videoState := 151, timeBase := f64Div 1 30, lastFrameTime := 5,
               currentPts := 150, frameRate := 30, frame := frameNo 150,
               calls := [ReaderCall.seek 150, ReaderCall.read] }) := by
    rw [nextFrame_of_forward counterReader (videoAt 0) 5
        (by show f64Sub 5 0 > 1; rw [example_distances.1]; norm_num),
      seekFrame_of_ok counterReader (videoAt 0) 5 150 151 (frameNo 150) 150
        (by rw [h150]; rfl) rfl, h150]
    rfl
  have h := (backward_jump_seeks counterReader (videoAt 0) 5 1).2.2 rfl (by rw [hq1])
  rw [h, hq1]
  have h30 : castInt64 (f64Div 1 (f64Div 1 30)) = 30 := seek_targets_30.2.1
  rw [seekFrame_of_ok counterReader _ 1 30 31 (frameNo 30) 30 (by rw [h30]; rfl) rfl, h30]
  rfl

/-- C20 as stated fails: with a decoder whose seeks all fail, from
`lastFrameTime = 0` the query `nextFrame(5)` fails both seeks and leaves frame 0
in the buffer; the next query, at 0.5, makes a sequential read that replaces the
buffer by frame 1, although no seek has succeeded. -/
theorem stale_buffer_replaced_without_seek :
    (Video.nextFrame noSeekReader (videoAt 0) 5).2.calls =
      [ReaderCall.seek 150, ReaderCall.seek 0] ∧
    (Video.nextFrame noSeekReader (videoAt 0) 5).2.frame = frameNo 0 ∧
    (Video.nextFrame noSeekReader (Video.nextFrame noSeekReader (videoAt 0) 5).2 (1 / 2)).2.calls =
      [ReaderCall.seek 150, ReaderCall.seek 0, ReaderCall.read] ∧
    (Video.nextFrame noSeekReader (Video.nextFrame noSeekReader (videoAt 0) 5).2 (1 / 2)).2.frame =
      frameNo 1 ∧
    frameNo 1 ≠ frameNo 0 := by
  have h150 : castInt64 (f64Div 5 (videoAt 0).timeBase) = 150 := seek_targets_30.1
  have hq1 : Video.nextFrame noSeekReader (videoAt 0) 5 =
      (true, { videoState := 1, timeBase := f64Div 1 30, lastFrameTime := 0, currentPts := 0,
               frameRate := 30, frame := frameNo 0,
               calls := [ReaderCall.seek 150, ReaderCall.seek 0] }) := by
    rw [nextFrame_of_forward noSeekReader (videoAt 0) 5
        (by show f64Sub 5 0 > 1; rw [example_distances.1]; norm_num),
      seekFrame_of_fail noSeekReader (videoAt 0) 5 1 1 (by rw [h150]; rfl) rfl, h150]
    rfl
  have hq2 : Video.nextFrame noSeekReader
      { videoState := 1, timeBase := f64Div 1 30, lastFrameTime := 0, currentPts := 0,
        frameRate := 30, frame := frameNo 0,
        calls := [ReaderCall.seek 150, ReaderCall.seek 0] } (1 / 2) =
      (true, { videoState := 2, timeBase := f64Div 1 30, lastFrameTime := 1 / 2,
               currentPts := 1, frameRate := 30, frame := frameNo 1,
               calls := [ReaderCall.seek 150, ReaderCall.seek 0, ReaderCall.read] }) := by
    obtain ⟨hb, hf, hs⟩ := sequential_guards
      ({ videoState := 1, timeBase := f64Div 1 30, lastFrameTime := 0, currentPts := 0,
         frameRate := 30, frame := frameNo 0,
         calls := [ReaderCall.seek 150, ReaderCall.seek 0] } : Video Nat) (1 / 2)
      (by norm_num) (by norm_num) (by norm_num)
    rw [nextFrame_of_sequential noSeekReader _ (1 / 2) hb hf hs]
    rfl
  refine ⟨?_, ?_, ?_, ?_, ?_⟩
  · rw [hq1]
  · rw [hq1]
  · rw [hq1, hq2]
  · rw [hq1, hq2]
  · decide

theorem nextFrame_of_jump {D : Type} (rd : VideoReader D) (v : Video D) (time : ℚ)
    (hjump : f64Sub time v.lastFrameTime < -(f64Div 2 v.frameRate) ∨
      f64Sub time v.lastFrameTime > 1) :
    Video.nextFrame rd v time = (true, Video.seekFrame rd v time) := by
  rcases hjump with h | h
  · exact nextFrame_of_backward rd v time h
  · exact nextFrame_of_forward rd v time h

/-- C20, amended: a query whose seek and fallback seek both fail returns `true`,
attempts no read, and leaves the frame buffer, `lastFrameTime` and `currentPts`
unchanged.  No degraded state is recorded, so the next query is classified
against the unchanged `lastFrameTime` by the ordinary rules (frame rate at least
1; the jump and rate-limit tests on the computed `t - lastFrameTime`,
`2.0 / frameRate` and `1.0 / frameRate`): a rate-limited query changes nothing; a
query that again fails both seeks keeps the buffer; a query with
`1/frameRate <= t - lastFrameTime <= 1` makes a sequential read which, when it
succeeds, replaces the buffer although no seek has succeeded. -/
theorem total_seek_failure_then_ordinary {D : Type} (rd : VideoReader D) (v : Video D)
    (time : ℚ) (d1 d2 : D)
    (hjump : f64Sub time v.lastFrameTime < -(f64Div 2 v.frameRate) ∨
      f64Sub time v.lastFrameTime > 1)
    (hs : rd.seekFrame v.videoState (castInt64 (f64Div time v.timeBase)) = (false, d1))
    (hs0 : rd.seekFrame d1 0 = (false, d2)) :
    Video.nextFrame rd v time =
      (true, { videoState := d2, timeBase := v.timeBase, lastFrameTime := v.lastFrameTime,
               currentPts := v.currentPts, frameRate := v.frameRate, frame := v.frame,
               calls := v.calls ++ [ReaderCall.seek (castInt64 (f64Div time v.timeBase))]
                 ++ [ReaderCall.seek 0] }) ∧
    (∀ (t : ℚ), 1 ≤ v.frameRate →
      -(f64Div 2 v.frameRate) ≤ f64Sub t v.lastFrameTime →
      f64Sub t v.lastFrameTime < f64Div 1 v.frameRate →
      Video.nextFrame rd (Video.nextFrame rd v time).2 t =
        (true, (Video.nextFrame rd v time).2)) ∧
    (∀ (t : ℚ) (d3 d4 : D),
      (f64Sub t v.lastFrameTime < -(f64Div 2 v.frameRate) ∨ f64Sub t v.lastFrameTime > 1) →
      rd.seekFrame d2 (castInt64 (f64Div t v.timeBase)) = (false, d3) →
      rd.seekFrame d3 0 = (false, d4) →
      (Video.nextFrame rd (Video.nextFrame rd v time).2 t).2.frame = v.frame) ∧
    (∀ (t : ℚ) (img : Image) (pts : Int) (d3 : D), 1 ≤ v.frameRate →
      1 / v.frameRate ≤ t - v.lastFrameTime → t - v.lastFrameTime ≤ 1 →
      rd.readFrame d2 = (some (img, pts), d3) →
      (Video.nextFrame rd (Video.nextFrame rd v time).2 t).2.frame = img ∧
      (Video.nextFrame rd (Video.nextFrame rd v time).2 t).2.calls =
        v.calls ++ [ReaderCall.seek (castInt64 (f64Div time v.timeBase))]
          ++ [ReaderCall.seek 0] ++ [ReaderCall.read]) := by
  have hq : Video.nextFrame rd v time =
      (true, { videoState := d2, timeBase := v.timeBase, lastFrameTime := v.lastFrameTime,
               currentPts := v.currentPts, frameRate := v.frameRate, frame := v.frame,
               calls := v.calls ++ [ReaderCall.seek (castInt64 (f64Div time v.timeBase))]
                 ++ [ReaderCall.seek 0] }) := by
    rw [nextFrame_of_jump rd v time hjump, seekFrame_of_fail rd v time d1 d2 hs hs0]
  have hlast : (Video.nextFrame rd v time).2.lastFrameTime = v.lastFrameTime := by rw [hq]
  have hrate : (Video.nextFrame rd v time).2.frameRate = v.frameRate := by rw [hq]
  have hstate : (Video.nextFrame rd v time).2.videoState = d2 := by rw [hq]
  have htb : (Video.nextFrame rd v time).2.timeBase = v.timeBase := by rw [hq]
  have hframe : (Video.nextFrame rd v time).2.frame = v.frame := by rw [hq]
  have hcalls : (Video.nextFrame rd v time).2.calls =
      v.calls ++ [ReaderCall.seek (castInt64 (f64Div time v.timeBase))]
        ++ [ReaderCall.seek 0] := by rw [hq]
  refine ⟨hq, ?_, ?_, ?_⟩
  · intro t hfr hlo hhi
    exact nextFrame_of_window rd (Video.nextFrame rd v time).2 t
      (by rw [hlast, hrate]; exact not_lt.mpr hlo)
      (by
        rw [hlast]
        exact not_lt.mpr (le_trans (le_of_lt hhi) (f64Div_one_le_one hfr)))
      (by rw [hlast, hrate]; exact not_le.mpr hhi)
  · intro t d3 d4 hj hs3 hs4
    rw [nextFrame_of_jump rd (Video.nextFrame rd v time).2 t (by rw [hlast, hrate]; exact hj),
      seekFrame_of_fail rd (Video.nextFrame rd v time).2 t d3 d4
        (by rw [hstate, htb]; exact hs3) hs4]
    exact hframe
  · intro t img pts d3 hfr hlo hhi hr
    obtain ⟨hb, hf, hsq⟩ := sequential_guards v t hfr hlo hhi
    rw [nextFrame_of_sequential rd (Video.nextFrame rd v time).2 t
        (by rw [hlast, hrate]; exact hb) (by rw [hlast]; exact hf)
        (by rw [hlast, hrate]; exact hsq),
      readFrame_of_some rd (Video.nextFrame rd v time).2 img pts d3
        (by rw [hstate]; exact hr)]
    refine ⟨rfl, ?_⟩
    show (Video.nextFrame rd v time).2.calls ++ [ReaderCall.read] = _
    rw [hcalls]

/-- Witness of C20, amended: with failing seeks, at 30 frames per second and
`lastFrameTime = 0`, the query at 5 changes nothing but the call record, a query
1/1024 s later is rate-limited, and the query at 0.5 puts frame 1 in the buffer. -/
theorem total_seek_failure_then_ordinary_witness :
    (Video.nextFrame noSeekReader (videoAt 0) 5).2.frame = frameNo 0 ∧
    Video.nextFrame noSeekReader (Video.nextFrame noSeekReader (videoAt 0) 5).2 (1 / 1024) =
      (true, (Video.nextFrame noSeekReader (videoAt 0) 5).2) ∧
    (Video.nextFrame noSeekReader (Video.nextFrame noSeekReader (videoAt 0) 5).2 (1 / 2)).2.frame =
      frameNo 1 := by
  have h150 : castInt64 (f64Div 5 (videoAt 0).timeBase) = 150 := seek_targets_30.1
  have h := total_seek_failure_then_ordinary noSeekReader (videoAt 0) 5 1 1
    (Or.inr (by show f64Sub 5 0 > 1; rw [example_distances.1]; norm_num))
    (by rw [h150]; rfl) rfl
  refine ⟨?_, ?_, ?_⟩
  · rw [h.1]
    rfl
  · exact h.2.1 (1 / 1024) (by norm_num [videoAt])
      (by
        show -(f64Div 2 30) ≤ f64Sub (1 / 1024) 0
        rw [example_distances.2.2.2.2.2.2.2, f64Div_two_30]
        norm_num)
      (by
        show f64Sub (1 / 1024) 0 < f64Div 1 30
        rw [example_distances.2.2.2.2.2.2.2, f64Div_one_30]
        norm_num)
  · exact (h.2.2.2 (1 / 2) (frameNo 1) 1 2 (by norm_num [videoAt]) (by norm_num [videoAt])
      (by norm_num [videoAt]) rfl).1

/-! ## The pixel loops -/

theorem forLoop_zero {σ : Type} (body : Nat → σ → σ) (s : σ) : forLoop 0 body s = s := rfl

theorem forLoop_succ {σ : Type} (n : Nat) (body : Nat → σ → σ) (s : σ) :
    forLoop (n + 1) body s = body n (forLoop n body s) := by
  unfold forLoop
  rw [List.range_succ, List.foldl_append]
  rfl

theorem getPixel_of_lt (img : Image) (x y : Nat) (hx : x < img.width) (hy : y < img.height) :
    img.getPixel x y = img.pixels.getD (x + img.width * y) ⟨0, 0, 0, 0⟩ := by
  unfold Image.getPixel
  have h1 : max (0 : Int) (min (x : Int) ((img.width : Int) - 1)) = (x : Int) := by
    rw [min_eq_left (by omega), max_eq_right (by omega)]
  have h2 : max (0 : Int) (min (y : Int) ((img.height : Int) - 1)) = (y : Int) := by
    rw [min_eq_left (by omega), max_eq_right (by omega)]
  simp only [h1, h2]
  have h3 : ((x : Int) + (img.width : Int) * (y : Int)).toNat = x + img.width * y := by
    have : ((x : Int) + (img.width : Int) * (y : Int)) = ((x + img.width * y : Nat) : Int) := by
      push_cast; ring
    rw [this, Int.toNat_ofNat]
  rw [h3]

theorem index_lt_of_lt {w h x y : Nat} (hx : x < w) (hy : y < h) : x + w * y < w * h := by
  calc x + w * y < w + w * y := by omega
    _ = w * (y + 1) := by ring
    _ ≤ w * h := Nat.mul_le_mul_left w hy

theorem getD_set_eq (l : List Color) (i j : Nat) (c d : Color) :
    (l.set i c).getD j d = if i = j ∧ i < l.length then c else l.getD j d := by
  simp only [List.getD_eq_getElem?_getD, List.getElem?_set]
  by_cases hij : i = j
  · subst hij
    by_cases hlt : i < l.length
    · simp [hlt]
    · simp [hlt, List.getElem?_eq_none (not_lt.mp hlt)]
  · simp [hij]

/-- The inner loop of `pixelLoop` after `n` columns of row `y`: the first `n`
pixels of the row are rewritten, all other pixels are as before. -/
theorem rowLoop_spec (f : Nat → Nat → Color → Color) (img : Image) (y : Nat)
    (hsz : img.WellSized) (hy : y < img.height) (n : Nat) (hn : n ≤ img.width) :
    (forLoop n (fun x im => im.setPixel x y (f x y (im.getPixel x y))) img).width = img.width ∧
    (forLoop n (fun x im => im.setPixel x y (f x y (im.getPixel x y))) img).height
      = img.height ∧
    (forLoop n (fun x im => im.setPixel x y (f x y (im.getPixel x y))) img).pixels.length
      = img.pixels.length ∧
    ∀ i : Nat,
      (forLoop n (fun x im => im.setPixel x y (f x y (im.getPixel x y))) img).pixels.getD i
          ⟨0, 0, 0, 0⟩ =
        if img.width * y ≤ i ∧ i < img.width * y + n then
          f (i - img.width * y) y (img.pixels.getD i ⟨0, 0, 0, 0⟩)
        else img.pixels.getD i ⟨0, 0, 0, 0⟩ := by
  induction n with
  | zero =>
    rw [forLoop_zero]
    refine ⟨rfl, rfl, rfl, fun i => ?_⟩
    rw [if_neg (by omega)]
  | succ n ih =>
    obtain ⟨hw, hh, hl, hpix⟩ := ih (by omega)
    rw [forLoop_succ]
    have hnw : n < img.width := by omega
    have hidx : n + img.width * y < img.pixels.length := by
      rw [hsz]; exact index_lt_of_lt hnw hy
    refine ⟨hw, hh, ?_, fun i => ?_⟩
    · show (List.set _ _ _).length = _
      rw [List.length_set, hl]
    · show (List.set _ _ _).getD i _ = _
      rw [getD_set_eq, hw, hl, getPixel_of_lt _ n y (by rw [hw]; exact hnw)
        (by rw [hh]; exact hy), hw, hpix (n + img.width * y), hpix i]
      rw [if_neg (by omega : ¬ (img.width * y ≤ n + img.width * y ∧
        n + img.width * y < img.width * y + n))]
      by_cases hi : n + img.width * y = i
      · subst hi
        rw [if_pos ⟨rfl, hidx⟩, if_pos (by omega)]
        congr 1
        omega
      · rw [if_neg (fun hc => hi hc.1)]
        by_cases hr : img.width * y ≤ i ∧ i < img.width * y + n
        · rw [if_pos hr, if_pos (by omega)]
        · rw [if_neg hr, if_neg (by omega)]

/-- The outer loop of `pixelLoop` after `m` rows. -/
theorem rowsLoop_spec (f : Nat → Nat → Color → Color) (img : Image)
    (hsz : img.WellSized) (m : Nat) (hm : m ≤ img.height) :
    (forLoop m (fun y im =>
        forLoop img.width (fun x im => im.setPixel x y (f x y (im.getPixel x y))) im)
      img).width = img.width ∧
    (forLoop m (fun y im =>
        forLoop img.width (fun x im => im.setPixel x y (f x y (im.getPixel x y))) im)
      img).height = img.height ∧
    (forLoop m (fun y im =>
        forLoop img.width (fun x im => im.setPixel x y (f x y (im.getPixel x y))) im)
      img).pixels.length = img.pixels.length ∧
    ∀ i : Nat,
      (forLoop m (fun y im =>
          forLoop img.width (fun x im => im.setPixel x y (f x y (im.getPixel x y))) im)
        img).pixels.getD i ⟨0, 0, 0, 0⟩ =
        if i < img.width * m then
          f (i % img.width) (i / img.width) (img.pixels.getD i ⟨0, 0, 0, 0⟩)
        else img.pixels.getD i ⟨0, 0, 0, 0⟩ := by
  induction m with
  | zero =>
    rw [forLoop_zero]
    refine ⟨rfl, rfl, rfl, fun i => ?_⟩
    rw [if_neg (by omega)]
  | succ m ih =>
    obtain ⟨hw, hh, hl, hpix⟩ := ih (by omega)
    rw [forLoop_succ]
    have hsz1 : Image.WellSized (forLoop m (fun y im =>
        forLoop img.width (fun x im => im.setPixel x y (f x y (im.getPixel x y))) im)
        img) := by
      unfold Image.WellSized
      rw [hl, hw, hh]; exact hsz
    have hrow := rowLoop_spec f _ m hsz1 (by rw [hh]; omega) img.width (by rw [hw])
    rw [hw, hh, hl] at hrow
    obtain ⟨rw1, rh1, rl1, rpix⟩ := hrow
    refine ⟨rw1, rh1, rl1, fun i => ?_⟩
    rw [rpix i, hpix i]
    have hmul : img.width * (m + 1) = img.width * m + img.width := by ring
    by_cases hr : img.width * m ≤ i ∧ i < img.width * m + img.width
    · have hwpos : 0 < img.width := by omega
      have hdiv : i / img.width = m :=
        Nat.div_eq_of_lt_le (by rw [Nat.mul_comm]; exact hr.1)
          (by rw [Nat.succ_mul, Nat.mul_comm]; exact hr.2)
      have hmod : i % img.width = i - img.width * m := by
        have := Nat.div_add_mod i img.width
        rw [hdiv] at this
        omega
      rw [if_pos hr, if_neg (by omega), if_pos (by omega), hdiv, hmod]
    · rw [if_neg hr]
      by_cases hlt : i < img.width * m
      · rw [if_pos hlt, if_pos (by omega)]
      · rw [if_neg hlt, if_neg (by omega)]

theorem pixelLoop_spec (f : Nat → Nat → Color → Color) (img : Image) (hsz : img.WellSized) :
    (pixelLoop f img.width img.height img).width = img.width ∧
    (pixelLoop f img.width img.height img).height = img.height ∧
    (pixelLoop f img.width img.height img).WellSized ∧
    (∀ i : Nat, i < img.width * img.height →
      (pixelLoop f img.width img.height img).pixels.getD i ⟨0, 0, 0, 0⟩ =
        f (i % img.width) (i / img.width) (img.pixels.getD i ⟨0, 0, 0, 0⟩)) ∧
    (∀ x y : Nat, x < img.width → y < img.height →
      (pixelLoop f img.width img.height img).getPixel x y = f x y (img.getPixel x y)) := by
  obtain ⟨hw, hh, hl, hpix⟩ := rowsLoop_spec f img hsz img.height (le_refl _)
  have hpix2 : ∀ i : Nat, i < img.width * img.height →
      (pixelLoop f img.width img.height img).pixels.getD i ⟨0, 0, 0, 0⟩ =
        f (i % img.width) (i / img.width) (img.pixels.getD i ⟨0, 0, 0, 0⟩) := by
    intro i hi
    unfold pixelLoop
    rw [hpix i, if_pos hi]
  refine ⟨hw, hh, ?_, hpix2, ?_⟩
  · unfold Image.WellSized pixelLoop
    rw [hl, hw, hh]; exact hsz
  · intro x y hx hy
    have hi := index_lt_of_lt hx hy
    rw [getPixel_of_lt _ x y (by unfold pixelLoop; rw [hw]; exact hx)
      (by unfold pixelLoop; rw [hh]; exact hy), getPixel_of_lt img x y hx hy]
    have hw2 : (pixelLoop f img.width img.height img).width = img.width := hw
    rw [hw2, hpix2 _ hi]
    have hmod : (x + img.width * y) % img.width = x := by
      rw [Nat.add_mul_mod_self_left, Nat.mod_eq_of_lt hx]
    have hdiv : (x + img.width * y) / img.width = y := by
      rw [Nat.add_mul_div_left _ _ (by omega : 0 < img.width), Nat.div_eq_of_lt hx,
        Nat.zero_add]
    rw [hmod, hdiv]

theorem compositeImages_eq_pixelLoop (bottom top : Image) :
    compositeImages bottom top =
      pixelLoop (fun x y c =>
        blendPixel (top.getPixel (sourceCoord x top.width bottom.width)
          (sourceCoord y top.height bottom.height)) c) bottom.width bottom.height bottom := rfl

theorem backgroundCanvas_eq_pixelLoop (width height : Nat) :
    backgroundCanvas width height =
      pixelLoop (fun _ _ _ => Color.ofInts 32 32 32 255) width height
        (Image.new width height) := rfl

theorem list_eq_of_getD (l1 l2 : List Color) (hlen : l1.length = l2.length)
    (h : ∀ i : Nat, i < l1.length → l1.getD i ⟨0, 0, 0, 0⟩ = l2.getD i ⟨0, 0, 0, 0⟩) :
    l1 = l2 := by
  apply List.ext_getElem hlen
  intro n h1 h2
  have := h n h1
  simpa [List.getD_eq_getElem?_getD, List.getElem?_eq_getElem h1,
    List.getElem?_eq_getElem h2] using this

theorem new_wellSized (width height : Nat) : (Image.new width height).WellSized := by
  unfold Image.WellSized Image.new
  simp

/-- The canvas before any compositing: every pixel is `Color(32, 32, 32, 255)`. -/
theorem backgroundCanvas_eq (width height : Nat) :
    backgroundCanvas width height =
      { width := width, height := height,
        pixels := List.replicate (width * height) ⟨32, 32, 32, 255⟩ } := by
  obtain ⟨hw, hh, hsz, hpix, _⟩ :=
    pixelLoop_spec (fun _ _ _ => Color.ofInts 32 32 32 255) (Image.new width height)
      (new_wellSized width height)
  rw [backgroundCanvas_eq_pixelLoop]
  have hw0 : (Image.new width height).width = width := rfl
  have hh0 : (Image.new width height).height = height := rfl
  rw [hw0, hh0] at hw hh hsz hpix
  have hlen : (pixelLoop (fun _ _ _ => Color.ofInts 32 32 32 255) width height
      (Image.new width height)).pixels.length = width * height := by
    have := hsz
    unfold Image.WellSized at this
    rw [this, hw, hh]
  have hpx : (pixelLoop (fun _ _ _ => Color.ofInts 32 32 32 255) width height
      (Image.new width height)).pixels = List.replicate (width * height) ⟨32, 32, 32, 255⟩ := by
    apply list_eq_of_getD
    · rw [hlen, List.length_replicate]
    · intro i hi
      rw [hlen] at hi
      rw [hpix i hi]
      simp [List.getD_eq_getElem?_getD, hi, Color.ofInts]
  cases hres : pixelLoop (fun _ _ _ => Color.ofInts 32 32 32 255) width height
      (Image.new width height) with
  | mk w1 h1 px =>
    rw [hres] at hw hh hpx
    simp only at hw hh hpx
    rw [hw, hh, hpx]

/-! ## The track loop of `renderFrameAt` -/

theorem renderTracks_eq_foldl {D : Type} (rd : VideoReader D) (time : ℚ)
    (tracks : List Track) (acc : Image × AssetStore D) :
    renderTracks rd time tracks acc =
      (tracks.filterMap
        (fun track => if track.visible = true then track.getEntryAt time else none)).foldl
        (renderStep rd time) acc := by
  induction tracks generalizing acc with
  | nil => rfl
  | cons track rest ih =>
    unfold renderTracks
    by_cases hv : track.visible = true
    · have hv2 : ¬ track.visible = false := by rw [hv]; exact Bool.noConfusion
      rw [if_neg hv2]
      cases he : track.getEntryAt time with
      | none =>
        simp only []
        rw [ih, List.filterMap_cons, if_pos hv, he]
      | some entry =>
        simp only []
        rw [ih, List.filterMap_cons, if_pos hv, he]
        rfl
    · have hv2 : track.visible = false := by simpa using hv
      rw [if_pos hv2, ih, List.filterMap_cons, if_neg hv]

theorem filterMap_filter_active (time : ℚ) (tracks : List Track) :
    (tracks.filter (fun track => track.visible && (track.getEntryAt time).isSome)).filterMap
        (fun track => if track.visible = true then track.getEntryAt time else none) =
      tracks.filterMap
        (fun track => if track.visible = true then track.getEntryAt time else none) := by
  induction tracks with
  | nil => rfl
  | cons track rest ih =>
    by_cases hv : track.visible = true
    · cases he : track.getEntryAt time with
      | none =>
        rw [List.filter_cons_of_neg (by simp [he]), ih, List.filterMap_cons, if_pos hv, he]
      | some entry =>
        rw [List.filter_cons_of_pos (by simp [hv, he]), List.filterMap_cons,
          List.filterMap_cons, if_pos hv, he, ih]
    · rw [List.filter_cons_of_neg (by simp [hv]), ih, List.filterMap_cons, if_neg hv]

/-- C12: `renderFrameAt(t, w, h)` starts from the `w` by `h` background canvas and
composites onto it, in ascending track order, the frame of the active entry of
each visible track that has one, the frame being requested from the entry's
asset at the local time `t - startTime`.  Hidden tracks and tracks without an
active entry contribute nothing: the result (image and assets) is that of the
timeline with those tracks removed. -/
theorem renderFrameAt_eq_fold {D : Type} (rd : VideoReader D) (tl : Timeline)
    (store : AssetStore D) (time : ℚ) (width height : Nat) :
    tl.renderFrameAt rd store time width height =
      (tl.activeVisibleEntries time).foldl (renderStep rd time)
        (backgroundCanvas width height, store) ∧
    (∀ (acc : Image × AssetStore D) (entry : TimelineEntry),
      renderStep rd time acc entry =
        (compositeImages acc.1
            ((acc.2 entry.asset).getFrame rd (f64Sub time entry.startTime)).1,
          Function.update acc.2 entry.asset
            ((acc.2 entry.asset).getFrame rd (f64Sub time entry.startTime)).2)) ∧
    tl.renderFrameAt rd store time width height =
      Timeline.renderFrameAt rd
        { tracks := tl.tracks.filter
            (fun track => track.visible && (track.getEntryAt time).isSome),
          currentTime := tl.currentTime }
        store time width height := by
  refine ⟨renderTracks_eq_foldl rd time tl.tracks _, fun acc entry => rfl, ?_⟩
  unfold Timeline.renderFrameAt
  rw [renderTracks_eq_foldl, renderTracks_eq_foldl]
  simp only [filterMap_filter_active]

/-- C15: when no visible track of the timeline has an active entry at `t` (in
particular when the timeline has no tracks), `renderFrameAt(t, w, h)` returns the
`w` by `h` image all of whose pixels are the opaque gray `Color(32, 32, 32, 255)`,
and no asset is touched. -/
theorem renderFrameAt_background {D : Type} (rd : VideoReader D) (tl : Timeline)
    (store : AssetStore D) (time : ℚ) (width height : Nat)
    (hnone : ∀ track ∈ tl.tracks, track.visible = true → track.getEntryAt time = none) :
    tl.renderFrameAt rd store time width height =
      ({ width := width, height := height,
         pixels := List.replicate (width * height) ⟨32, 32, 32, 255⟩ }, store) ∧
    Timeline.renderFrameAt rd { tracks := [], currentTime := tl.currentTime }
        store time width height =
      ({ width := width, height := height,
         pixels := List.replicate (width * height) ⟨32, 32, 32, 255⟩ }, store) := by
  constructor
  · unfold Timeline.renderFrameAt
    rw [renderTracks_eq_foldl, backgroundCanvas_eq]
    have hnil : tl.tracks.filterMap
        (fun track => if track.visible = true then track.getEntryAt time else none) = [] := by
      rw [List.filterMap_eq_nil_iff]
      intro track ht
      by_cases hv : track.visible = true
      · rw [if_pos hv]; exact hnone track ht hv
      · rw [if_neg hv]
    rw [hnil]
    rfl
  · unfold Timeline.renderFrameAt
    rw [backgroundCanvas_eq]
    rfl

/-- Witness of C15: at time 4 the track holding `A` (0, 3) and `B` (5, 2) has no
active entry, and the 2 by 1 render is two gray pixels. -/
theorem renderFrameAt_background_witness :
    (timelineAB.renderFrameAt counterReader stillStore 4 2 1).1 =
      { width := 2, height := 1, pixels := [⟨32, 32, 32, 255⟩, ⟨32, 32, 32, 255⟩] } := by
  have h := (renderFrameAt_background counterReader timelineAB stillStore 4 2 1 (by
    intro track ht _
    have hta : track = trackAB := by simpa [timelineAB] using ht
    rw [hta]
    norm_num [Track.getEntryAt, Track.getEntryAtLoop, TimelineEntry.isActiveAt,
      TimelineEntry.getEndTime, f64Add, trackAB, entryA, entryB])).1
  rw [h]
  rfl

/-! ## Rendering twice -/

theorem foldl_renderStep_eq {D : Type} (rd : VideoReader D) (time : ℚ)
    (entries : List TimelineEntry) (canvas : Image) (store : AssetStore D) :
    entries.foldl (renderStep rd time) (canvas, store) =
      ((requestFrames rd time entries store).1.foldl compositeImages canvas,
        (requestFrames rd time entries store).2) := by
  induction entries generalizing canvas store with
  | nil => rfl
  | cons e es ih =>
    rw [List.foldl_cons]
    have hstep := ih (compositeImages canvas (e.getFrameAt rd store time).1)
      (e.getFrameAt rd store time).2
    show List.foldl (renderStep rd time)
      (compositeImages canvas (e.getFrameAt rd store time).1,
        (e.getFrameAt rd store time).2) es = _
    rw [hstep]
    rfl

theorem getFrame_of_isStill {D : Type} (rd : VideoReader D) (a : Asset D) (u : ℚ)
    (h : a.IsStill) : (a.getFrame rd u).2 = a := by
  obtain ⟨img, himg⟩ := h
  rw [himg]
  rfl

/-- Requests leave the asset at `x` alone when every requesting entry that refers
to `x` finds a still asset there. -/
theorem requestFrames_store_eq {D : Type} (rd : VideoReader D) (time : ℚ)
    (entries : List TimelineEntry) (store : AssetStore D) (x : Nat)
    (h : ∀ e ∈ entries, e.asset = x → (store x).IsStill) :
    (requestFrames rd time entries store).2 x = store x := by
  induction entries generalizing store with
  | nil => rfl
  | cons e es ih =>
    unfold requestFrames
    show (requestFrames rd time es (e.getFrameAt rd store time).2).2 x = store x
    have hs1 : (e.getFrameAt rd store time).2 x = store x := by
      unfold TimelineEntry.getFrameAt
      by_cases hx : e.asset = x
      · subst hx
        simp only [Function.update_same]
        exact getFrame_of_isStill rd _ _ (h e (List.mem_cons_self e es) rfl)
      · simp only []
        rw [Function.update_noteq (fun hc => hx hc.symm)]
    rw [ih (e.getFrameAt rd store time).2 (by
      intro e2 he2 hx2
      rw [hs1]
      exact h e2 (List.mem_cons_of_mem e he2) hx2)]
    exact hs1

/-- When every requested asset answers a repeated request like the first one, and
no asset other than a still one is requested twice, a second round of requests
delivers the same frames and changes no asset. -/
theorem requestFrames_twice {D : Type} (rd : VideoReader D) (time : ℚ)
    (Good : Asset D → Prop)
    (hgood : ∀ (a : Asset D) (u : ℚ), Good a →
      Good (a.getFrame rd u).2 ∧ (a.getFrame rd u).2.getFrame rd u = a.getFrame rd u)
    (entries : List TimelineEntry) (store : AssetStore D)
    (hall : ∀ e ∈ entries, Good (store e.asset))
    (hpair : entries.Pairwise (fun a b => a.asset = b.asset → (store a.asset).IsStill)) :
    requestFrames rd time entries (requestFrames rd time entries store).2 =
      requestFrames rd time entries store := by
  induction entries generalizing store with
  | nil => rfl
  | cons e es ih =>
    rw [List.pairwise_cons] at hpair
    have hge := hgood (store e.asset) (f64Sub time e.startTime) (hall e (List.mem_cons_self e es))
    have hs1 : ∀ x : Nat, x ≠ e.asset → (e.getFrameAt rd store time).2 x = store x := by
      intro x hx
      unfold TimelineEntry.getFrameAt
      simp only []
      rw [Function.update_noteq hx]
    have hs1e : (e.getFrameAt rd store time).2 e.asset =
        ((store e.asset).getFrame rd (f64Sub time e.startTime)).2 := by
      unfold TimelineEntry.getFrameAt
      simp only [Function.update_same]
    have hstillkeep : ∀ x : Nat, (store x).IsStill →
        (e.getFrameAt rd store time).2 x = store x := by
      intro x hx
      by_cases hxe : x = e.asset
      · rw [hxe, hs1e]
        exact getFrame_of_isStill rd _ _ (hxe ▸ hx)
      · exact hs1 x hxe
    have hih := ih (e.getFrameAt rd store time).2 (by
      intro e2 he2
      by_cases hxe : e2.asset = e.asset
      · rw [hxe, hs1e]; exact hge.1
      · rw [hs1 _ hxe]; exact hall e2 (List.mem_cons_of_mem e he2)) (by
      refine hpair.2.imp ?_
      intro a b hab heq
      rw [hstillkeep _ (hab heq)]
      exact hab heq)
    have hkeep : (requestFrames rd time es (e.getFrameAt rd store time).2).2 e.asset =
        ((store e.asset).getFrame rd (f64Sub time e.startTime)).2 := by
      rw [requestFrames_store_eq rd time es _ e.asset (by
        intro e2 he2 hx2
        have hst := hpair.1 e2 he2 hx2.symm
        rw [hstillkeep _ hst]
        exact hst), hs1e]
    have hA : e.getFrameAt rd (requestFrames rd time es (e.getFrameAt rd store time).2).2 time =
        ((e.getFrameAt rd store time).1,
          (requestFrames rd time es (e.getFrameAt rd store time).2).2) := by
      generalize (requestFrames rd time es (e.getFrameAt rd store time).2).2 = s2 at hkeep ⊢
      apply Prod.ext
      · show ((s2 e.asset).getFrame rd (f64Sub time e.startTime)).1 =
          ((store e.asset).getFrame rd (f64Sub time e.startTime)).1
        rw [hkeep, hge.2]
      · show Function.update s2 e.asset ((s2 e.asset).getFrame rd (f64Sub time e.startTime)).2 = s2
        rw [hkeep, hge.2, ← hkeep, Function.update_eq_self]
    show requestFrames rd time (e :: es)
        (requestFrames rd time es (e.getFrameAt rd store time).2).2 =
      ((e.getFrameAt rd store time).1 ::
          (requestFrames rd time es (e.getFrameAt rd store time).2).1,
        (requestFrames rd time es (e.getFrameAt rd store time).2).2)
    conv_lhs => unfold requestFrames
    rw [hA]
    simp only []
    rw [hih]

theorem nextFrame_window_of_last_eq {D : Type} (rd : VideoReader D) (v : Video D) (u : ℚ)
    (hlast : v.lastFrameTime = u) (hfr : 1 ≤ v.frameRate) (hmax : v.frameRate < 2 ^ 1024) :
    Video.nextFrame rd v u = (true, v) := by
  have hpos : 0 < v.frameRate := lt_of_lt_of_le one_pos hfr
  have h1 := f64Div_one_pos hpos hmax
  have h2 : 0 ≤ f64Div 2 v.frameRate := f64Div_nonneg zero_le_two (le_of_lt hpos)
  apply nextFrame_of_window
  · rw [hlast, f64Sub_self]; intro hc; linarith
  · rw [hlast, f64Sub_self]; intro hc; linarith
  · rw [hlast, f64Sub_self]; intro hc; linarith

/-- With a faultless decoder and a frame rate of at least 1 (and in the range of
binary64), repeating a query at the same time changes nothing: the first query
either is rate-limited or leaves `lastFrameTime` at the query time. -/
theorem nextFrame_settled {D : Type} (rd : VideoReader D) (v : Video D) (u : ℚ)
    (hrd : rd.Faultless) (hfr : 1 ≤ v.frameRate) (hmax : v.frameRate < 2 ^ 1024) :
    Video.nextFrame rd (Video.nextFrame rd v u).2 u = (true, (Video.nextFrame rd v u).2) := by
  by_cases hjump : f64Sub u v.lastFrameTime < -(f64Div 2 v.frameRate) ∨
      f64Sub u v.lastFrameTime > 1
  · obtain ⟨d1, hs⟩ := hrd.2 v.videoState (castInt64 (f64Div u v.timeBase))
    obtain ⟨img, pts, d2, hr⟩ := hrd.1 d1
    rw [nextFrame_of_jump rd v u hjump, seekFrame_of_ok rd v u d1 d2 img pts hs hr]
    exact nextFrame_window_of_last_eq rd _ u rfl hfr hmax
  · have hb : ¬ f64Sub u v.lastFrameTime < -(f64Div 2 v.frameRate) :=
      fun hc => hjump (Or.inl hc)
    have hf : ¬ f64Sub u v.lastFrameTime > 1 := fun hc => hjump (Or.inr hc)
    by_cases hs : f64Sub u v.lastFrameTime ≥ f64Div 1 v.frameRate
    · obtain ⟨img, pts, d2, hr⟩ := hrd.1 v.videoState
      rw [nextFrame_of_sequential rd v u hb hf hs, readFrame_of_some rd v img pts d2 hr]
      exact nextFrame_window_of_last_eq rd _ u rfl hfr hmax
    · rw [nextFrame_of_window rd v u hb hf hs]
      exact nextFrame_of_window rd v u hb hf hs

theorem getFrame_settled {D : Type} (rd : VideoReader D) (hrd : rd.Faultless)
    (a : Asset D) (u : ℚ)
    (ha : a.IsStill ∨ ∃ vid : Video D, a = Asset.video vid ∧
      1 ≤ vid.frameRate ∧ vid.frameRate < 2 ^ 1024) :
    ((a.getFrame rd u).2.IsStill ∨
      ∃ vid : Video D, (a.getFrame rd u).2 = Asset.video vid ∧
        1 ≤ vid.frameRate ∧ vid.frameRate < 2 ^ 1024) ∧
    (a.getFrame rd u).2.getFrame rd u = a.getFrame rd u := by
  rcases ha with ⟨img, himg⟩ | ⟨vid, hvid, hfr, hmax⟩
  · rw [himg]
    exact ⟨Or.inl ⟨img, rfl⟩, rfl⟩
  · rw [hvid]
    refine ⟨Or.inr ⟨(Video.nextFrame rd vid u).2, rfl, ?_, ?_⟩, ?_⟩
    · rw [nextFrame_frameRate]; exact hfr
    · rw [nextFrame_frameRate]; exact hmax
    · show ((Video.nextFrame rd (Video.nextFrame rd vid u).2 u).2.frame,
          Asset.video (Video.nextFrame rd (Video.nextFrame rd vid u).2 u).2) =
        ((Video.nextFrame rd vid u).2.frame, Asset.video (Video.nextFrame rd vid u).2)
      rw [nextFrame_settled rd vid u hrd hfr hmax]

theorem getFrame_still_settled {D : Type} (rd : VideoReader D) (a : Asset D) (u : ℚ)
    (ha : a.IsStill) :
    (a.getFrame rd u).2.IsStill ∧ (a.getFrame rd u).2.getFrame rd u = a.getFrame rd u := by
  obtain ⟨img, himg⟩ := ha
  rw [himg]
  exact ⟨⟨img, rfl⟩, rfl⟩

theorem renderFrameAt_twice_of_requests {D : Type} (rd : VideoReader D) (tl : Timeline)
    (store : AssetStore D) (time : ℚ) (width height : Nat)
    (h : requestFrames rd time (tl.activeVisibleEntries time)
        (requestFrames rd time (tl.activeVisibleEntries time) store).2 =
      requestFrames rd time (tl.activeVisibleEntries time) store) :
    tl.renderFrameAt rd (tl.renderFrameAt rd store time width height).2 time width height =
      tl.renderFrameAt rd store time width height := by
  unfold Timeline.renderFrameAt
  rw [renderTracks_eq_foldl, renderTracks_eq_foldl, foldl_renderStep_eq, foldl_renderStep_eq]
  show (List.foldl compositeImages (backgroundCanvas width height)
      (requestFrames rd time (tl.activeVisibleEntries time)
        (requestFrames rd time (tl.activeVisibleEntries time) store).2).1,
    (requestFrames rd time (tl.activeVisibleEntries time)
        (requestFrames rd time (tl.activeVisibleEntries time) store).2).2) = _
  rw [h]
  rfl

/-- C14, amended: two successive calls `renderFrameAt(t, w, h)` return the same
image (and the second call changes no asset) when every entry drawn at `t` shows
a still asset; and also, with a decoder that never fails a read or a seek and
videos of frame rate at least 1 (and below `2 ^ 1024`, as every `double` is),
when no asset other than a still one is shown by two of the entries drawn at
`t`. -/
theorem renderFrameAt_twice {D : Type} (rd : VideoReader D) (tl : Timeline)
    (store : AssetStore D) (time : ℚ) (width height : Nat) :
    ((∀ e ∈ tl.activeVisibleEntries time, (store e.asset).IsStill) →
      tl.renderFrameAt rd (tl.renderFrameAt rd store time width height).2 time width height =
        tl.renderFrameAt rd store time width height) ∧
    (rd.Faultless →
      (∀ e ∈ tl.activeVisibleEntries time, ∀ vid : Video D,
        store e.asset = Asset.video vid → 1 ≤ vid.frameRate ∧ vid.frameRate < 2 ^ 1024) →
      (tl.activeVisibleEntries time).Pairwise
        (fun a b => a.asset = b.asset → (store a.asset).IsStill) →
      tl.renderFrameAt rd (tl.renderFrameAt rd store time width height).2 time width height =
        tl.renderFrameAt rd store time width height) := by
  constructor
  · intro hstill
    apply renderFrameAt_twice_of_requests
    apply requestFrames_twice rd time (fun a => a.IsStill)
      (fun a u ha => getFrame_still_settled rd a u ha) _ _ hstill
    exact List.pairwise_of_forall_mem_list (fun a ha b _ _ => hstill a ha)
  · intro hrd hfr hpair
    apply renderFrameAt_twice_of_requests
    apply requestFrames_twice rd time
      (fun a => a.IsStill ∨ ∃ vid : Video D, a = Asset.video vid ∧
        1 ≤ vid.frameRate ∧ vid.frameRate < 2 ^ 1024)
      (fun a u ha => getFrame_settled rd hrd a u ha) _ _ _ hpair
    intro e he
    cases hasset : store e.asset with
    | still img => exact Or.inl ⟨img, rfl⟩
    | video vid => exact Or.inr ⟨vid, rfl, hfr e he vid hasset⟩

/-! ## Concrete renders -/

theorem renderFrameAt_single {D : Type} (rd : VideoReader D) (tl : Timeline)
    (store : AssetStore D) (time : ℚ) (width height : Nat) (track : Track)
    (entry : TimelineEntry) (htl : tl.tracks = [track]) (hv : track.visible = true)
    (he : track.getEntryAt time = some entry) :
    tl.renderFrameAt rd store time width height =
      (compositeImages (backgroundCanvas width height) (entry.getFrameAt rd store time).1,
        (entry.getFrameAt rd store time).2) := by
  unfold Timeline.renderFrameAt
  rw [renderTracks_eq_foldl, htl]
  simp only [List.filterMap_cons, List.filterMap_nil, hv, if_true, he, List.foldl_cons,
    List.foldl_nil]
  rfl

theorem renderFrameAt_pair {D : Type} (rd : VideoReader D) (tl : Timeline)
    (store : AssetStore D) (time : ℚ) (width height : Nat) (bottomTrack topTrack : Track)
    (eb et : TimelineEntry) (htl : tl.tracks = [bottomTrack, topTrack])
    (hvb : bottomTrack.visible = true) (hvt : topTrack.visible = true)
    (heb : bottomTrack.getEntryAt time = some eb) (het : topTrack.getEntryAt time = some et) :
    tl.renderFrameAt rd store time width height =
      (compositeImages
          (compositeImages (backgroundCanvas width height) (eb.getFrameAt rd store time).1)
          (et.getFrameAt rd (eb.getFrameAt rd store time).2 time).1,
        (et.getFrameAt rd (eb.getFrameAt rd store time).2 time).2) := by
  unfold Timeline.renderFrameAt
  rw [renderTracks_eq_foldl, htl]
  simp only [List.filterMap_cons, List.filterMap_nil, hvb, hvt, if_true, heb, het,
    List.foldl_cons, List.foldl_nil]
  rfl

theorem getFrameAt_video {D : Type} (rd : VideoReader D) (store : AssetStore D)
    (e : TimelineEntry) (time : ℚ) (v : Video D) (h : store e.asset = Asset.video v) :
    e.getFrameAt rd store time =
      ((Video.nextFrame rd v (f64Sub time e.startTime)).2.frame,
        Function.update store e.asset
          (Asset.video (Video.nextFrame rd v (f64Sub time e.startTime)).2)) := by
  unfold TimelineEntry.getFrameAt
  rw [h]
  rfl

theorem getFrameAt_still {D : Type} (rd : VideoReader D) (store : AssetStore D)
    (e : TimelineEntry) (time : ℚ) (img : Image) (h : store e.asset = Asset.still img) :
    e.getFrameAt rd store time = (img, store) := by
  unfold TimelineEntry.getFrameAt
  rw [h]
  show (img, Function.update store e.asset (Asset.still img)) = (img, store)
  rw [← h, Function.update_eq_self]

theorem clipTrack_active (time : ℚ) (h0 : 0 ≤ time) (h1 : time < 10) :
    clipTrack.getEntryAt time = some clipEntry := by
  simp [Track.getEntryAt, Track.getEntryAtLoop, TimelineEntry.isActiveAt,
    TimelineEntry.getEndTime, f64Add, clipTrack, clipEntry, h0, h1]

theorem lateClipTrack_active (time : ℚ) (h0 : 1 / 2 ≤ time) (h1 : time < 10) :
    lateClipTrack.getEntryAt time = some lateClipEntry := by
  have h2 : time < 21 / 2 := by linarith
  have hend : lateClipEntry.getEndTime = 21 / 2 := by
    norm_num [TimelineEntry.getEndTime, f64Add, lateClipEntry]
  have hact : lateClipEntry.isActiveAt time = true := by
    rw [isActiveAt_iff, hend]
    exact ⟨h0, h2⟩
  simp only [Track.getEntryAt, Track.getEntryAtLoop, lateClipTrack, hact, if_true]

theorem overlayTrack_active (time : ℚ) (h0 : 0 ≤ time) (h1 : time < 10) :
    overlayTrack.getEntryAt time = some overlayEntry := by
  simp [Track.getEntryAt, Track.getEntryAtLoop, TimelineEntry.isActiveAt,
    TimelineEntry.getEndTime, f64Add, overlayTrack, overlayEntry, h0, h1]

theorem composite_frameNo_examples :
    compositeImages (backgroundCanvas 1 1) (frameNo 0) = frameNo 0 ∧
    compositeImages (backgroundCanvas 1 1) (frameNo 1) = frameNo 1 ∧
    compositeImages (compositeImages (backgroundCanvas 1 1) (frameNo 1)) (frameNo 2)
      = frameNo 2 ∧
    compositeImages (compositeImages (backgroundCanvas 1 1) (frameNo 15)) (frameNo 16)
      = frameNo 16 := by
  refine ⟨?_, ?_, ?_, ?_⟩ <;> decide

/-- C14 as stated fails, at 30 frames per second on a 1 by 1 canvas.  (1) One
track showing a video whose decoder can seek to position 0 only, last decoded at
time 5: the first render at time 0.5 falls back to frame 0 and the second render
reads on to frame 1.  (2) A faultless decoder, one video shown by two tracks at
local times 0.5 and 1: the first render reads frames 1 and 2 in sequence and
shows frame 2, the second render seeks back to frame 15 and shows frame 16. -/
theorem renderFrameAt_twice_differs :
    (clipTimeline.renderFrameAt startOnlyReader (videoStore 5) (1 / 2) 1 1).1 = frameNo 0 ∧
    (clipTimeline.renderFrameAt startOnlyReader
      (clipTimeline.renderFrameAt startOnlyReader (videoStore 5) (1 / 2) 1 1).2
      (1 / 2) 1 1).1 = frameNo 1 ∧
    (sharedTimeline.renderFrameAt counterReader (videoStore 0) 1 1 1).1 = frameNo 2 ∧
    (sharedTimeline.renderFrameAt counterReader
      (sharedTimeline.renderFrameAt counterReader (videoStore 0) 1 1 1).2 1 1 1).1
      = frameNo 16 ∧
    frameNo 0 ≠ frameNo 1 ∧ frameNo 2 ≠ frameNo 16 := by
  -- (1) the single clip
  have hact := clipTrack_active (1 / 2) (by norm_num) (by norm_num)
  have hr : ∀ store : AssetStore Nat,
      clipTimeline.renderFrameAt startOnlyReader store (1 / 2) 1 1 =
        (compositeImages (backgroundCanvas 1 1)
            (clipEntry.getFrameAt startOnlyReader store (1 / 2)).1,
          (clipEntry.getFrameAt startOnlyReader store (1 / 2)).2) :=
    fun store => renderFrameAt_single startOnlyReader clipTimeline store (1 / 2) 1 1
      clipTrack clipEntry rfl rfl hact
  have himg : ∀ store : AssetStore Nat,
      (clipTimeline.renderFrameAt startOnlyReader store (1 / 2) 1 1).1 =
        compositeImages (backgroundCanvas 1 1)
          (clipEntry.getFrameAt startOnlyReader store (1 / 2)).1 :=
    fun store => congrArg Prod.fst (hr store)
  have hsto : ∀ store : AssetStore Nat,
      (clipTimeline.renderFrameAt startOnlyReader store (1 / 2) 1 1).2 =
        (clipEntry.getFrameAt startOnlyReader store (1 / 2)).2 :=
    fun store => by rw [hr store]
  have hl1 : f64Sub (1 / 2) clipEntry.startTime = 1 / 2 := example_distances.2.2.1
  have hback : f64Sub (1 / 2) 5 = -(9 / 2) := by
    rw [f64Sub_exact (1 / 2) 5 (-9) 1 (by norm_num) (by norm_num) (by norm_num)]
    norm_num
  have gf1 : ∀ (store : AssetStore Nat) (v : Video Nat),
      store clipEntry.asset = Asset.video v →
      (clipEntry.getFrameAt startOnlyReader store (1 / 2)).1 =
        (Video.nextFrame startOnlyReader v (1 / 2)).2.frame :=
    fun store v h => by rw [getFrameAt_video startOnlyReader store clipEntry _ v h, hl1]
  have gf2 : ∀ (store : AssetStore Nat) (v : Video Nat),
      store clipEntry.asset = Asset.video v →
      (clipEntry.getFrameAt startOnlyReader store (1 / 2)).2 =
        Function.update store clipEntry.asset
          (Asset.video (Video.nextFrame startOnlyReader v (1 / 2)).2) :=
    fun store v h => by rw [getFrameAt_video startOnlyReader store clipEntry _ v h, hl1]
  have h15 : castInt64 (f64Div (1 / 2) (videoAt 5).timeBase) = 15 := seek_targets_30.2.2
  have hv1 : (Video.nextFrame startOnlyReader (videoAt 5) (1 / 2)).2 =
      videoAfterFallback := by
    rw [nextFrame_of_backward startOnlyReader (videoAt 5) _
        (by show f64Sub (1 / 2) 5 < -(f64Div 2 30); rw [hback, f64Div_two_30]; norm_num),
      seekFrame_of_fallback startOnlyReader (videoAt 5) _ 1 0 1 (frameNo 0) 0
        (by rw [h15]; rfl) rfl rfl, h15]
    rfl
  have hv2 : (Video.nextFrame startOnlyReader videoAfterFallback (1 / 2)).2.frame =
      frameNo 1 := by
    rw [nextFrame_of_between startOnlyReader _ _
      (by norm_num [videoAfterFallback])
      (by norm_num [videoAfterFallback])
      (by norm_num [videoAfterFallback])]
    rfl
  have hstore1 : (clipTimeline.renderFrameAt startOnlyReader (videoStore 5) (1 / 2) 1 1).2
      clipEntry.asset = Asset.video videoAfterFallback := by
    rw [hsto, gf2 (videoStore 5) (videoAt 5) rfl, hv1]
    exact Function.update_same _ _ _
  -- (2) the shared clip
  have hactL := lateClipTrack_active 1 (by norm_num) (by norm_num)
  have hactC := clipTrack_active 1 (by norm_num) (by norm_num)
  have hr2 : ∀ store : AssetStore Nat,
      sharedTimeline.renderFrameAt counterReader store 1 1 1 =
        (compositeImages
            (compositeImages (backgroundCanvas 1 1)
              (lateClipEntry.getFrameAt counterReader store 1).1)
            (clipEntry.getFrameAt counterReader
              (lateClipEntry.getFrameAt counterReader store 1).2 1).1,
          (clipEntry.getFrameAt counterReader
              (lateClipEntry.getFrameAt counterReader store 1).2 1).2) :=
    fun store => renderFrameAt_pair counterReader sharedTimeline store 1 1 1
      lateClipTrack clipTrack lateClipEntry clipEntry rfl rfl rfl hactL hactC
  have himg2 : ∀ store : AssetStore Nat,
      (sharedTimeline.renderFrameAt counterReader store 1 1 1).1 =
        compositeImages
          (compositeImages (backgroundCanvas 1 1)
            (lateClipEntry.getFrameAt counterReader store 1).1)
          (clipEntry.getFrameAt counterReader
            (lateClipEntry.getFrameAt counterReader store 1).2 1).1 :=
    fun store => congrArg Prod.fst (hr2 store)
  have hsto2 : ∀ store : AssetStore Nat,
      (sharedTimeline.renderFrameAt counterReader store 1 1 1).2 =
        (clipEntry.getFrameAt counterReader
          (lateClipEntry.getFrameAt counterReader store 1).2 1).2 :=
    fun store => by rw [hr2 store]
  have hl2 : f64Sub 1 lateClipEntry.startTime = 1 / 2 := by
    rw [f64Sub_exact 1 lateClipEntry.startTime 1 1 (by norm_num [lateClipEntry])
      (by norm_num) (by norm_num)]
    norm_num [lateClipEntry]
  have hl3 : f64Sub 1 clipEntry.startTime = 1 := example_distances.2.1
  have hback2 : f64Sub (1 / 2) 1 = -(1 / 2) := by
    rw [f64Sub_exact (1 / 2) 1 (-1) 1 (by norm_num) (by norm_num) (by norm_num)]
    norm_num
  have lf1 : ∀ (store : AssetStore Nat) (v : Video Nat),
      store lateClipEntry.asset = Asset.video v →
      (lateClipEntry.getFrameAt counterReader store 1).1 =
        (Video.nextFrame counterReader v (1 / 2)).2.frame :=
    fun store v h => by rw [getFrameAt_video counterReader store lateClipEntry _ v h, hl2]
  have lf2 : ∀ (store : AssetStore Nat) (v : Video Nat),
      store lateClipEntry.asset = Asset.video v →
      (lateClipEntry.getFrameAt counterReader store 1).2 =
        Function.update store lateClipEntry.asset
          (Asset.video (Video.nextFrame counterReader v (1 / 2)).2) :=
    fun store v h => by rw [getFrameAt_video counterReader store lateClipEntry _ v h, hl2]
  have cf1 : ∀ (store : AssetStore Nat) (v : Video Nat),
      store clipEntry.asset = Asset.video v →
      (clipEntry.getFrameAt counterReader store 1).1 =
        (Video.nextFrame counterReader v 1).2.frame :=
    fun store v h => by rw [getFrameAt_video counterReader store clipEntry _ v h, hl3]
  have cf2 : ∀ (store : AssetStore Nat) (v : Video Nat),
      store clipEntry.asset = Asset.video v →
      (clipEntry.getFrameAt counterReader store 1).2 =
        Function.update store clipEntry.asset
          (Asset.video (Video.nextFrame counterReader v 1).2) :=
    fun store v h => by rw [getFrameAt_video counterReader store clipEntry _ v h, hl3]
  have hw1 : (Video.nextFrame counterReader (videoAt 0) (1 / 2)).2 = videoRead1 := by
    rw [nextFrame_of_between counterReader _ _ (by norm_num [videoAt])
      (by norm_num [videoAt]) (by norm_num [videoAt])]
    rfl
  have hw2 : (Video.nextFrame counterReader videoRead1 1).2 = videoRead2 := by
    rw [nextFrame_of_between counterReader _ _ (by norm_num [videoRead1])
      (by norm_num [videoRead1]) (by norm_num [videoRead1])]
    rfl
  have h15b : castInt64 (f64Div (1 / 2) videoRead2.timeBase) = 15 := seek_targets_30.2.2
  have hw3 : (Video.nextFrame counterReader videoRead2 (1 / 2)).2 = videoSeek15 := by
    rw [nextFrame_of_backward counterReader _ _
        (by show f64Sub (1 / 2) 1 < -(f64Div 2 30); rw [hback2, f64Div_two_30]; norm_num),
      seekFrame_of_ok counterReader videoRead2 _ 15 16 (frameNo 15) 15
        (by rw [h15b]; rfl) rfl, h15b]
    rfl
  have hw4 : (Video.nextFrame counterReader videoSeek15 1).2.frame = frameNo 16 := by
    rw [nextFrame_of_between counterReader _ _ (by norm_num [videoSeek15])
      (by norm_num [videoSeek15]) (by norm_num [videoSeek15])]
    rfl
  have hs1 : (lateClipEntry.getFrameAt counterReader (videoStore 0) 1).2 clipEntry.asset =
      Asset.video videoRead1 := by
    rw [lf2 (videoStore 0) (videoAt 0) rfl, hw1]
    exact Function.update_same _ _ _
  have hs2 : (sharedTimeline.renderFrameAt counterReader (videoStore 0) 1 1 1).2
      lateClipEntry.asset = Asset.video videoRead2 := by
    rw [hsto2, cf2 _ videoRead1 hs1, hw2]
    exact Function.update_same _ _ _
  have hs3 : (lateClipEntry.getFrameAt counterReader
      (sharedTimeline.renderFrameAt counterReader (videoStore 0) 1 1 1).2 1).2
      clipEntry.asset = Asset.video videoSeek15 := by
    rw [lf2 _ videoRead2 hs2, hw3]
    exact Function.update_same _ _ _
  refine ⟨?_, ?_, ?_, ?_, by decide, by decide⟩
  · rw [himg, gf1 (videoStore 5) (videoAt 5) rfl, hv1]
    exact composite_frameNo_examples.1
  · rw [himg, gf1 _ videoAfterFallback hstore1, hv2]
    exact composite_frameNo_examples.2.1
  · rw [himg2, cf1 _ videoRead1 hs1, hw2, lf1 (videoStore 0) (videoAt 0) rfl, hw1]
    exact composite_frameNo_examples.2.2.1
  · rw [himg2, cf1 _ videoSeek15 hs3, hw4, lf1 _ videoRead2 hs2, hw3]
    exact composite_frameNo_examples.2.2.2

theorem counterReader_faultless : counterReader.Faultless :=
  ⟨fun d => ⟨frameNo d, (d : Int), d + 1, rfl⟩, fun _ target => ⟨target.toNat, rfl⟩⟩

theorem blendStore_isStill (n : Nat) : (blendStore n).IsStill := by
  unfold blendStore
  by_cases h : n = 0
  · rw [if_pos h]; exact ⟨whiteFrame, rfl⟩
  · rw [if_neg h]; exact ⟨halfBlackFrame, rfl⟩

theorem clipTimeline_active :
    clipTimeline.activeVisibleEntries (1 / 2) = [clipEntry] := by
  have h := clipTrack_active (1 / 2) (by norm_num) (by norm_num)
  simp only [Timeline.activeVisibleEntries, clipTimeline, List.filterMap_cons,
    List.filterMap_nil, h]
  rfl

/-- Witness of C14, amended: two still assets on two tracks render the same image
twice; so does a single video clip read by the faultless frame counter. -/
theorem renderFrameAt_twice_witness :
    overlayTimeline.renderFrameAt counterReader
        (overlayTimeline.renderFrameAt counterReader blendStore 1 1 1).2 1 1 1 =
      overlayTimeline.renderFrameAt counterReader blendStore 1 1 1 ∧
    clipTimeline.renderFrameAt counterReader
        (clipTimeline.renderFrameAt counterReader (videoStore 0) (1 / 2) 1 1).2 (1 / 2) 1 1 =
      clipTimeline.renderFrameAt counterReader (videoStore 0) (1 / 2) 1 1 :=
  ⟨(renderFrameAt_twice counterReader overlayTimeline blendStore 1 1 1).1
      (fun e _ => blendStore_isStill e.asset),
   (renderFrameAt_twice counterReader clipTimeline (videoStore 0) (1 / 2) 1 1).2
      counterReader_faultless
      (by
        intro e _ vid hvid
        have hv : vid = videoAt 0 := by
          have h2 : Asset.video (videoAt 0) = Asset.video vid := hvid
          injection h2 with h3
          exact h3.symm
        rw [hv]
        norm_num [videoAt])
      (by rw [clipTimeline_active]; exact List.pairwise_singleton _ _)⟩

/-! ## Rounding lemmas for the single-precision model -/

theorem two_pow_floorLog2_le (fuel n : Nat) (hn : 0 < n) : 2 ^ floorLog2 fuel n ≤ n := by
  induction fuel generalizing n with
  | zero => simpa [floorLog2] using hn
  | succ fuel ih =>
    unfold floorLog2
    by_cases h2 : n < 2
    · rw [if_pos h2]; simpa using hn
    · rw [if_neg h2, pow_succ]
      have hhalf : 0 < n / 2 := Nat.div_pos (by omega) (by omega)
      have := ih (n / 2) hhalf
      omega

theorem lt_two_pow_floorLog2 (fuel n : Nat) (hfuel : n ≤ fuel) :
    n < 2 ^ (floorLog2 fuel n + 1) := by
  induction fuel generalizing n with
  | zero =>
    have : n = 0 := by omega
    subst this
    simp [floorLog2]
  | succ fuel ih =>
    unfold floorLog2
    by_cases h2 : n < 2
    · rw [if_pos h2]; simpa using h2
    · rw [if_neg h2, pow_succ]
      have := ih (n / 2) (by omega)
      omega

theorem roundNearestEven_ge (n d : Nat) : n / d ≤ roundNearestEven n d := by
  unfold roundNearestEven
  simp only []
  split
  · exact le_refl _
  · split
    · exact Nat.le_succ _
    · split
      · exact le_refl _
      · exact Nat.le_succ _

theorem roundNearestEven_le (n d m : Nat) (hd : 0 < d) (h : n ≤ m * d) :
    roundNearestEven n d ≤ m := by
  have hq : n / d ≤ m := Nat.div_le_of_le_mul (by rw [Nat.mul_comm]; exact h)
  have hstrict : 0 < n % d → n / d + 1 ≤ m := by
    intro hr
    by_contra hc
    have hqm : n / d = m := by omega
    have := Nat.div_add_mod n d
    rw [hqm] at this
    have hmd : d * m = m * d := Nat.mul_comm d m
    omega
  unfold roundNearestEven
  simp only []
  split
  · exact hq
  · split
    · exact hstrict (by omega)
    · split
      · exact hq
      · exact hstrict (by omega)

/-- Below `2 ^ k` with `k <= 24`, rounding to binary32 is rounding to a multiple
of `2 ^ (-s)` for some `s >= 24 - k`. -/
theorem f32Round_shape (n d k : Nat) (hn : n ≠ 0) (hd : d ≠ 0) (hk : k ≤ 24)
    (hlt : n < 2 ^ k * d) :
    ∃ s : Nat, 24 ≤ s + k ∧ f32Round n d = ⟨roundNearestEven (n * 2 ^ s) d, s⟩ := by
  have hL1 := two_pow_floorLog2_le n n (Nat.pos_of_ne_zero hn)
  have hL2 := lt_two_pow_floorLog2 d d (le_refl d)
  have hbig : ∀ j : Nat, k ≤ j → ¬ d * 2 ^ j ≤ n := by
    intro j hj hc
    have : 2 ^ k * d ≤ d * 2 ^ j := by
      rw [Nat.mul_comm]
      exact Nat.mul_le_mul_left d (Nat.pow_le_pow_right (by omega) hj)
    omega
  unfold f32Round
  rw [if_neg (by simp [hn, hd])]
  simp only []
  have he0 : ∃ e0 : Int, (floorLog2 n n : Int) - (floorLog2 d d : Int) = e0 := ⟨_, rfl⟩
  obtain ⟨e0, he0⟩ := he0
  rw [he0]
  have key : (if (if 0 ≤ e0 then decide (d * 2 ^ e0.toNat ≤ n)
      else decide (d ≤ n * 2 ^ (-e0).toNat)) = true then e0 else e0 - 1) ≤ (k : Int) - 1 := by
    by_cases hat : (if 0 ≤ e0 then decide (d * 2 ^ e0.toNat ≤ n)
        else decide (d ≤ n * 2 ^ (-e0).toNat)) = true
    · rw [if_pos hat]
      by_contra hcon
      have hpos : 0 ≤ e0 := by omega
      rw [if_pos hpos] at hat
      have hle : d * 2 ^ e0.toNat ≤ n := by simpa using hat
      exact hbig _ (by omega) hle
    · rw [if_neg hat]
      by_contra hcon
      have hgap : floorLog2 d d + 1 + k ≤ floorLog2 n n := by omega
      have h1 : 2 ^ (floorLog2 d d + 1 + k) ≤ 2 ^ floorLog2 n n :=
        Nat.pow_le_pow_right (by omega) hgap
      have h2 : 2 ^ (floorLog2 d d + 1 + k) = 2 ^ k * 2 ^ (floorLog2 d d + 1) := by
        rw [pow_add, Nat.mul_comm]
      have h3 : 2 ^ k * d < 2 ^ k * 2 ^ (floorLog2 d d + 1) :=
        (mul_lt_mul_left (by positivity : 0 < 2 ^ k)).mpr hL2
      omega
  generalize (if (if 0 ≤ e0 then decide (d * 2 ^ e0.toNat ≤ n)
      else decide (d ≤ n * 2 ^ (-e0).toNat)) = true then e0 else e0 - 1) = e at key ⊢
  rw [if_pos (by omega)]
  exact ⟨(23 - e).toNat, by omega, rfl⟩

theorem f32Round_toNat_ge (n d K : Nat) (hd : 0 < d) (hlt : n < 2 ^ 24 * d)
    (h : K * d ≤ n) : K ≤ (f32Round n d).toNat := by
  by_cases hn : n = 0
  · subst hn
    have hK : K = 0 := by
      rcases Nat.eq_zero_or_pos K with h0 | hpos
      · exact h0
      · have := Nat.mul_pos hpos hd
        omega
    rw [hK]
    exact Nat.zero_le _
  · obtain ⟨s, _, hs⟩ := f32Round_shape n d 24 hn (by omega) (le_refl _) hlt
    rw [hs]
    unfold F32.toNat
    simp only []
    rw [Nat.le_div_iff_mul_le (by positivity)]
    refine le_trans ?_ (roundNearestEven_ge _ _)
    rw [Nat.le_div_iff_mul_le hd]
    calc K * 2 ^ s * d = K * d * 2 ^ s := by ring
      _ ≤ n * 2 ^ s := Nat.mul_le_mul_right _ h

theorem f32Round_toNat_le (n d M j k : Nat) (hd : 0 < d) (hk : k + j ≤ 24)
    (hlt : n < 2 ^ k * d) (h : n * 2 ^ j ≤ M * d) : (f32Round n d).toNat ≤ M / 2 ^ j := by
  by_cases hn : n = 0
  · subst hn
    have : f32Round 0 d = ⟨0, 0⟩ := by unfold f32Round; simp
    rw [this]
    simp [F32.toNat]
  · obtain ⟨s, hsk, hs⟩ := f32Round_shape n d k hn (by omega) (by omega) hlt
    rw [hs]
    unfold F32.toNat
    simp only []
    have hsj : s = j + (s - j) := by omega
    have hr : roundNearestEven (n * 2 ^ s) d ≤ M * 2 ^ (s - j) := by
      apply roundNearestEven_le _ _ _ hd
      calc n * 2 ^ s = n * 2 ^ j * 2 ^ (s - j) := by
            rw [Nat.mul_assoc, ← pow_add, ← hsj]
        _ ≤ M * d * 2 ^ (s - j) := Nat.mul_le_mul_right _ h
        _ = M * 2 ^ (s - j) * d := by ring
    calc roundNearestEven (n * 2 ^ s) d / 2 ^ s ≤ M * 2 ^ (s - j) / 2 ^ s :=
          Nat.div_le_div_right hr
      _ = M * 2 ^ (s - j) / (2 ^ j * 2 ^ (s - j)) := by rw [← pow_add, ← hsj]
      _ = M / 2 ^ j := Nat.mul_div_mul_right _ _ (by positivity)

theorem add_num_eq (p q : F32) :
    ((p.num * 2 ^ q.scale + q.num * 2 ^ p.scale : Nat) : ℚ) =
      (p.toRat + q.toRat) * ((2 ^ (p.scale + q.scale) : Nat) : ℚ) := by
  unfold F32.toRat
  push_cast
  rw [pow_add]
  field_simp

theorem add_toNat_ge (p q : F32) (K : Nat) (hlt : p.toRat + q.toRat < 2 ^ 24)
    (h : (K : ℚ) ≤ p.toRat + q.toRat) : K ≤ (p.add q).toNat := by
  unfold F32.add
  have hdpos : (0 : ℚ) < ((2 ^ (p.scale + q.scale) : Nat) : ℚ) := by positivity
  apply f32Round_toNat_ge _ _ _ (by positivity)
  · have : ((p.num * 2 ^ q.scale + q.num * 2 ^ p.scale : Nat) : ℚ) <
        ((2 ^ 24 * 2 ^ (p.scale + q.scale) : Nat) : ℚ) := by
      rw [add_num_eq]
      push_cast
      exact mul_lt_mul_of_pos_right hlt (by positivity)
    exact_mod_cast this
  · have : ((K * 2 ^ (p.scale + q.scale) : Nat) : ℚ) ≤
        ((p.num * 2 ^ q.scale + q.num * 2 ^ p.scale : Nat) : ℚ) := by
      rw [add_num_eq]
      push_cast
      exact mul_le_mul_of_nonneg_right h (by positivity)
    exact_mod_cast this

theorem add_toNat_le (p q : F32) (M : Nat) (hlt : p.toRat + q.toRat < 2 ^ 23)
    (h : p.toRat + q.toRat ≤ (M : ℚ) / 2) : (p.add q).toNat ≤ M / 2 := by
  unfold F32.add
  have h2 := f32Round_toNat_le (p.num * 2 ^ q.scale + q.num * 2 ^ p.scale)
    (2 ^ (p.scale + q.scale)) M 1 23 (by positivity) (by omega)
    (by
      have : ((p.num * 2 ^ q.scale + q.num * 2 ^ p.scale : Nat) : ℚ) <
          ((2 ^ 23 * 2 ^ (p.scale + q.scale) : Nat) : ℚ) := by
        rw [add_num_eq]
        push_cast
        exact mul_lt_mul_of_pos_right hlt (by positivity)
      exact_mod_cast this)
    (by
      have : (((p.num * 2 ^ q.scale + q.num * 2 ^ p.scale) * 2 ^ 1 : Nat) : ℚ) ≤
          ((M * 2 ^ (p.scale + q.scale) : Nat) : ℚ) := by
        rw [Nat.cast_mul, add_num_eq]
        push_cast
        have hd : (0 : ℚ) < 2 ^ (p.scale + q.scale) := by positivity
        nlinarith
      exact_mod_cast this)
  simpa using h2

/-! ## The blend at alpha 127, 128 and 255 -/

theorem alphaOf_values :
    alphaOf 127 = ⟨16711423, 25⟩ ∧ alphaOf 128 = ⟨8421505, 24⟩ ∧
    (F32.ofNat 1).sub ⟨16711423, 25⟩ = ⟨8421504, 24⟩ ∧
    (F32.ofNat 1).sub ⟨8421505, 24⟩ = ⟨16711422, 25⟩ := by
  decide

set_option maxRecDepth 100000 in
theorem mul_table_alpha127 : ∀ t < 256,
    1270 * t * 2 ^ ((F32.ofNat t).mul ⟨16711423, 25⟩).scale ≤
        2550 * ((F32.ofNat t).mul ⟨16711423, 25⟩).num
          + 255 * 2 ^ ((F32.ofNat t).mul ⟨16711423, 25⟩).scale ∧
    2550 * ((F32.ofNat t).mul ⟨16711423, 25⟩).num ≤
        1270 * t * 2 ^ ((F32.ofNat t).mul ⟨16711423, 25⟩).scale
          + 255 * 2 ^ ((F32.ofNat t).mul ⟨16711423, 25⟩).scale := by
  decide

set_option maxRecDepth 100000 in
theorem mul_table_beta127 : ∀ t < 256,
    1280 * t * 2 ^ ((F32.ofNat t).mul ⟨8421504, 24⟩).scale ≤
        2550 * ((F32.ofNat t).mul ⟨8421504, 24⟩).num
          + 255 * 2 ^ ((F32.ofNat t).mul ⟨8421504, 24⟩).scale ∧
    2550 * ((F32.ofNat t).mul ⟨8421504, 24⟩).num ≤
        1280 * t * 2 ^ ((F32.ofNat t).mul ⟨8421504, 24⟩).scale
          + 255 * 2 ^ ((F32.ofNat t).mul ⟨8421504, 24⟩).scale := by
  decide

set_option maxRecDepth 100000 in
theorem mul_table_alpha128 : ∀ t < 256,
    1280 * t * 2 ^ ((F32.ofNat t).mul ⟨8421505, 24⟩).scale ≤
        2550 * ((F32.ofNat t).mul ⟨8421505, 24⟩).num
          + 255 * 2 ^ ((F32.ofNat t).mul ⟨8421505, 24⟩).scale ∧
    2550 * ((F32.ofNat t).mul ⟨8421505, 24⟩).num ≤
        1280 * t * 2 ^ ((F32.ofNat t).mul ⟨8421505, 24⟩).scale
          + 255 * 2 ^ ((F32.ofNat t).mul ⟨8421505, 24⟩).scale := by
  decide

set_option maxRecDepth 100000 in
theorem mul_table_beta128 : ∀ t < 256,
    1270 * t * 2 ^ ((F32.ofNat t).mul ⟨16711422, 25⟩).scale ≤
        2550 * ((F32.ofNat t).mul ⟨16711422, 25⟩).num
          + 255 * 2 ^ ((F32.ofNat t).mul ⟨16711422, 25⟩).scale ∧
    2550 * ((F32.ofNat t).mul ⟨16711422, 25⟩).num ≤
        1270 * t * 2 ^ ((F32.ofNat t).mul ⟨16711422, 25⟩).scale
          + 255 * 2 ^ ((F32.ofNat t).mul ⟨16711422, 25⟩).scale := by
  decide

set_option maxRecDepth 100000 in
theorem blendChannel_opaque_on_gray : ∀ t < 256, blendChannel t 32 255 = t := by
  decide

theorem toRat_nonneg (p : F32) : 0 ≤ p.toRat := by
  unfold F32.toRat
  positivity

theorem toRat_bounds (p : F32) (A : Nat)
    (h : A * 2 ^ p.scale ≤ 2550 * p.num + 255 * 2 ^ p.scale ∧
      2550 * p.num ≤ A * 2 ^ p.scale + 255 * 2 ^ p.scale) :
    (A : ℚ) / 2550 - 1 / 10 ≤ p.toRat ∧ p.toRat ≤ (A : ℚ) / 2550 + 1 / 10 := by
  have hpos : (0 : ℚ) < 2 ^ p.scale := by positivity
  have h1 : ((A * 2 ^ p.scale : Nat) : ℚ) ≤ ((2550 * p.num + 255 * 2 ^ p.scale : Nat) : ℚ) := by
    exact_mod_cast h.1
  have h2 : ((2550 * p.num : Nat) : ℚ) ≤ ((A * 2 ^ p.scale + 255 * 2 ^ p.scale : Nat) : ℚ) := by
    exact_mod_cast h.2
  push_cast at h1 h2
  unfold F32.toRat
  constructor
  · rw [le_div_iff₀ hpos]
    nlinarith
  · rw [div_le_iff₀ hpos]
    nlinarith

/-- The blend of two bytes from their two rounded products: within 1.5 of the
mean, and a byte. -/
theorem add_half_bounds (P Q : F32) (t b ct cb : Nat) (ht : t < 256) (hb : b < 256)
    (hc : (ct = 1270 ∧ cb = 1280) ∨ (ct = 1280 ∧ cb = 1270))
    (hP : ((ct * t : Nat) : ℚ) / 2550 - 1 / 10 ≤ P.toRat ∧
      P.toRat ≤ ((ct * t : Nat) : ℚ) / 2550 + 1 / 10)
    (hQ : ((cb * b : Nat) : ℚ) / 2550 - 1 / 10 ≤ Q.toRat ∧
      Q.toRat ≤ ((cb * b : Nat) : ℚ) / 2550 + 1 / 10) :
    t + b ≤ 2 * (P.add Q).toNat + 3 ∧ 2 * (P.add Q).toNat ≤ t + b + 2 ∧
      (P.add Q).toNat ≤ 255 := by
  have htq : (t : ℚ) ≤ 255 := by exact_mod_cast Nat.le_of_lt_succ ht
  have hbq : (b : ℚ) ≤ 255 := by exact_mod_cast Nat.le_of_lt_succ hb
  have ht0 : (0 : ℚ) ≤ t := Nat.cast_nonneg t
  have hb0 : (0 : ℚ) ≤ b := Nat.cast_nonneg b
  have hPn := toRat_nonneg P
  have hQn := toRat_nonneg Q
  push_cast at hP hQ
  have hsum_lo : ((t : ℚ) + b) / 2 - 7 / 10 ≤ P.toRat + Q.toRat := by
    rcases hc with ⟨h1, h2⟩ | ⟨h1, h2⟩ <;> subst h1 <;> subst h2 <;>
      push_cast at hP hQ <;> linarith [hP.1, hQ.1]
  have hsum_hi : P.toRat + Q.toRat ≤ ((t : ℚ) + b) / 2 + 7 / 10 := by
    rcases hc with ⟨h1, h2⟩ | ⟨h1, h2⟩ <;> subst h1 <;> subst h2 <;>
      push_cast at hP hQ <;> linarith [hP.2, hQ.2]
  have hsum_255 : P.toRat + Q.toRat ≤ 511 / 2 := by
    rcases hc with ⟨h1, h2⟩ | ⟨h1, h2⟩ <;> subst h1 <;> subst h2 <;>
      push_cast at hP hQ <;> linarith [hP.2, hQ.2]
  have hlt23 : P.toRat + Q.toRat < 2 ^ 23 := by norm_num; linarith
  have hlt24 : P.toRat + Q.toRat < 2 ^ 24 := by norm_num; linarith
  have hlow : (t + b - 2) / 2 ≤ (P.add Q).toNat := by
    apply add_toNat_ge P Q _ hlt24
    by_cases h2 : 2 ≤ t + b
    · have hk : 2 * ((t + b - 2) / 2) + 2 ≤ t + b := by omega
      have hkq : (2 : ℚ) * (((t + b - 2) / 2 : Nat) : ℚ) + 2 ≤ (t : ℚ) + b := by
        exact_mod_cast hk
      linarith
    · have hk : (t + b - 2) / 2 = 0 := by omega
      rw [hk]
      push_cast
      linarith
  have hhigh : (P.add Q).toNat ≤ (t + b + 2) / 2 := by
    apply add_toNat_le P Q _ hlt23
    push_cast
    linarith
  have h255 : (P.add Q).toNat ≤ 511 / 2 := by
    apply add_toNat_le P Q _ hlt23
    push_cast
    linarith
  refine ⟨by omega, by omega, by omega⟩

/-- For top and bottom bytes and a top alpha of 127 or 128, the blended channel
is within 1.5 of the mean of the two bytes, and is a byte. -/
theorem blendChannel_half (t b a : Nat) (ht : t < 256) (hb : b < 256)
    (ha : a = 127 ∨ a = 128) :
    t + b ≤ 2 * blendChannel t b a + 3 ∧ 2 * blendChannel t b a ≤ t + b + 2 ∧
      blendChannel t b a ≤ 255 := by
  unfold blendChannel
  simp only []
  rcases ha with ha | ha
  · rw [ha, alphaOf_values.1, alphaOf_values.2.2.1]
    exact add_half_bounds _ _ t b 1270 1280 ht hb (Or.inl ⟨rfl, rfl⟩)
      (toRat_bounds _ _ (mul_table_alpha127 t ht))
      (toRat_bounds _ _ (mul_table_beta127 b hb))
  · rw [ha, alphaOf_values.2.1, alphaOf_values.2.2.2]
    exact add_half_bounds _ _ t b 1280 1270 ht hb (Or.inr ⟨rfl, rfl⟩)
      (toRat_bounds _ _ (mul_table_alpha128 t ht))
      (toRat_bounds _ _ (mul_table_beta128 b hb))

/-! ## Pixels of a composite -/

theorem getPixel_mem (img : Image) (hf : img.IsFrame) (x y : Int) :
    img.getPixel x y ∈ img.pixels := by
  obtain ⟨hsz, hw, hh, _⟩ := hf
  unfold Image.getPixel
  simp only []
  have hcx0 : 0 ≤ max (0 : Int) (min x ((img.width : Int) - 1)) := le_max_left _ _
  have hcx1 : max (0 : Int) (min x ((img.width : Int) - 1)) ≤ (img.width : Int) - 1 :=
    max_le (by omega) (min_le_right _ _)
  have hcy0 : 0 ≤ max (0 : Int) (min y ((img.height : Int) - 1)) := le_max_left _ _
  have hcy1 : max (0 : Int) (min y ((img.height : Int) - 1)) ≤ (img.height : Int) - 1 :=
    max_le (by omega) (min_le_right _ _)
  generalize max (0 : Int) (min x ((img.width : Int) - 1)) = cx at hcx0 hcx1
  generalize max (0 : Int) (min y ((img.height : Int) - 1)) = cy at hcy0 hcy1
  obtain ⟨nx, rfl⟩ := Int.eq_ofNat_of_zero_le hcx0
  obtain ⟨ny, rfl⟩ := Int.eq_ofNat_of_zero_le hcy0
  have hnx : nx < img.width := by omega
  have hny : ny < img.height := by omega
  have hidx : ((nx : Int) + (img.width : Int) * (ny : Int)).toNat = nx + img.width * ny := by
    have : ((nx : Int) + (img.width : Int) * (ny : Int)) = ((nx + img.width * ny : Nat) : Int) := by
      push_cast; ring
    rw [this, Int.toNat_ofNat]
  rw [hidx]
  have hlt : nx + img.width * ny < img.pixels.length := by
    rw [hsz]; exact index_lt_of_lt hnx hny
  rw [List.getD_eq_getElem?_getD, List.getElem?_eq_getElem hlt]
  exact List.getElem_mem hlt

theorem backgroundCanvas_wellSized (width height : Nat) :
    (backgroundCanvas width height).WellSized := by
  rw [backgroundCanvas_eq]
  unfold Image.WellSized
  simp

theorem backgroundCanvas_getPixel (width height x y : Nat) (hx : x < width) (hy : y < height) :
    (backgroundCanvas width height).getPixel x y = ⟨32, 32, 32, 255⟩ := by
  rw [backgroundCanvas_eq, getPixel_of_lt _ x y hx hy]
  have hlt : x + width * y < width * height := index_lt_of_lt hx hy
  simp [List.getD_eq_getElem?_getD, hlt]

theorem compositeImages_spec (bottom top : Image) (hsz : bottom.WellSized) :
    (compositeImages bottom top).width = bottom.width ∧
    (compositeImages bottom top).height = bottom.height ∧
    (compositeImages bottom top).WellSized ∧
    ∀ x y : Nat, x < bottom.width → y < bottom.height →
      (compositeImages bottom top).getPixel x y =
        blendPixel (top.getPixel (sourceCoord x top.width bottom.width)
          (sourceCoord y top.height bottom.height)) (bottom.getPixel x y) := by
  rw [compositeImages_eq_pixelLoop]
  obtain ⟨hw, hh, hs, _, hpix⟩ := pixelLoop_spec (fun x y c =>
    blendPixel (top.getPixel (sourceCoord x top.width bottom.width)
      (sourceCoord y top.height bottom.height)) c) bottom hsz
  exact ⟨hw, hh, hs, hpix⟩

theorem blendPixel_opaque_on_gray (p : Color) (hr : p.r < 256) (hg : p.g < 256)
    (hb : p.b < 256) (ha : p.a = 255) :
    blendPixel p ⟨32, 32, 32, 255⟩ = ⟨p.r, p.g, p.b, 255⟩ := by
  unfold blendPixel
  simp only []
  rw [ha, blendChannel_opaque_on_gray p.r hr, blendChannel_opaque_on_gray p.g hg,
    blendChannel_opaque_on_gray p.b hb]
  unfold Color.ofInts
  rw [Nat.mod_eq_of_lt hr, Nat.mod_eq_of_lt hg, Nat.mod_eq_of_lt hb]

theorem overlayTimeline_render (store : AssetStore Nat) :
    overlayTimeline.renderFrameAt counterReader store 1 1 1 =
      (compositeImages
          (compositeImages (backgroundCanvas 1 1) (clipEntry.getFrameAt counterReader store 1).1)
          (overlayEntry.getFrameAt counterReader
            (clipEntry.getFrameAt counterReader store 1).2 1).1,
        (overlayEntry.getFrameAt counterReader
            (clipEntry.getFrameAt counterReader store 1).2 1).2) :=
  renderFrameAt_pair counterReader overlayTimeline store 1 1 1 clipTrack overlayTrack
    clipEntry overlayEntry rfl rfl rfl
    (clipTrack_active 1 (by norm_num) (by norm_num))
    (overlayTrack_active 1 (by norm_num) (by norm_num))

theorem blendStore_frames :
    clipEntry.getFrameAt counterReader blendStore 1 = (whiteFrame, blendStore) ∧
    overlayEntry.getFrameAt counterReader blendStore 1 = (halfBlackFrame, blendStore) :=
  ⟨getFrameAt_still counterReader blendStore clipEntry 1 whiteFrame rfl,
   getFrameAt_still counterReader blendStore overlayEntry 1 halfBlackFrame rfl⟩

/-- C13 as stated fails in single precision: a white opaque pixel on the bottom
track under a black pixel of alpha 128 on the top track renders as 126 in every
colour channel, while `top*0.5 + bottom*0.5` is 127.5: the difference is 1.5. -/
theorem half_blend_off_by_more_than_one :
    (overlayTimeline.renderFrameAt counterReader blendStore 1 1 1).1 =
      { width := 1, height := 1, pixels := [⟨126, 126, 126, 255⟩] } ∧
    (clipEntry.getFrameAt counterReader blendStore 1).1.pixels = [⟨255, 255, 255, 255⟩] ∧
    (overlayEntry.getFrameAt counterReader
      (clipEntry.getFrameAt counterReader blendStore 1).2 1).1.pixels = [⟨0, 0, 0, 128⟩] ∧
    2 * 126 + 2 < 0 + 255 := by
  have h1 := blendStore_frames.1
  have h2 := blendStore_frames.2
  refine ⟨?_, ?_, ?_, by decide⟩
  · rw [overlayTimeline_render, h1, h2]
    decide
  · rw [h1]; rfl
  · rw [h1, h2]; rfl

/-- C13, amended: on a timeline of two visible tracks whose active entries at `t`
deliver a fully opaque bottom frame and a top frame of alpha 127 or 128, every
pixel of `renderFrameAt(t, w, h)` has alpha 255 and, in each colour channel, a
value that differs from `top*0.5 + bottom*0.5` by at most 1.5 (at most 1 above,
at most 1.5 below), `top` and `bottom` being the nearest-neighbour samples of
the two frames. -/
theorem renderFrameAt_half_blend {D : Type} (rd : VideoReader D) (tl : Timeline)
    (store : AssetStore D) (time : ℚ) (width height : Nat) (bottomTrack topTrack : Track)
    (eb et : TimelineEntry) (B T : Image)
    (htl : tl.tracks = [bottomTrack, topTrack])
    (hvb : bottomTrack.visible = true) (hvt : topTrack.visible = true)
    (heb : bottomTrack.getEntryAt time = some eb) (het : topTrack.getEntryAt time = some et)
    (hB : (eb.getFrameAt rd store time).1 = B)
    (hT : (et.getFrameAt rd (eb.getFrameAt rd store time).2 time).1 = T)
    (hBf : B.IsFrame) (hBa : ∀ p ∈ B.pixels, p.a = 255)
    (hTf : T.IsFrame) (hTa : ∀ p ∈ T.pixels, p.a = 127 ∨ p.a = 128)
    (x y : Nat) (hx : x < width) (hy : y < height) :
    ((tl.renderFrameAt rd store time width height).1.getPixel x y).a = 255 ∧
    ((T.getPixel (sourceCoord x T.width width) (sourceCoord y T.height height)).r
        + (B.getPixel (sourceCoord x B.width width) (sourceCoord y B.height height)).r
        ≤ 2 * ((tl.renderFrameAt rd store time width height).1.getPixel x y).r + 3 ∧
      2 * ((tl.renderFrameAt rd store time width height).1.getPixel x y).r
        ≤ (T.getPixel (sourceCoord x T.width width) (sourceCoord y T.height height)).r
          + (B.getPixel (sourceCoord x B.width width) (sourceCoord y B.height height)).r + 2) ∧
    ((T.getPixel (sourceCoord x T.width width) (sourceCoord y T.height height)).g
        + (B.getPixel (sourceCoord x B.width width) (sourceCoord y B.height height)).g
        ≤ 2 * ((tl.renderFrameAt rd store time width height).1.getPixel x y).g + 3 ∧
      2 * ((tl.renderFrameAt rd store time width height).1.getPixel x y).g
        ≤ (T.getPixel (sourceCoord x T.width width) (sourceCoord y T.height height)).g
          + (B.getPixel (sourceCoord x B.width width) (sourceCoord y B.height height)).g + 2) ∧
    ((T.getPixel (sourceCoord x T.width width) (sourceCoord y T.height height)).b
        + (B.getPixel (sourceCoord x B.width width) (sourceCoord y B.height height)).b
        ≤ 2 * ((tl.renderFrameAt rd store time width height).1.getPixel x y).b + 3 ∧
      2 * ((tl.renderFrameAt rd store time width height).1.getPixel x y).b
        ≤ (T.getPixel (sourceCoord x T.width width) (sourceCoord y T.height height)).b
          + (B.getPixel (sourceCoord x B.width width) (sourceCoord y B.height height)).b + 2) := by
  have hrender : (tl.renderFrameAt rd store time width height).1 =
      compositeImages (compositeImages (backgroundCanvas width height) B) T := by
    rw [renderFrameAt_pair rd tl store time width height bottomTrack topTrack eb et htl hvb
      hvt heb het, hB, hT]
  rw [hrender]
  have hbgw : (backgroundCanvas width height).width = width := by
    rw [backgroundCanvas_eq]
  have hbgh : (backgroundCanvas width height).height = height := by
    rw [backgroundCanvas_eq]
  obtain ⟨hw1, hh1, hs1, hp1⟩ :=
    compositeImages_spec (backgroundCanvas width height) B
      (backgroundCanvas_wellSized width height)
  simp only [hbgw, hbgh] at hw1 hh1 hp1
  obtain ⟨_, _, _, hp2⟩ :=
    compositeImages_spec (compositeImages (backgroundCanvas width height) B) T hs1
  simp only [hw1, hh1] at hp2
  rw [hp2 x y hx hy, hp1 x y hx hy, backgroundCanvas_getPixel width height x y hx hy]
  have hbm := getPixel_mem B hBf (sourceCoord x B.width width) (sourceCoord y B.height height)
  have htm := getPixel_mem T hTf (sourceCoord x T.width width) (sourceCoord y T.height height)
  have hbb := hBf.2.2.2 _ hbm
  have htb := hTf.2.2.2 _ htm
  have hba := hBa _ hbm
  have hta := hTa _ htm
  generalize B.getPixel (sourceCoord x B.width width) (sourceCoord y B.height height) = pb
    at hbm hbb hba ⊢
  generalize T.getPixel (sourceCoord x T.width width) (sourceCoord y T.height height) = pt
    at htm htb hta ⊢
  rw [blendPixel_opaque_on_gray pb hbb.1 hbb.2.1 hbb.2.2.1 hba]
  have hr := blendChannel_half pt.r pb.r pt.a htb.1 hbb.1 hta
  have hg := blendChannel_half pt.g pb.g pt.a htb.2.1 hbb.2.1 hta
  have hbl := blendChannel_half pt.b pb.b pt.a htb.2.2.1 hbb.2.2.1 hta
  unfold blendPixel Color.ofInts
  simp only []
  rw [Nat.mod_eq_of_lt (by omega : blendChannel pt.r pb.r pt.a < 256),
    Nat.mod_eq_of_lt (by omega : blendChannel pt.g pb.g pt.a < 256),
    Nat.mod_eq_of_lt (by omega : blendChannel pt.b pb.b pt.a < 256)]
  exact ⟨trivial, ⟨hr.1, hr.2.1⟩, ⟨hg.1, hg.2.1⟩, ⟨hbl.1, hbl.2.1⟩⟩

/-- Witness of C13, amended: the white frame under the black frame of alpha 128
renders with alpha 255 and red 126, within 1.5 of the mean 127.5. -/
theorem renderFrameAt_half_blend_witness :
    ((overlayTimeline.renderFrameAt counterReader blendStore 1 1 1).1.getPixel 0 0).a = 255 ∧
    (halfBlackFrame.getPixel (sourceCoord 0 halfBlackFrame.width 1)
          (sourceCoord 0 halfBlackFrame.height 1)).r
        + (whiteFrame.getPixel (sourceCoord 0 whiteFrame.width 1)
          (sourceCoord 0 whiteFrame.height 1)).r
      ≤ 2 * ((overlayTimeline.renderFrameAt counterReader blendStore 1 1 1).1.getPixel 0 0).r
        + 3 := by
  have h := renderFrameAt_half_blend counterReader overlayTimeline blendStore 1 1 1
    clipTrack overlayTrack clipEntry overlayEntry whiteFrame halfBlackFrame rfl rfl rfl
    (clipTrack_active 1 (by norm_num) (by norm_num))
    (overlayTrack_active 1 (by norm_num) (by norm_num))
    (by rw [blendStore_frames.1])
    (by rw [blendStore_frames.1, blendStore_frames.2])
    (by
      refine ⟨rfl, by decide, by decide, ?_⟩
      intro p hp
      have hpe : p = ⟨255, 255, 255, 255⟩ := by simpa [whiteFrame] using hp
      rw [hpe]
      decide)
    (by
      intro p hp
      have hpe : p = ⟨255, 255, 255, 255⟩ := by simpa [whiteFrame] using hp
      rw [hpe])
    (by
      refine ⟨rfl, by decide, by decide, ?_⟩
      intro p hp
      have hpe : p = ⟨0, 0, 0, 128⟩ := by simpa [halfBlackFrame] using hp
      rw [hpe]
      decide)
    (by
      intro p hp
      have hpe : p = ⟨0, 0, 0, 128⟩ := by simpa [halfBlackFrame] using hp
      rw [hpe]
      exact Or.inr rfl)
    0 0 (by decide) (by decide)
  exact ⟨h.1, h.2.1.1⟩

/-! ## The frame rate of a constructed video -/

theorem new_frameRate_of_opened {D : Type} (rd : VideoReader D) (closed : D)
    (s : OpenedStream D) :
    (Video.new rd closed (some s)).frameRate =
      if f64Div 1 s.timeBase > 60 ∨ f64Div 1 s.timeBase < 1 then 30
      else f64Div 1 s.timeBase := by
  unfold Video.new
  simp only []
  rcases hr : rd.readFrame s.videoState with ⟨_ | ⟨img, pts⟩, d⟩
  · rw [readFrame_of_none rd _ d hr]
  · rw [readFrame_of_some rd _ img pts d hr]

theorem new_frameRate_eq_spec {D : Type} (rd : VideoReader D) (closed : D)
    (s : OpenedStream D) :
    (Video.new rd closed (some s)).frameRate = specFrameRate s.timeBase := by
  rw [new_frameRate_of_opened]
  unfold specFrameRate
  by_cases h : f64Div 1 s.timeBase > 60 ∨ f64Div 1 s.timeBase < 1
  · rw [if_pos h, if_neg]
    rintro ⟨h1, h60⟩
    rcases h with h | h
    · exact absurd h60 (not_le.mpr h)
    · exact absurd h1 (not_le.mpr h)
  · rw [if_neg h, if_pos]
    exact ⟨not_lt.mp (fun hc => h (Or.inr hc)), not_lt.mp (fun hc => h (Or.inl hc))⟩

theorem specFrameRate_bounds (timeBase : ℚ) :
    1 ≤ specFrameRate timeBase ∧ specFrameRate timeBase ≤ 60 := by
  unfold specFrameRate
  by_cases h : 1 ≤ f64Div 1 timeBase ∧ f64Div 1 timeBase ≤ 60
  · rw [if_pos h]; exact h
  · rw [if_neg h]; constructor <;> norm_num

theorem runVideoOps_frameRate {D : Type} (rd : VideoReader D) (v : Video D)
    (ops : List VideoOp) : (runVideoOps rd v ops).frameRate = v.frameRate := by
  induction ops generalizing v with
  | nil => rfl
  | cons op rest ih =>
    unfold runVideoOps
    rw [ih]
    cases op with
    | nextFrame time => exact nextFrame_frameRate rd v time
    | seekFrame time => exact (seekFrame_frameRate_calls rd v time).1

/-- C21: a constructed video has the frame rate `1 / timeBase` (as computed, in
`double`) of the opened stream when that value lies in `[1, 60]` and 30
otherwise, also when the stream failed to open; no later call of `nextFrame` or
`seekFrame` changes it, so in every state `1 <= getFramesPerSecond() <= 60`, and
the thresholds `1/frameRate` and `2/frameRate` of `nextFrame` are quotients by a
non-zero number and positive, exactly and as computed. -/
theorem constructed_frameRate {D : Type} (rd : VideoReader D) (closed : D)
    (opened : Option (OpenedStream D)) (ops : List VideoOp) :
    (runVideoOps rd (Video.new rd closed opened) ops).getFramesPerSecond =
      (match opened with
       | some s => specFrameRate s.timeBase
       | none => 30) ∧
    1 ≤ (runVideoOps rd (Video.new rd closed opened) ops).getFramesPerSecond ∧
    (runVideoOps rd (Video.new rd closed opened) ops).getFramesPerSecond ≤ 60 ∧
    (runVideoOps rd (Video.new rd closed opened) ops).frameRate ≠ 0 ∧
    0 < 1 / (runVideoOps rd (Video.new rd closed opened) ops).frameRate ∧
    0 < 2 / (runVideoOps rd (Video.new rd closed opened) ops).frameRate ∧
    0 < f64Div 1 (runVideoOps rd (Video.new rd closed opened) ops).frameRate ∧
    0 < f64Div 2 (runVideoOps rd (Video.new rd closed opened) ops).frameRate := by
  have hrate : (runVideoOps rd (Video.new rd closed opened) ops).frameRate =
      (match opened with
       | some s => specFrameRate s.timeBase
       | none => 30) := by
    rw [runVideoOps_frameRate]
    cases opened with
    | none => rfl
    | some s => exact new_frameRate_eq_spec rd closed s
  have hbounds : 1 ≤ (runVideoOps rd (Video.new rd closed opened) ops).frameRate ∧
      (runVideoOps rd (Video.new rd closed opened) ops).frameRate ≤ 60 := by
    rw [hrate]
    cases opened with
    | none => constructor <;> norm_num
    | some s => exact specFrameRate_bounds s.timeBase
  have hpos : 0 < (runVideoOps rd (Video.new rd closed opened) ops).frameRate :=
    lt_of_lt_of_le one_pos hbounds.1
  have hmax : (runVideoOps rd (Video.new rd closed opened) ops).frameRate < 2 ^ 1024 :=
    lt_of_le_of_lt hbounds.2 (by norm_num)
  have h1 := f64Div_one_pos hpos hmax
  have h2 : f64Div 1 (runVideoOps rd (Video.new rd closed opened) ops).frameRate ≤
      f64Div 2 (runVideoOps rd (Video.new rd closed opened) ops).frameRate :=
    roundDouble_mono (div_le_div_of_nonneg_right one_le_two (le_of_lt hpos))
  exact ⟨hrate, hbounds.1, hbounds.2, ne_of_gt hpos, div_pos one_pos hpos,
    div_pos two_pos hpos, h1, lt_of_lt_of_le h1 h2⟩

/-- The frame rates of three constructed videos: 25 for a time base of `1.0 / 25`,
30 for a time base of one millisecond, 30 after a failed open. -/
theorem constructed_frameRate_examples :
    (Video.new counterReader 0 (some stream25)).frameRate = 25 ∧
    (Video.new counterReader 0 (some streamMillis)).frameRate = 30 ∧
    (Video.new counterReader 0 none).frameRate = 30 := by
  have h25 : f64Div 1 (f64Div 1 25) = 25 := by
    have h : f64Div 1 25 = 5764607523034235 / 144115188075855872 := by
      unfold f64Div
      rw [roundDouble_of_nearest (-5) 5764607523034235 (by norm_num) (by norm_num) (by norm_num)
        (by norm_num) (by norm_num) (by norm_num)]
      norm_num
    rw [h]
    unfold f64Div
    rw [roundDouble_of_nearest 4 7036874417766400 (by norm_num) (by norm_num) (by norm_num)
      (by norm_num) (by norm_num) (by norm_num)]
    norm_num
  have h1000 : f64Div 1 (f64Div 1 1000) = 1000 := by
    have h : f64Div 1 1000 = 1152921504606847 / 1152921504606846976 := by
      unfold f64Div
      rw [roundDouble_of_nearest (-10) 4611686018427388 (by norm_num) (by norm_num) (by norm_num)
        (by norm_num) (by norm_num) (by norm_num)]
      norm_num
    rw [h]
    unfold f64Div
    rw [roundDouble_of_nearest 9 8796093022208000 (by norm_num) (by norm_num) (by norm_num)
      (by norm_num) (by norm_num) (by norm_num)]
    norm_num
  refine ⟨?_, ?_, rfl⟩
  · rw [new_frameRate_eq_spec]
    show specFrameRate (f64Div 1 25) = 25
    unfold specFrameRate
    rw [h25]
    norm_num
  · rw [new_frameRate_eq_spec]
    show specFrameRate (f64Div 1 1000) = 30
    unfold specFrameRate
    rw [h1000]
    norm_num

/-! ## The value returned by `nextFrame` -/

/-- C30: `nextFrame(t)` returns `false` exactly when it takes the sequential
branch (no jump, at least `1/frameRate` since the last decoded frame, the three
tests being those of the code on the computed `t - lastFrameTime`,
`2.0 / frameRate` and `1.0 / frameRate`) and the decoder read fails.  A query in
a seek branch returns `true` together with whatever `seekFrame` made of the
video, so the returned flag is the same for a successful seek, a fallback to
position 0 and a total seek failure. -/
theorem nextFrame_false_iff {D : Type} (rd : VideoReader D) (v : Video D) (time : ℚ) :
    ((Video.nextFrame rd v time).1 = false ↔
      (¬ f64Sub time v.lastFrameTime < -(f64Div 2 v.frameRate) ∧
        ¬ f64Sub time v.lastFrameTime > 1 ∧
        f64Sub time v.lastFrameTime ≥ f64Div 1 v.frameRate ∧
        (rd.readFrame v.videoState).1 = none)) ∧
    (f64Sub time v.lastFrameTime < -(f64Div 2 v.frameRate) ∨
        f64Sub time v.lastFrameTime > 1 →
      Video.nextFrame rd v time = (true, Video.seekFrame rd v time)) := by
  refine ⟨?_, nextFrame_of_jump rd v time⟩
  by_cases hb : f64Sub time v.lastFrameTime < -(f64Div 2 v.frameRate)
  · rw [nextFrame_of_backward rd v time hb]
    exact ⟨fun h => absurd h Bool.noConfusion, fun h => absurd hb h.1⟩
  · by_cases hf : f64Sub time v.lastFrameTime > 1
    · rw [nextFrame_of_forward rd v time hf]
      exact ⟨fun h => absurd h Bool.noConfusion, fun h => absurd hf h.2.1⟩
    · by_cases hs : f64Sub time v.lastFrameTime ≥ f64Div 1 v.frameRate
      · rw [nextFrame_of_sequential rd v time hb hf hs]
        rcases hr : rd.readFrame v.videoState with ⟨_ | ⟨img, pts⟩, d⟩
        · rw [readFrame_of_none rd v d hr]
          exact ⟨fun _ => ⟨hb, hf, hs, rfl⟩, fun _ => rfl⟩
        · rw [readFrame_of_some rd v img pts d hr]
          exact ⟨fun h => absurd h Bool.noConfusion, fun h => absurd h.2.2.2 (by simp)⟩
      · rw [nextFrame_of_window rd v time hb hf hs]
        exact ⟨fun h => absurd h Bool.noConfusion, fun h => absurd h.2.2.1 hs⟩

/-- Witness of C30: a query at 0.5 on a video last decoded at time 5 returns
`true` with a decoder whose seeks succeed, with one whose seeks succeed to
position 0 only, and with one whose seeks all fail; a query at 0.5 on a video
last decoded at time 0 returns `false` when the read fails. -/
theorem nextFrame_false_iff_witness :
    (Video.nextFrame counterReader (videoAt 5) (1 / 2)).1 = true ∧
    (Video.nextFrame startOnlyReader (videoAt 5) (1 / 2)).1 = true ∧
    (Video.nextFrame noSeekReader (videoAt 5) (1 / 2)).1 = true ∧
    (Video.nextFrame noReadReader (videoAt 0) (1 / 2)).1 = false := by
  have hback : f64Sub (1 / 2) 5 = -(9 / 2) := by
    rw [f64Sub_exact (1 / 2) 5 (-9) 1 (by norm_num) (by norm_num) (by norm_num)]
    norm_num
  have hjump : f64Sub (1 / 2) (videoAt 5).lastFrameTime < -(f64Div 2 (videoAt 5).frameRate) ∨
      f64Sub (1 / 2) (videoAt 5).lastFrameTime > 1 := by
    left
    show f64Sub (1 / 2) 5 < -(f64Div 2 30)
    rw [hback, f64Div_two_30]
    norm_num
  obtain ⟨hb, hf, hs⟩ := sequential_guards (videoAt 0) (1 / 2) (by norm_num [videoAt])
    (by norm_num [videoAt]) (by norm_num [videoAt])
  refine ⟨?_, ?_, ?_, ?_⟩
  · rw [(nextFrame_false_iff counterReader (videoAt 5) (1 / 2)).2 hjump]
  · rw [(nextFrame_false_iff startOnlyReader (videoAt 5) (1 / 2)).2 hjump]
  · rw [(nextFrame_false_iff noSeekReader (videoAt 5) (1 / 2)).2 hjump]
  · exact (nextFrame_false_iff noReadReader (videoAt 0) (1 / 2)).1.mpr ⟨hb, hf, hs, rfl⟩

/-! ## The source coordinates of `compositeImages` -/

theorem wrapInt_of_lt (n : Int) (h0 : 0 ≤ n) (h1 : n < 2147483648) : wrapInt n = n := by
  unfold wrapInt
  omega

theorem sourceCoord_of_pos (x topSize bottomSize : Nat) (htop : 0 < topSize)
    (hx : x < bottomSize) (hfit : x * topSize < 2147483648) :
    sourceCoord x topSize bottomSize = ((x * topSize / bottomSize : Nat) : Int) ∧
    x * topSize / bottomSize < topSize := by
  have hlt : x * topSize / bottomSize < topSize := by
    rw [Nat.div_lt_iff_lt_mul (by omega : 0 < bottomSize)]
    have h := Nat.mul_lt_mul_of_lt_of_le hx (le_refl topSize) htop
    rw [Nat.mul_comm topSize]
    exact h
  refine ⟨?_, hlt⟩
  unfold sourceCoord
  have hw : wrapInt ((x : Int) * (topSize : Int)) = ((x * topSize : Nat) : Int) := by
    rw [wrapInt_of_lt _ (by positivity) (by exact_mod_cast hfit)]
    push_cast
    rfl
  rw [hw]
  have hdiv : Int.tdiv ((x * topSize : Nat) : Int) (bottomSize : Int) =
      ((x * topSize / bottomSize : Nat) : Int) := rfl
  rw [hdiv]
  exact min_eq_left (by omega)

/-- The products formed for the pixels of a canvas stay below the product of the
two sizes. -/
theorem mul_lt_of_lt_size (x size topSize : Nat) (hx : x < size)
    (hfit : size * topSize < 2147483648) : x * topSize < 2147483648 :=
  lt_of_le_of_lt (Nat.mul_le_mul_right topSize (le_of_lt hx)) hfit

theorem getPixel_eq_pixelIndex (img : Image) (x y : Int) :
    img.getPixel x y = img.pixels.getD (img.pixelIndex x y).toNat ⟨0, 0, 0, 0⟩ := rfl

theorem pixelIndex_of_lt (img : Image) (x y : Nat) (hx : x < img.width) (hy : y < img.height) :
    img.pixelIndex x y = ((x + img.width * y : Nat) : Int) := by
  unfold Image.pixelIndex
  rw [min_eq_left (by omega), max_eq_right (by omega), min_eq_left (by omega),
    max_eq_right (by omega)]
  push_cast
  ring

/-- The read that `compositeImages` makes for a canvas pixel lies inside the
buffer of a top image with at least one pixel, when the coordinate products are
in the range of `int`. -/
theorem pixelIndex_sourceCoord_lt (top : Image) (x y dstW dstH : Nat) (hsz : top.WellSized)
    (hw : 0 < top.width) (hh : 0 < top.height) (hx : x < dstW) (hy : y < dstH)
    (hfx : x * top.width < 2147483648) (hfy : y * top.height < 2147483648) :
    0 ≤ top.pixelIndex (sourceCoord x top.width dstW) (sourceCoord y top.height dstH) ∧
    top.pixelIndex (sourceCoord x top.width dstW) (sourceCoord y top.height dstH)
      < top.pixels.length := by
  obtain ⟨hxe, hxl⟩ := sourceCoord_of_pos x top.width dstW hw hx hfx
  obtain ⟨hye, hyl⟩ := sourceCoord_of_pos y top.height dstH hh hy hfy
  rw [hxe, hye, pixelIndex_of_lt top _ _ hxl hyl]
  refine ⟨Int.ofNat_nonneg _, ?_⟩
  have := index_lt_of_lt hxl hyl
  rw [hsz]
  exact_mod_cast this

/-- C28: for a source frame with at least one pixel per axis (and coordinate
products `x * srcW`, `y * srcH` in the range of `int`) the source coordinates
computed by `compositeImages` lie in `[0, srcW)` and `[0, srcH)` and the pixel
read lies inside the source buffer.  For a source frame without pixels (width
0, as `Image()` and an image whose file failed to load have) the computed
coordinate is `-1`, and the read that follows is at position 0 of a buffer of
length 0.  For a source 60000 pixels wide on a canvas 65536 pixels wide the
product at `x = 40000` exceeds the range of `int`, and with the two's complement
result the computed coordinate is negative. -/
theorem sourceCoord_range :
    (∀ x srcW dstW : Nat, 0 < srcW → x < dstW → x * srcW < 2147483648 →
      0 ≤ sourceCoord x srcW dstW ∧ sourceCoord x srcW dstW < srcW) ∧
    (∀ (top : Image) (x y dstW dstH : Nat), top.WellSized → 0 < top.width → 0 < top.height →
      x < dstW → y < dstH → x * top.width < 2147483648 → y * top.height < 2147483648 →
      0 ≤ top.pixelIndex (sourceCoord x top.width dstW) (sourceCoord y top.height dstH) ∧
      top.pixelIndex (sourceCoord x top.width dstW) (sourceCoord y top.height dstH)
        < top.pixels.length) ∧
    (∀ x dstW : Nat, sourceCoord x 0 dstW = -1) ∧
    Image.empty.pixelIndex (sourceCoord 0 Image.empty.width 1)
      (sourceCoord 0 Image.empty.height 1) = 0 ∧
    Image.empty.pixels.length = 0 ∧
    sourceCoord 40000 60000 65536 = -28914 := by
  refine ⟨?_, ?_, ?_, by decide, rfl, by decide⟩
  · intro x srcW dstW hs hx hfit
    obtain ⟨heq, hlt⟩ := sourceCoord_of_pos x srcW dstW hs hx hfit
    rw [heq]
    exact ⟨Int.ofNat_nonneg _, by exact_mod_cast hlt⟩
  · intro top x y dstW dstH hsz hw hh hx hy hfx hfy
    exact pixelIndex_sourceCoord_lt top x y dstW dstH hsz hw hh hx hy hfx hfy
  · intro x dstW
    unfold sourceCoord wrapInt
    simp

/-- Witness of C28: the four source coordinates of a 2 by 2 frame drawn on a 4
pixel wide canvas, and the coordinate computed for the frame without pixels. -/
theorem sourceCoord_range_witness :
    (0 ≤ sourceCoord 3 2 4 ∧ sourceCoord 3 2 4 < 2) ∧ sourceCoord 3 0 4 = -1 :=
  ⟨sourceCoord_range.1 3 2 4 (by decide) (by decide) (by decide),
    sourceCoord_range.2.2.1 3 4⟩

/-! ## An opaque top layer -/

theorem blendChannel_alpha255 (t b : Nat) (ht : t < 256) : blendChannel t b 255 = t := by
  have hbeta : (F32.ofNat 1).sub (alphaOf 255) = ⟨0, 0⟩ := by decide
  have hzero : ∀ x : F32, x.mul ⟨0, 0⟩ = ⟨0, 0⟩ := by
    intro x
    simp [F32.mul, f32Round]
  have hsame : blendChannel t b 255 = blendChannel t 32 255 := by
    unfold blendChannel
    simp only [hbeta, hzero]
  rw [hsame]
  exact blendChannel_opaque_on_gray t ht

theorem blendPixel_alpha255 (p c : Color) (hr : p.r < 256) (hg : p.g < 256)
    (hb : p.b < 256) (ha : p.a = 255) : blendPixel p c = p := by
  unfold blendPixel
  rw [ha, blendChannel_alpha255 p.r c.r hr, blendChannel_alpha255 p.g c.g hg,
    blendChannel_alpha255 p.b c.b hb]
  unfold Color.ofInts
  rw [Nat.mod_eq_of_lt hr, Nat.mod_eq_of_lt hg, Nat.mod_eq_of_lt hb]
  cases p with
  | mk r g b a =>
    simp only at ha
    rw [ha]

theorem foldl_compositeImages_shape (frames : List Image) (canvas : Image)
    (hsz : canvas.WellSized) :
    (frames.foldl compositeImages canvas).width = canvas.width ∧
    (frames.foldl compositeImages canvas).height = canvas.height ∧
    (frames.foldl compositeImages canvas).WellSized := by
  induction frames generalizing canvas with
  | nil => exact ⟨rfl, rfl, hsz⟩
  | cons f fs ih =>
    obtain ⟨hw, hh, hs, _⟩ := compositeImages_spec canvas f hsz
    obtain ⟨hw2, hh2, hs2⟩ := ih (compositeImages canvas f) hs
    rw [List.foldl_cons]
    exact ⟨by rw [hw2, hw], by rw [hh2, hh], hs2⟩

theorem backgroundCanvas_dims (width height : Nat) :
    (backgroundCanvas width height).width = width ∧
    (backgroundCanvas width height).height = height := by
  rw [backgroundCanvas_eq]
  exact ⟨rfl, rfl⟩

/-- Drawing a list of entries whose last one delivers `top`: the result is the
composite of `top` onto a canvas of the requested size. -/
theorem renderFrameAt_last {D : Type} (rd : VideoReader D) (tl : Timeline)
    (store : AssetStore D) (time : ℚ) (width height : Nat)
    (lower : List TimelineEntry) (topEntry : TimelineEntry)
    (hact : tl.activeVisibleEntries time = lower ++ [topEntry]) :
    ∃ canvas : Image, canvas.width = width ∧ canvas.height = height ∧ canvas.WellSized ∧
      (tl.renderFrameAt rd store time width height).1 =
        compositeImages canvas
          (topEntry.getFrameAt rd (requestFrames rd time lower store).2 time).1 := by
  refine ⟨(requestFrames rd time lower store).1.foldl compositeImages
    (backgroundCanvas width height), ?_, ?_, ?_, ?_⟩
  · rw [(foldl_compositeImages_shape _ _ (backgroundCanvas_wellSized width height)).1]
    exact (backgroundCanvas_dims width height).1
  · rw [(foldl_compositeImages_shape _ _ (backgroundCanvas_wellSized width height)).2.1]
    exact (backgroundCanvas_dims width height).2
  · exact (foldl_compositeImages_shape _ _ (backgroundCanvas_wellSized width height)).2.2
  · unfold Timeline.renderFrameAt
    rw [renderTracks_eq_foldl]
    unfold Timeline.activeVisibleEntries at hact
    rw [hact, List.foldl_append, foldl_renderStep_eq rd time lower, foldl_renderStep_eq]
    simp only [requestFrames, List.foldl_cons, List.foldl_nil]

theorem quadStore_frames :
    clipEntry.getFrameAt counterReader quadStore 1 = (halfBlackFrame, quadStore) ∧
    overlayEntry.getFrameAt counterReader quadStore 1 = (quadFrame, quadStore) :=
  ⟨getFrameAt_still counterReader quadStore clipEntry 1 halfBlackFrame rfl,
   getFrameAt_still counterReader quadStore overlayEntry 1 quadFrame rfl⟩

theorem overlayTimeline_entries :
    overlayTimeline.activeVisibleEntries 1 = [clipEntry] ++ [overlayEntry] := by
  have hv1 : clipTrack.visible = true := rfl
  have hv2 : overlayTrack.visible = true := rfl
  unfold Timeline.activeVisibleEntries overlayTimeline
  rw [List.filterMap_cons, if_pos hv1, clipTrack_active 1 (by norm_num) (by norm_num),
    List.filterMap_cons, if_pos hv2, overlayTrack_active 1 (by norm_num) (by norm_num)]
  rfl

theorem quadFrame_isFrame : quadFrame.IsFrame ∧ ∀ p ∈ quadFrame.pixels, p.a = 255 := by
  refine ⟨⟨rfl, by decide, by decide, ?_⟩, ?_⟩
  · intro p hp
    simp only [quadFrame, List.mem_cons, List.mem_singleton, List.mem_nil_iff, or_false] at hp
    rcases hp with h | h | h | h <;> rw [h] <;> decide
  · intro p hp
    simp only [quadFrame, List.mem_cons, List.mem_singleton, List.mem_nil_iff, or_false] at hp
    rcases hp with h | h | h | h <;> rw [h]

/-- C29: when the last of the entries drawn at `t` (the active entry of the
highest visible track that has one) delivers a frame `top` with at least one
pixel, all pixels of alpha 255, and every frame delivered below it has at least
one pixel too (sizes and coordinate products being in the range of `int`), then
`renderFrameAt(t, w, h)` is the `w` by `h` image whose pixel `(x, y)` is the
pixel `(x * srcW / w, y * srcH / h)` of `top`, with alpha 255, whatever the
background and the lower tracks drew, and every pixel read from a delivered
frame lies inside its buffer.  A lower track that delivers a frame without
pixels (an image whose file failed to load) is outside this: under the opaque
2 by 2 frame, on a 4 by 2 canvas, the read made for the canvas pixel (0, 0) is
at position 0 of a buffer of length 0. -/
theorem renderFrameAt_opaque_top :
    (∀ (D : Type) (rd : VideoReader D) (tl : Timeline) (store : AssetStore D) (time : ℚ)
      (width height : Nat) (lower : List TimelineEntry) (topEntry : TimelineEntry)
      (top : Image),
      tl.activeVisibleEntries time = lower ++ [topEntry] →
      (topEntry.getFrameAt rd (requestFrames rd time lower store).2 time).1 = top →
      top.CompositesOnto width height → (∀ p ∈ top.pixels, p.a = 255) →
      (∀ img ∈ (requestFrames rd time lower store).1, img.CompositesOnto width height) →
      width * height * 4 < 2147483648 →
      (tl.renderFrameAt rd store time width height).1.width = width ∧
      (tl.renderFrameAt rd store time width height).1.height = height ∧
      (tl.renderFrameAt rd store time width height).1.WellSized ∧
      (∀ x y : Nat, x < width → y < height →
        (tl.renderFrameAt rd store time width height).1.getPixel x y =
          top.getPixel ((x * top.width / width : Nat) : Int)
            ((y * top.height / height : Nat) : Int) ∧
        ((tl.renderFrameAt rd store time width height).1.getPixel x y).a = 255) ∧
      (∀ img ∈ (requestFrames rd time lower store).1 ++ [top],
        ∀ x y : Nat, x < width → y < height →
          0 ≤ img.pixelIndex (sourceCoord x img.width width) (sourceCoord y img.height height) ∧
          img.pixelIndex (sourceCoord x img.width width) (sourceCoord y img.height height)
            < img.pixels.length)) ∧
    (overlayTimeline.activeVisibleEntries 1 = [clipEntry] ++ [overlayEntry] ∧
      (requestFrames counterReader 1 [clipEntry] missingFileStore).1 = [Image.empty] ∧
      (overlayEntry.getFrameAt counterReader
        (requestFrames counterReader 1 [clipEntry] missingFileStore).2 1).1 = quadFrame ∧
      quadFrame.CompositesOnto 4 2 ∧ (∀ p ∈ quadFrame.pixels, p.a = 255) ∧
      Image.empty.pixelIndex (sourceCoord 0 Image.empty.width 4)
        (sourceCoord 0 Image.empty.height 2) = 0 ∧
      Image.empty.pixels.length = 0) := by
  constructor
  · intro D rd tl store time width height lower topEntry top hact htop htopc hsolid hlayers _
    have hframe := htopc.1
    obtain ⟨canvas, hcw, hch, hcs, hres⟩ :=
      renderFrameAt_last rd tl store time width height lower topEntry hact
    rw [htop] at hres
    obtain ⟨hw, hh, hs, hpix⟩ := compositeImages_spec canvas top hcs
    rw [hres]
    refine ⟨by rw [hw, hcw], by rw [hh, hch], hs, ?_, ?_⟩
    · intro x y hx hy
      have hpixel := hpix x y (by rw [hcw]; exact hx) (by rw [hch]; exact hy)
      rw [hcw, hch,
        (sourceCoord_of_pos x top.width width hframe.2.1 hx
          (mul_lt_of_lt_size x width top.width hx htopc.2.2.1)).1,
        (sourceCoord_of_pos y top.height height hframe.2.2.1 hy
          (mul_lt_of_lt_size y height top.height hy htopc.2.2.2)).1] at hpixel
      have hmem := getPixel_mem top hframe ((x * top.width / width : Nat) : Int)
        ((y * top.height / height : Nat) : Int)
      have hbytes := hframe.2.2.2 _ hmem
      have hblend := blendPixel_alpha255 _ (canvas.getPixel x y) hbytes.1 hbytes.2.1
        hbytes.2.2.1 (hsolid _ hmem)
      rw [hpixel, hblend]
      exact ⟨rfl, hsolid _ hmem⟩
    · intro img himg x y hx hy
      have hc : img.CompositesOnto width height := by
        rcases List.mem_append.mp himg with h | h
        · exact hlayers img h
        · rw [List.mem_singleton.mp h]; exact htopc
      exact pixelIndex_sourceCoord_lt img x y width height hc.1.1 hc.1.2.1 hc.1.2.2.1 hx hy
        (mul_lt_of_lt_size x width img.width hx hc.2.2.1)
        (mul_lt_of_lt_size y height img.height hy hc.2.2.2)
  · have h1 : clipEntry.getFrameAt counterReader missingFileStore 1 =
        (Image.empty, missingFileStore) :=
      getFrameAt_still counterReader missingFileStore clipEntry 1 Image.empty rfl
    have h2 : overlayEntry.getFrameAt counterReader missingFileStore 1 =
        (quadFrame, missingFileStore) :=
      getFrameAt_still counterReader missingFileStore overlayEntry 1 quadFrame rfl
    refine ⟨overlayTimeline_entries, ?_, ?_, ?_, quadFrame_isFrame.2, by decide, rfl⟩
    · show [(clipEntry.getFrameAt counterReader missingFileStore 1).1] = [Image.empty]
      rw [h1]
    · show (overlayEntry.getFrameAt counterReader
        (clipEntry.getFrameAt counterReader missingFileStore 1).2 1).1 = quadFrame
      rw [h1, h2]
    · exact ⟨quadFrame_isFrame.1, by decide, by decide, by decide⟩

theorem halfBlackFrame_compositesOnto : halfBlackFrame.CompositesOnto 4 2 := by
  refine ⟨⟨rfl, by decide, by decide, ?_⟩, by decide, by decide, by decide⟩
  intro p hp
  simp only [halfBlackFrame, List.mem_singleton] at hp
  rw [hp]
  decide

/-- Witness of C29: a 2 by 2 opaque frame on the upper track, above a
half-transparent black frame, rendered 4 by 2: the pixel (3, 1) is the source
pixel (1, 1) and the pixel (1, 0) the source pixel (0, 0). -/
theorem renderFrameAt_opaque_top_witness :
    (overlayTimeline.renderFrameAt counterReader quadStore 1 4 2).1.getPixel 3 1 =
      ⟨40, 0, 0, 255⟩ ∧
    (overlayTimeline.renderFrameAt counterReader quadStore 1 4 2).1.getPixel 1 0 =
      ⟨10, 0, 0, 255⟩ := by
  have h := renderFrameAt_opaque_top.1 Nat counterReader overlayTimeline quadStore 1 4 2
    [clipEntry] overlayEntry quadFrame overlayTimeline_entries
    (by
      show (overlayEntry.getFrameAt counterReader
        (clipEntry.getFrameAt counterReader quadStore 1).2 1).1 = quadFrame
      rw [quadStore_frames.1, quadStore_frames.2])
    ⟨quadFrame_isFrame.1, by decide, by decide, by decide⟩ quadFrame_isFrame.2
    (by
      intro img himg
      have hl : (requestFrames counterReader 1 [clipEntry] quadStore).1 = [halfBlackFrame] := by
        show [(clipEntry.getFrameAt counterReader quadStore 1).1] = [halfBlackFrame]
        rw [quadStore_frames.1]
      rw [hl] at himg
      rw [List.mem_singleton.mp himg]
      exact halfBlackFrame_compositesOnto)
    (by decide)
  exact ⟨(h.2.2.2.1 3 1 (by decide) (by decide)).1, (h.2.2.2.1 1 0 (by decide) (by decide)).1⟩

/-! ## The export driver -/

theorem renderLoop_renderFramePtr {D W : Type} (env : ExportEnv W) (rd : VideoReader D)
    (tl : Timeline) (frameRate : ℚ) (width height : Nat) (n i : Nat) (frames : List Image)
    (store : AssetStore D) (fac : ExportFacade) :
    ExportFacade.renderLoop env (Timeline.renderFramePtr rd) tl frameRate width height
        n i frames store fac =
      (some (frames ++ (renderedFrames rd tl frameRate width height n i store).1),
        (renderedFrames rd tl frameRate width height n i store).2,
        { fac with
          calls := fac.calls ++ renderCalls frameRate width height (List.range' i n) }) := by
  induction n generalizing i frames store fac with
  | zero => simp [ExportFacade.renderLoop, renderedFrames, renderCalls]
  | succ n ih =>
    unfold ExportFacade.renderLoop
    simp only [Timeline.renderFramePtr]
    rw [ih]
    simp [renderedFrames, renderCalls, List.range'_succ]

theorem renderedFrames_length {D : Type} (rd : VideoReader D) (tl : Timeline) (frameRate : ℚ)
    (width height : Nat) (n i : Nat) (store : AssetStore D) :
    (renderedFrames rd tl frameRate width height n i store).1.length = n := by
  induction n generalizing i store with
  | zero => rfl
  | succ n ih =>
    unfold renderedFrames
    simp only [List.length_cons]
    rw [ih]

theorem writeFrames_calls {W : Type} (env : ExportEnv W) (width height : Nat)
    (frames : List Image) (i : Nat) (writer : W) (fac : ExportFacade) :
    ∃ extra : List ExportCall,
      (ExportFacade.writeFrames env width height frames i writer fac).2.calls =
        fac.calls ++ extra ∧
      ∀ c ∈ extra, c.isEncoderCall = true := by
  induction frames generalizing i writer fac with
  | nil =>
    refine ⟨[ExportCall.writerClose], rfl, ?_⟩
    intro c hc
    rw [List.mem_singleton.mp hc]
    rfl
  | cons frame rest ih =>
    unfold ExportFacade.writeFrames
    by_cases hdim : frame.width ≠ width ∨ frame.height ≠ height
    · rw [if_pos hdim]
      exact ih (i + 1) writer fac
    · rw [if_neg hdim]
      rcases hw : env.writerWriteFrame writer frame with ⟨ok, writer1⟩
      cases ok with
      | false =>
        refine ⟨[ExportCall.writerWriteFrame frame, ExportCall.writerClose], rfl, ?_⟩
        intro c hc
        simp only [List.mem_cons, List.mem_singleton, List.mem_nil_iff, or_false] at hc
        rcases hc with h | h <;> rw [h] <;> rfl
      | true =>
        obtain ⟨extra, hcalls, hall⟩ := ih (i + 1) writer1
          { fac with calls := fac.calls ++ [ExportCall.writerWriteFrame frame] }
        refine ⟨ExportCall.writerWriteFrame frame :: extra, ?_, ?_⟩
        · simp only []
          rw [hcalls]
          simp
        · intro c hc
          rcases List.mem_cons.mp hc with h | h
          · rw [h]; rfl
          · exact hall c h

theorem exportVideo_calls {W : Type} (env : ExportEnv W) (fac : ExportFacade)
    (frames : List Image) (filename : String) (settings : ExportSettings) :
    ∃ extra : List ExportCall,
      (ExportFacade.exportVideo env fac frames filename settings).2.calls =
        fac.calls ++ extra ∧
      ∀ c ∈ extra, c.isEncoderCall = true := by
  cases frames with
  | nil => exact ⟨[], by simp [ExportFacade.exportVideo], by simp⟩
  | cons first rest =>
    unfold ExportFacade.exportVideo
    simp only []
    cases hopen : env.writerOpen filename first.width first.height
        (castInt settings.frameRate) with
    | none =>
      refine ⟨[ExportCall.writerOpen filename first.width first.height
        (castInt settings.frameRate)], rfl, ?_⟩
      intro c hc
      rw [List.mem_singleton.mp hc]
      rfl
    | some writer =>
      obtain ⟨extra, hcalls, hall⟩ := writeFrames_calls env first.width first.height
        (first :: rest) 0 writer
        { fac with calls := fac.calls ++ [ExportCall.writerOpen filename first.width
            first.height (castInt settings.frameRate)] }
      refine ⟨ExportCall.writerOpen filename first.width first.height
        (castInt settings.frameRate) :: extra, ?_, ?_⟩
      · simp only []
        rw [hcalls]
        simp
      · intro c hc
        rcases List.mem_cons.mp hc with h | h
        · rw [h]; rfl
        · exact hall c h

theorem truncToInt_toNat_of_nonneg (q : ℚ) (h : 0 ≤ q) : (truncToInt q).toNat = ⌊q⌋₊ := by
  unfold truncToInt
  rw [if_pos h, Int.floor_toNat]

theorem castInt_toNat (q : ℚ) (h0 : 0 ≤ q) (h1 : q < 2147483648) :
    (castInt q).toNat = ⌊q⌋₊ := by
  unfold castInt
  rw [if_pos ⟨by linarith, h1⟩]
  exact truncToInt_toNat_of_nonneg q h0

theorem filter_isRenderCall_of_encoder (extra : List ExportCall)
    (h : ∀ c ∈ extra, c.isEncoderCall = true) :
    extra.filter ExportCall.isRenderCall = [] := by
  rw [List.filter_eq_nil_iff]
  intro c hc
  have := h c hc
  cases c <;> simp_all [ExportCall.isEncoderCall, ExportCall.isRenderCall]

theorem filter_isRenderCall_renders (frameRate : ℚ) (width height : Nat) (l : List Nat) :
    (renderCalls frameRate width height l).filter ExportCall.isRenderCall =
      renderCalls frameRate width height l := by
  rw [List.filter_eq_self]
  intro c hc
  obtain ⟨j, _, rfl⟩ := List.mem_map.mp hc
  rfl

theorem mp4_export_eq {D W : Type} (rd : VideoReader D) (env : ExportEnv W)
    (fac : ExportFacade) (tl : Timeline) (store : AssetStore D) (filename : String)
    (settings : ExportSettings) (width height : Nat)
    (hfmt : settings.format = ExportFormat.MP4) (hd : 0 < tl.getTotalDuration)
    (hr : 0 < settings.frameRate)
    (hrange : f64Mul tl.getTotalDuration settings.frameRate < 2147483648) :
    ExportFacade.exportTimeline env (Timeline.renderFramePtr rd) fac (some tl) store filename
        settings width height =
      ((ExportFacade.exportVideo env
          (afterRenders fac settings.frameRate width height
            ⌊f64Mul tl.getTotalDuration settings.frameRate⌋₊)
          (renderedFrames rd tl settings.frameRate width height
            ⌊f64Mul tl.getTotalDuration settings.frameRate⌋₊ 0 store).1 filename settings).1,
        (ExportFacade.exportVideo env
          (afterRenders fac settings.frameRate width height
            ⌊f64Mul tl.getTotalDuration settings.frameRate⌋₊)
          (renderedFrames rd tl settings.frameRate width height
            ⌊f64Mul tl.getTotalDuration settings.frameRate⌋₊ 0 store).1 filename settings).2,
        (renderedFrames rd tl settings.frameRate width height
          ⌊f64Mul tl.getTotalDuration settings.frameRate⌋₊ 0 store).2) := by
  have hnonneg : 0 ≤ f64Mul tl.getTotalDuration settings.frameRate :=
    roundDouble_nonneg (le_of_lt (mul_pos hd hr))
  unfold ExportFacade.exportTimeline
  simp only []
  rw [if_neg (not_le.mpr hd), if_neg (by rw [hfmt]; exact fun h => h rfl),
    renderLoop_renderFramePtr, castInt_toNat _ hnonneg hrange, ← List.range_eq_range']
  rfl

theorem render_calls_of_mp4_export {D W : Type} (rd : VideoReader D) (env : ExportEnv W)
    (fac : ExportFacade) (tl : Timeline) (store : AssetStore D) (filename : String)
    (settings : ExportSettings) (width height : Nat)
    (hfmt : settings.format = ExportFormat.MP4) (hd : 0 < tl.getTotalDuration)
    (hr : 0 < settings.frameRate)
    (hrange : f64Mul tl.getTotalDuration settings.frameRate < 2147483648) :
    (ExportFacade.exportTimeline env (Timeline.renderFramePtr rd) fac (some tl) store filename
        settings width height).2.1.calls.filter ExportCall.isRenderCall =
      fac.calls.filter ExportCall.isRenderCall ++
        renderCalls settings.frameRate width height
          (List.range ⌊f64Mul tl.getTotalDuration settings.frameRate⌋₊) := by
  rw [mp4_export_eq rd env fac tl store filename settings width height hfmt hd hr hrange]
  obtain ⟨extra, hcalls, hall⟩ := exportVideo_calls env
    (afterRenders fac settings.frameRate width height
      ⌊f64Mul tl.getTotalDuration settings.frameRate⌋₊)
    (renderedFrames rd tl settings.frameRate width height
      ⌊f64Mul tl.getTotalDuration settings.frameRate⌋₊ 0 store).1 filename settings
  show (ExportFacade.exportVideo env _ _ filename settings).2.calls.filter _ = _
  rw [hcalls]
  unfold afterRenders
  simp only [List.filter_append]
  rw [filter_isRenderCall_of_encoder extra hall, filter_isRenderCall_renders, List.append_nil]

theorem roundDouble_seven_tenths :
    roundDouble (7 / 10) = 3152519739159347 / 4503599627370496 := by
  rw [roundDouble_of_nearest (-1) 6305039478318694 (by norm_num) (by norm_num) (by norm_num)
    (by norm_num) (by norm_num) (by norm_num)]
  norm_num

theorem shortClipTimeline_duration :
    shortClipTimeline.getTotalDuration = 3152519739159347 / 4503599627370496 := by
  have hrep : roundDouble (3152519739159347 / 4503599627370496) =
      3152519739159347 / 4503599627370496 := by
    have h := roundDouble_div_two_pow 3152519739159347 52 (by norm_num) (by norm_num)
    norm_num at h ⊢
    exact h
  have hend : shortClipEntry.getEndTime = 3152519739159347 / 4503599627370496 := by
    unfold TimelineEntry.getEndTime f64Add shortClipEntry
    simp only []
    rw [roundDouble_seven_tenths, zero_add, hrep]
  have h : shortClipTrack.getTotalDuration = 3152519739159347 / 4503599627370496 := by
    simp only [Track.getTotalDuration, Track.maxEndTimeLoop, shortClipTrack, hend]
    norm_num
  unfold Timeline.getTotalDuration shortClipTimeline
  simp only [List.foldl_cons, List.foldl_nil, h]
  norm_num

/-- The `double` product of 0.7 and 10 is 7: the exact product lies half a unit in
the last place below 7 and the tie goes to the even neighbour. -/
theorem f64Mul_seven_tenths_ten :
    f64Mul (3152519739159347 / 4503599627370496) 10 = 7 := by
  unfold f64Mul
  rw [roundDouble_eq_of_exponent 2 (by norm_num) (by norm_num) (by norm_num) (by norm_num)]
  have h : (3152519739159347 / 4503599627370496 * 10 : ℚ) / 2 ^ ((2 : ℤ) - 52) =
      ((7881299347898368 : ℤ) : ℚ) - 1 / 2 := by norm_num
  rw [h, (roundTiesEven_tie 7881299347898368 (by norm_num)).2]
  norm_num

/-- C22 as stated fails: a timeline holding one clip of 0.7 s, exported as MP4 at
ten frames per second.  The duration `d` and the rate `r` are positive and
`floor(d * r)` is 6, but the `double` product `d * r` is 7 and the export makes
seven render calls; and the call for frame 1 is made at the `double` quotient
`1 / 10`, which is not the number 1/10. -/
theorem export_renders_seven_frames :
    0 < shortClipTimeline.getTotalDuration ∧ 0 < mp4Settings10.frameRate ∧
    ⌊shortClipTimeline.getTotalDuration * mp4Settings10.frameRate⌋₊ = 6 ∧
    (ExportFacade.exportTimeline okEnv (Timeline.renderFramePtr counterReader)
        ExportFacade.new (some shortClipTimeline) stillStore mp4File mp4Settings10
        2 1).2.1.calls.filter ExportCall.isRenderCall =
      renderCalls 10 2 1 [0, 1, 2, 3, 4, 5, 6] ∧
    (renderCalls 10 2 1 [0, 1, 2, 3, 4, 5, 6]).length = 7 ∧
    f64Div 1 10 ≠ 1 / 10 := by
  have hmul : f64Mul shortClipTimeline.getTotalDuration mp4Settings10.frameRate = 7 := by
    rw [shortClipTimeline_duration]
    exact f64Mul_seven_tenths_ten
  refine ⟨?_, ?_, ?_, ?_, rfl, ?_⟩
  · rw [shortClipTimeline_duration]; norm_num
  · norm_num [mp4Settings10]
  · rw [shortClipTimeline_duration]
    have h : (3152519739159347 / 4503599627370496 : ℚ) * mp4Settings10.frameRate =
        15762598695796735 / 2251799813685248 := by norm_num [mp4Settings10]
    rw [h, Nat.floor_eq_iff (by norm_num)]
    constructor <;> norm_num
  · rw [render_calls_of_mp4_export counterReader okEnv ExportFacade.new shortClipTimeline
      stillStore mp4File mp4Settings10 2 1 rfl
      (by rw [shortClipTimeline_duration]; norm_num) (by norm_num [mp4Settings10])
      (by rw [hmul]; norm_num), hmul]
    have hN : ⌊(7 : ℚ)⌋₊ = 7 := by norm_num
    rw [hN]
    rfl
  · have h : f64Div 1 10 = 3602879701896397 / 36028797018963968 := by
      unfold f64Div
      rw [roundDouble_of_nearest (-4) 7205759403792794 (by norm_num) (by norm_num) (by norm_num)
        (by norm_num) (by norm_num) (by norm_num)]
      norm_num
    rw [h]
    norm_num

/-- C22, amended: for a timeline of total duration `d > 0` and a frame rate
`r > 0` whose `double` product `d * r` is below `2 ^ 31`, an MP4 `exportTimeline`
makes the calls `renderFrameAt(i / r, width, height)` for `i = 0, ..., N - 1`,
`N` being the integer part of the `double` product `d * r` and `i / r` the
`double` quotient, in this order and no other render call, and returns what
`exportVideo` returns for the list of the `N` frames these calls returned, in
the order of the calls. -/
theorem exportTimeline_mp4 {D W : Type} (rd : VideoReader D) (env : ExportEnv W)
    (fac : ExportFacade) (tl : Timeline) (store : AssetStore D) (filename : String)
    (settings : ExportSettings) (width height : Nat)
    (hfmt : settings.format = ExportFormat.MP4) (hd : 0 < tl.getTotalDuration)
    (hr : 0 < settings.frameRate)
    (hrange : f64Mul tl.getTotalDuration settings.frameRate < 2147483648) :
    ExportFacade.exportTimeline env (Timeline.renderFramePtr rd) fac (some tl) store filename
        settings width height =
      ((ExportFacade.exportVideo env
          (afterRenders fac settings.frameRate width height
            ⌊f64Mul tl.getTotalDuration settings.frameRate⌋₊)
          (renderedFrames rd tl settings.frameRate width height
            ⌊f64Mul tl.getTotalDuration settings.frameRate⌋₊ 0 store).1 filename settings).1,
        (ExportFacade.exportVideo env
          (afterRenders fac settings.frameRate width height
            ⌊f64Mul tl.getTotalDuration settings.frameRate⌋₊)
          (renderedFrames rd tl settings.frameRate width height
            ⌊f64Mul tl.getTotalDuration settings.frameRate⌋₊ 0 store).1 filename settings).2,
        (renderedFrames rd tl settings.frameRate width height
          ⌊f64Mul tl.getTotalDuration settings.frameRate⌋₊ 0 store).2) ∧
    (renderedFrames rd tl settings.frameRate width height
        ⌊f64Mul tl.getTotalDuration settings.frameRate⌋₊ 0 store).1.length =
      ⌊f64Mul tl.getTotalDuration settings.frameRate⌋₊ ∧
    (ExportFacade.exportTimeline env (Timeline.renderFramePtr rd) fac (some tl) store filename
        settings width height).2.1.calls.filter ExportCall.isRenderCall =
      fac.calls.filter ExportCall.isRenderCall ++
        (List.range ⌊f64Mul tl.getTotalDuration settings.frameRate⌋₊).map
          (fun (i : Nat) =>
            ExportCall.renderFrameAt (f64Div (i : ℚ) settings.frameRate) width height) :=
  ⟨mp4_export_eq rd env fac tl store filename settings width height hfmt hd hr hrange,
    renderedFrames_length _ _ _ _ _ _ _ _,
    render_calls_of_mp4_export rd env fac tl store filename settings width height hfmt hd hr
      hrange⟩

theorem timelineAB_duration : timelineAB.getTotalDuration = 7 := by
  have h : trackAB.getTotalDuration = 7 := by
    norm_num [Track.getTotalDuration, Track.maxEndTimeLoop, TimelineEntry.getEndTime, f64Add,
      trackAB, entryA, entryB]
  unfold Timeline.getTotalDuration timelineAB
  simp only [List.foldl_cons, List.foldl_nil, h]
  norm_num

theorem f64Mul_seven_one : f64Mul 7 mp4Settings.frameRate = 7 := by
  norm_num [f64Mul, mp4Settings]

/-- Witness of C22, amended: the timeline holding `A` (0, 3) and `B` (5, 2), seven
seconds long, exported at one frame per second: seven render calls, at the times
0 to 6. -/
theorem exportTimeline_mp4_witness :
    (ExportFacade.exportTimeline okEnv (Timeline.renderFramePtr counterReader)
        ExportFacade.new (some timelineAB) stillStore mp4File mp4Settings 2 1).2.1.calls.filter
        ExportCall.isRenderCall =
      [ExportCall.renderFrameAt 0 2 1, ExportCall.renderFrameAt 1 2 1,
        ExportCall.renderFrameAt 2 2 1, ExportCall.renderFrameAt 3 2 1,
        ExportCall.renderFrameAt 4 2 1, ExportCall.renderFrameAt 5 2 1,
        ExportCall.renderFrameAt 6 2 1] := by
  have h := (exportTimeline_mp4 counterReader okEnv ExportFacade.new timelineAB stillStore
    mp4File mp4Settings 2 1 rfl (by rw [timelineAB_duration]; norm_num)
    (by norm_num [mp4Settings])
    (by rw [timelineAB_duration, f64Mul_seven_one]; norm_num)).2.2
  rw [h, timelineAB_duration, f64Mul_seven_one]
  have hN : ⌊(7 : ℚ)⌋₊ = 7 := by norm_num
  rw [hN]
  norm_num [List.range, List.range.loop, ExportFacade.new, f64Div, mp4Settings]

theorem renderLoop_abort {σ W : Type} (env : ExportEnv W)
    (render : Timeline → σ → ℚ → Nat → Nat → Option Image × σ) (tl : Timeline)
    (frameRate : ℚ) (width height : Nat) (n i k : Nat) (frames : List Image) (st : σ)
    (fac : ExportFacade) (hk : k < n)
    (hprev : ∀ j < k,
      (render tl (stateBeforeFrame render tl frameRate width height i j st)
        (f64Div ((i + j : Nat) : ℚ) frameRate) width height).1 ≠ none)
    (hfail :
      (render tl (stateBeforeFrame render tl frameRate width height i k st)
        (f64Div ((i + k : Nat) : ℚ) frameRate) width height).1 = none) :
    ExportFacade.renderLoop env render tl frameRate width height n i frames st fac =
      (none,
        (render tl (stateBeforeFrame render tl frameRate width height i k st)
          (f64Div ((i + k : Nat) : ℚ) frameRate) width height).2,
        { lastError := "Failed to render frame at time " ++
            env.timeToString (f64Div ((i + k : Nat) : ℚ) frameRate),
          calls := fac.calls ++ renderCalls frameRate width height (List.range' i (k + 1)) }) := by
  induction n generalizing i k frames st fac with
  | zero => exact absurd hk (Nat.not_lt_zero k)
  | succ n ih =>
    cases k with
    | zero =>
      have hfail0 : (render tl st (f64Div (i : ℚ) frameRate) width height).1 = none := hfail
      unfold ExportFacade.renderLoop
      rcases hres : render tl st (f64Div (i : ℚ) frameRate) width height with ⟨_ | frame, st1⟩
      · simp only [stateBeforeFrame, Nat.add_zero, hres, renderCalls, List.range'_succ,
          List.range'_zero, List.map_cons, List.map_nil]
      · rw [hres] at hfail0
        exact absurd hfail0 (by simp)
    | succ k =>
      have h0 := hprev 0 (Nat.succ_pos k)
      have h0b : (render tl st (f64Div (i : ℚ) frameRate) width height).1 ≠ none := h0
      unfold ExportFacade.renderLoop
      rcases hres : render tl st (f64Div (i : ℚ) frameRate) width height with ⟨_ | frame, st1⟩
      · rw [hres] at h0b
        exact absurd rfl h0b
      · simp only []
        rw [hres]
        simp only []
        have hstate : ∀ j : Nat, stateBeforeFrame render tl frameRate width height i (j + 1) st =
            stateBeforeFrame render tl frameRate width height (i + 1) j st1 := by
          intro j
          show stateBeforeFrame render tl frameRate width height (i + 1) j
            (render tl st (f64Div (i : ℚ) frameRate) width height).2 = _
          rw [hres]
        have hidx : ∀ j : Nat, i + (j + 1) = i + 1 + j := by intro j; omega
        rw [ih (i + 1) k (frames ++ [frame]) st1 _ (Nat.lt_of_succ_lt_succ hk)
          (by
            intro j hj
            have := hprev (j + 1) (Nat.succ_lt_succ hj)
            rw [hstate j, hidx j] at this
            exact this)
          (by
            rw [← hstate k, ← hidx k]
            exact hfail)]
        rw [← hstate k, ← hidx k]
        simp [renderCalls, List.range'_succ]

/-- C23: in an MP4 `exportTimeline` of `N` frames (`N` being
`static_cast<int>(duration * frameRate)`), when the render of frame `k < N`
returns no frame (all earlier frames having been rendered), the call returns
`false` with the error message naming the time `k / frameRate` (the `double`
quotient); the calls made are the `k + 1` render calls and no call of the
encoder. -/
theorem exportTimeline_render_failure {σ W : Type} (env : ExportEnv W)
    (render : Timeline → σ → ℚ → Nat → Nat → Option Image × σ) (fac : ExportFacade)
    (tl : Timeline) (st : σ) (filename : String) (settings : ExportSettings)
    (width height k : Nat)
    (hfmt : settings.format = ExportFormat.MP4) (hd : 0 < tl.getTotalDuration)
    (hk : k < (castInt (f64Mul tl.getTotalDuration settings.frameRate)).toNat)
    (hprev : ∀ j < k,
      (render tl (stateBeforeFrame render tl settings.frameRate width height 0 j st)
        (f64Div (j : ℚ) settings.frameRate) width height).1 ≠ none)
    (hfail :
      (render tl (stateBeforeFrame render tl settings.frameRate width height 0 k st)
        (f64Div (k : ℚ) settings.frameRate) width height).1 = none) :
    (ExportFacade.exportTimeline env render fac (some tl) st filename settings
        width height).1 = false ∧
    (ExportFacade.exportTimeline env render fac (some tl) st filename settings
        width height).2.1.lastError =
      "Failed to render frame at time " ++
        env.timeToString (f64Div (k : ℚ) settings.frameRate) ∧
    (ExportFacade.exportTimeline env render fac (some tl) st filename settings
        width height).2.1.calls =
      fac.calls ++ renderCalls settings.frameRate width height (List.range (k + 1)) ∧
    (ExportFacade.exportTimeline env render fac (some tl) st filename settings
        width height).2.1.calls.filter ExportCall.isEncoderCall =
      fac.calls.filter ExportCall.isEncoderCall := by
  have hloop := renderLoop_abort env render tl settings.frameRate width height
    (castInt (f64Mul tl.getTotalDuration settings.frameRate)).toNat 0 k [] st fac hk
    (by
      intro j hj
      rw [Nat.zero_add]
      exact hprev j hj)
    (by
      rw [Nat.zero_add]
      exact hfail)
  rw [Nat.zero_add, ← List.range_eq_range'] at hloop
  have hres : ExportFacade.exportTimeline env render fac (some tl) st filename settings
      width height =
      (false,
        { lastError := "Failed to render frame at time " ++
            env.timeToString (f64Div (k : ℚ) settings.frameRate),
          calls := fac.calls ++ renderCalls settings.frameRate width height
            (List.range (k + 1)) },
        (render tl (stateBeforeFrame render tl settings.frameRate width height 0 k st)
          (f64Div (k : ℚ) settings.frameRate) width height).2) := by
    unfold ExportFacade.exportTimeline
    simp only []
    rw [if_neg (not_le.mpr hd), if_neg (by rw [hfmt]; exact fun h => h rfl), hloop]
  rw [hres]
  refine ⟨rfl, rfl, rfl, ?_⟩
  show (fac.calls ++ renderCalls settings.frameRate width height
    (List.range (k + 1))).filter ExportCall.isEncoderCall = _
  rw [List.filter_append]
  have hnone : (renderCalls settings.frameRate width height
      (List.range (k + 1))).filter ExportCall.isEncoderCall = [] := by
    rw [List.filter_eq_nil_iff]
    intro c hc
    obtain ⟨j, _, rfl⟩ := List.mem_map.mp hc
    exact Bool.noConfusion
  rw [hnone, List.append_nil]

/-- Witness of C23: the seven-frame export of the timeline holding `A` and `B`
with a renderer whose third call (frame 2) returns no frame: the export returns
`false` after three render calls. -/
theorem exportTimeline_render_failure_witness :
    (ExportFacade.exportTimeline okEnv (failingRender 2) ExportFacade.new (some timelineAB) 0
        mp4File mp4Settings 2 1).1 = false ∧
    (ExportFacade.exportTimeline okEnv (failingRender 2) ExportFacade.new (some timelineAB) 0
        mp4File mp4Settings 2 1).2.1.calls =
      ExportFacade.new.calls ++ renderCalls mp4Settings.frameRate 2 1 (List.range (2 + 1)) := by
  have h := exportTimeline_render_failure okEnv (failingRender 2) ExportFacade.new
    timelineAB 0 mp4File mp4Settings 2 1 2 rfl (by rw [timelineAB_duration]; norm_num)
    (by
      rw [timelineAB_duration, f64Mul_seven_one, castInt_toNat 7 (by norm_num) (by norm_num)]
      norm_num)
    (by
      intro j hj
      interval_cases j <;> simp [stateBeforeFrame, failingRender])
    (by simp [stateBeforeFrame, failingRender])
  exact ⟨h.1, h.2.2.1⟩

/-! ## File names and formats -/

theorem getDefaultExtension_length (format : ExportFormat) :
    (getDefaultExtension format).toList.length = 4 := by
  cases format <;> rfl

theorem isValidFilenameForFormat_iff (filename : String) (format : ExportFormat) :
    isValidFilenameForFormat filename format = true ↔
      List.IsSuffix (getDefaultExtension format).toList (filename.toList.map Char.toLower) := by
  unfold isValidFilenameForFormat
  simp only []
  by_cases hlen : (filename.toList.map Char.toLower).length <
      (getDefaultExtension format).toList.length
  · rw [if_pos hlen]
    constructor
    · intro h
      exact absurd h Bool.noConfusion
    · intro h
      exact absurd h.length_le (not_le.mpr hlen)
  · rw [if_neg hlen]
    have hdrop : (List.drop ((filename.toList.map Char.toLower).length -
        (getDefaultExtension format).toList.length)
        (filename.toList.map Char.toLower)).length = 4 := by
      rw [List.length_drop, ← getDefaultExtension_length format]
      omega
    have hne : ¬ (format = ExportFormat.JPEG ∧
        List.drop ((filename.toList.map Char.toLower).length -
          (getDefaultExtension format).toList.length)
          (filename.toList.map Char.toLower) = ".jpeg".toList) := by
      rintro ⟨_, h⟩
      rw [h] at hdrop
      exact absurd hdrop (by decide)
    rw [if_neg hne, decide_eq_true_iff, List.suffix_iff_eq_drop]
    exact eq_comm

/-- C25: `isValidFilenameForFormat(filename, f)` is true exactly when the
lower-cased file name ends with `getDefaultExtension(f)`.  The test for `.jpeg`
compares the last four characters of the name with a string of five characters
and never succeeds: `photo.jpeg` is rejected for the JPEG format, `PHOTO.JPG` is
accepted. -/
theorem isValidFilenameForFormat_spec :
    (∀ (filename : String) (format : ExportFormat),
      isValidFilenameForFormat filename format = true ↔
        List.IsSuffix (getDefaultExtension format).toList
          (filename.toList.map Char.toLower)) ∧
    isValidFilenameForFormat jpegFile ExportFormat.JPEG = false ∧
    isValidFilenameForFormat jpgFile ExportFormat.JPEG = true ∧
    List.IsSuffix ".jpeg".toList (jpegFile.toList.map Char.toLower) := by
  refine ⟨isValidFilenameForFormat_iff, by decide, by decide, ?_⟩
  exact ⟨"photo".toList, by decide⟩

/-! ## Single-frame export -/

/-- The claim of C24 fails for assets: a `TextAsset` has duration 0, and
`exportAsset` writes its rendered image to the PNG file and returns `true`. -/
theorem exportAsset_of_zero_duration :
    titleAsset.getDuration = 0 ∧
    (ExportFacade.exportAsset counterReader okEnv ExportFacade.new
        (some titleAsset.toAsset) pngFile ExportSettings.new).1 = true ∧
    (ExportFacade.exportAsset counterReader okEnv ExportFacade.new
        (some titleAsset.toAsset) pngFile ExportSettings.new).2.1.calls =
      [ExportCall.stbiWrite StbiWriter.png pngFile whiteFrame none] := by
  refine ⟨rfl, by decide, ?_⟩
  have hname : isValidFilenameForFormat pngFile ExportFormat.PNG = true := by decide
  simp [ExportFacade.exportAsset, ExportFacade.exportImage, ExportFacade.resizeIfNeeded,
    ExportFacade.writeImageFile, ExportFacade.stbiResult, ExportFacade.new, hname,
    TextAsset.toAsset, titleAsset, Asset.getFrame, whiteFrame, ExportSettings.new, okEnv]

/-- C24, amended: `exportTimeline` returns `false` without a render call or a
write when the timeline's total duration is 0, whatever the format.
`exportAsset` does not look at the duration of the asset: for a non-null asset
it returns what `exportImage` returns for the frame of the asset at time 0, for
a `TextAsset` its rendered image. -/
theorem single_frame_export {D σ W : Type} (rd : VideoReader D) (env : ExportEnv W)
    (render : Timeline → σ → ℚ → Nat → Nat → Option Image × σ) (fac : ExportFacade)
    (tl : Timeline) (st : σ) (filename : String) (settings : ExportSettings)
    (width height : Nat) (hd : tl.getTotalDuration = 0) :
    ExportFacade.exportTimeline env render fac (some tl) st filename settings width height =
      (false, { fac with lastError := "Timeline has no duration (empty or no tracks)" }, st) ∧
    (∀ a : Asset D,
      ExportFacade.exportAsset rd env fac (some a) filename settings =
        ((ExportFacade.exportImage env fac (a.getFrame rd 0).1 filename settings).1,
          (ExportFacade.exportImage env fac (a.getFrame rd 0).1 filename settings).2,
          some (a.getFrame rd 0).2)) ∧
    (∀ text : TextAsset,
      ExportFacade.exportAsset rd env fac (some text.toAsset) filename settings =
        ((ExportFacade.exportImage env fac (text.getFrame 0) filename settings).1,
          (ExportFacade.exportImage env fac (text.getFrame 0) filename settings).2,
          some text.toAsset)) := by
  refine ⟨?_, fun a => rfl, fun text => rfl⟩
  unfold ExportFacade.exportTimeline
  simp only []
  rw [if_pos (le_of_eq hd)]

theorem emptyTimeline_duration : emptyTimeline.getTotalDuration = 0 := rfl

/-- Witness of C24, amended: a PNG export of the timeline without tracks returns
`false` and makes no call. -/
theorem single_frame_export_witness :
    (ExportFacade.exportTimeline okEnv (Timeline.renderFramePtr counterReader)
        ExportFacade.new (some emptyTimeline) stillStore pngFile ExportSettings.new 2 1).1
      = false ∧
    (ExportFacade.exportTimeline okEnv (Timeline.renderFramePtr counterReader)
        ExportFacade.new (some emptyTimeline) stillStore pngFile ExportSettings.new 2 1).2.1.calls
      = [] := by
  have h := (single_frame_export counterReader okEnv (Timeline.renderFramePtr counterReader)
    ExportFacade.new emptyTimeline stillStore pngFile ExportSettings.new 2 1
    emptyTimeline_duration).1
  rw [h]
  exact ⟨rfl, rfl⟩

/-! ## The composite factory -/

theorem foldl_add_factories {A : Type} (children : List (AssetFactory A))
    (c : CompositeAssetFactory A) :
    (children.foldl CompositeAssetFactory.add c).factories = c.factories ++ children := by
  induction children generalizing c with
  | nil => simp
  | cons f rest ih =>
    rw [List.foldl_cons, ih]
    simp [CompositeAssetFactory.add]

theorem createLoop_of_all_none {A : Type} (value : String) (fs : List (AssetFactory A))
    (i : Nat) (asked : List Nat) (h : ∀ f ∈ fs, f value = none) :
    CompositeAssetFactory.createLoop value fs i asked =
      (none, asked ++ List.range' i fs.length) := by
  induction fs generalizing i asked with
  | nil => simp [CompositeAssetFactory.createLoop]
  | cons f rest ih =>
    unfold CompositeAssetFactory.createLoop
    rw [h f (List.mem_cons_self f rest)]
    simp only []
    rw [ih (i + 1) (asked ++ [i]) (fun g hg => h g (List.mem_cons_of_mem f hg))]
    simp [List.range'_succ]

theorem createLoop_of_first {A : Type} (value : String) (fs : List (AssetFactory A))
    (i : Nat) (asked : List Nat) (k : Nat) (factory : AssetFactory A) (asset : A)
    (hk : fs[k]? = some factory) (hsome : factory value = some asset)
    (hprev : ∀ j < k, ∀ g, fs[j]? = some g → g value = none) :
    CompositeAssetFactory.createLoop value fs i asked =
      (some asset, asked ++ List.range' i (k + 1)) := by
  induction fs generalizing i asked k with
  | nil => simp at hk
  | cons f rest ih =>
    unfold CompositeAssetFactory.createLoop
    cases k with
    | zero =>
      have hf : f = factory := by simpa using hk
      rw [hf, hsome]
      simp [List.range'_succ]
    | succ k =>
      have hnone : f value = none := hprev 0 (Nat.succ_pos k) f (by simp)
      rw [hnone]
      simp only []
      rw [ih (i + 1) (asked ++ [i]) k (by simpa using hk)
        (fun j hj g hg => hprev (j + 1) (Nat.succ_lt_succ hj) g (by simpa using hg))]
      simp [List.range'_succ]

theorem createLoop_none_iff {A : Type} (value : String) (fs : List (AssetFactory A))
    (i : Nat) (asked : List Nat) :
    (CompositeAssetFactory.createLoop value fs i asked).1 = none ↔
      ∀ f ∈ fs, f value = none := by
  induction fs generalizing i asked with
  | nil => simp [CompositeAssetFactory.createLoop]
  | cons f rest ih =>
    unfold CompositeAssetFactory.createLoop
    cases hf : f value with
    | none =>
      simp only []
      rw [ih (i + 1) (asked ++ [i])]
      simp [hf]
    | some asset =>
      simp [hf]

/-- C26: for the composite built by adding the factories `children` in order,
`create(path)` returns the asset of the first child whose `create` returns
non-null, having asked the children before it and no child after it; it returns
null exactly when every child returns null (so always when there is no child),
every child having been asked. -/
theorem composite_create_spec {A : Type} (children : List (AssetFactory A)) (value : String) :
    (∀ (k : Nat) (factory : AssetFactory A) (asset : A),
      children[k]? = some factory → factory value = some asset →
      (∀ j < k, ∀ g, children[j]? = some g → g value = none) →
      (children.foldl CompositeAssetFactory.add CompositeAssetFactory.new).create value =
        (some asset, List.range (k + 1))) ∧
    (((children.foldl CompositeAssetFactory.add CompositeAssetFactory.new).create value).1
        = none ↔ ∀ f ∈ children, f value = none) ∧
    ((∀ f ∈ children, f value = none) →
      (children.foldl CompositeAssetFactory.add CompositeAssetFactory.new).create value =
        (none, List.range children.length)) ∧
    ((CompositeAssetFactory.new : CompositeAssetFactory A).create value = (none, [])) := by
  have hfs : (children.foldl CompositeAssetFactory.add CompositeAssetFactory.new).factories
      = children := by
    rw [foldl_add_factories]
    rfl
  refine ⟨?_, ?_, ?_, rfl⟩
  · intro k factory asset hk hsome hprev
    unfold CompositeAssetFactory.create
    rw [hfs, createLoop_of_first value children 0 [] k factory asset hk hsome hprev,
      List.range_eq_range']
    rfl
  · unfold CompositeAssetFactory.create
    rw [hfs]
    exact createLoop_none_iff value children 0 []
  · intro h
    unfold CompositeAssetFactory.create
    rw [hfs, createLoop_of_all_none value children 0 [] h, List.range_eq_range']
    rfl

/-- Witness of C26: with the children PNG, MP4, any (in this order) the name
`out.mp4` is created by the second child and the third is not asked; with the
children PNG, MP4 the name `photo.jpeg` yields null after both were asked. -/
theorem composite_create_spec_witness :
    ([pngFactory, mp4Factory, anyFactory].foldl CompositeAssetFactory.add
        CompositeAssetFactory.new).create mp4File = (some 2, List.range (1 + 1)) ∧
    ([pngFactory, mp4Factory].foldl CompositeAssetFactory.add
        CompositeAssetFactory.new).create jpegFile = (none, List.range 2) := by
  constructor
  · exact (composite_create_spec [pngFactory, mp4Factory, anyFactory] mp4File).1 1 mp4Factory 2
      rfl (by decide) (by
        intro j hj g hg
        have hj0 : j = 0 := by omega
        subst hj0
        have hgp : pngFactory = g := by simpa using hg
        rw [← hgp]
        decide)
  · exact (composite_create_spec [pngFactory, mp4Factory] jpegFile).2.2.1 (by
      intro f hf
      simp only [List.mem_cons, List.mem_singleton, List.mem_nil_iff, or_false] at hf
      rcases hf with h | h <;> rw [h] <;> decide)

/-! ## The mean blur filter -/

theorem clamp_ofInts (r g b a : Nat) :
    (Color.ofInts r g b a).clamp 0 255 = Color.ofInts r g b a := by
  unfold Color.clamp Color.ofInts
  simp only [Color.mk.injEq]
  refine ⟨?_, ?_, ?_, ?_⟩ <;> omega

theorem add_channels (c d : Color) :
    (c.add d).r = (c.r + d.r) % 256 ∧ (c.add d).g = (c.g + d.g) % 256 ∧
    (c.add d).b = (c.b + d.b) % 256 ∧ (c.add d).a = (c.a + d.a) % 256 := by
  unfold Color.add
  rw [clamp_ofInts]
  exact ⟨rfl, rfl, rfl, rfl⟩

theorem neighbourhoodSum_channels (original : Image) (x y : Nat) :
    (neighbourhoodSum original x y).r = channelSum Color.r original x y % 256 ∧
    (neighbourhoodSum original x y).g = channelSum Color.g original x y % 256 ∧
    (neighbourhoodSum original x y).b = channelSum Color.b original x y % 256 ∧
    (neighbourhoodSum original x y).a = channelSum Color.a original x y % 256 := by
  unfold neighbourhoodSum channelSum
  simp only [List.foldl_cons, List.foldl_nil, List.map_cons, List.map_nil, List.sum_cons,
    List.sum_nil, (add_channels _ _).1, (add_channels _ _).2.1, (add_channels _ _).2.2.1,
    (add_channels _ _).2.2.2]
  refine ⟨?_, ?_, ?_, ?_⟩ <;> simp only [Color.ofInts] <;> omega

set_option maxRecDepth 100000 in
theorem div_table_nine : ∀ n < 256, ((F32.ofNat n).div (F32.ofNat 9)).toNat = n / 9 := by
  decide

theorem divFloat_nine (c : Color) (hr : c.r < 256) (hg : c.g < 256) (hb : c.b < 256)
    (ha : c.a < 256) :
    c.divFloat (F32.ofNat 9) = ⟨c.r / 9, c.g / 9, c.b / 9, c.a / 9⟩ := by
  unfold Color.divFloat
  rw [if_neg (by decide), clamp_ofInts, div_table_nine c.r hr, div_table_nine c.g hg,
    div_table_nine c.b hb, div_table_nine c.a ha]
  unfold Color.ofInts
  simp only [Color.mk.injEq]
  refine ⟨?_, ?_, ?_, ?_⟩ <;> omega

/-- The value that `MeanBlurFilter::Apply` writes at `(x, y)`: in each channel
the sum over the neighbourhood, reduced modulo 256, divided by 9. -/
theorem blurred_pixel_value (original : Image) (x y : Nat) :
    (neighbourhoodSum original x y).divFloat (F32.ofNat 9) =
      ⟨channelSum Color.r original x y % 256 / 9, channelSum Color.g original x y % 256 / 9,
        channelSum Color.b original x y % 256 / 9,
        channelSum Color.a original x y % 256 / 9⟩ := by
  obtain ⟨hr, hg, hb, ha⟩ := neighbourhoodSum_channels original x y
  rw [divFloat_nine _ (by rw [hr]; exact Nat.mod_lt _ (by decide))
    (by rw [hg]; exact Nat.mod_lt _ (by decide)) (by rw [hb]; exact Nat.mod_lt _ (by decide))
    (by rw [ha]; exact Nat.mod_lt _ (by decide)), hr, hg, hb, ha]

/-- The inner loop of a column-by-column pixel loop after `n` pixels of column
`x`: the first `n` pixels of the column are rewritten, all others are as before. -/
theorem columnLoop_spec (g : Nat → Nat → Color) (img : Image) (x : Nat)
    (hsz : img.WellSized) (hx : x < img.width) (n : Nat) (hn : n ≤ img.height) :
    (forLoop n (fun y im => im.setPixel x y (g x y)) img).width = img.width ∧
    (forLoop n (fun y im => im.setPixel x y (g x y)) img).height = img.height ∧
    (forLoop n (fun y im => im.setPixel x y (g x y)) img).pixels.length
      = img.pixels.length ∧
    ∀ i : Nat,
      (forLoop n (fun y im => im.setPixel x y (g x y)) img).pixels.getD i ⟨0, 0, 0, 0⟩ =
        if i % img.width = x ∧ i / img.width < n then g x (i / img.width)
        else img.pixels.getD i ⟨0, 0, 0, 0⟩ := by
  induction n with
  | zero =>
    rw [forLoop_zero]
    refine ⟨rfl, rfl, rfl, fun i => ?_⟩
    rw [if_neg (fun hc => Nat.not_lt_zero _ hc.2)]
  | succ n ih =>
    obtain ⟨hw, hh, hl, hpix⟩ := ih (by omega)
    rw [forLoop_succ]
    have hidx : x + img.width * n < img.pixels.length := by
      rw [hsz]; exact index_lt_of_lt hx (by omega)
    have hmod : (x + img.width * n) % img.width = x := by
      rw [Nat.add_mul_mod_self_left, Nat.mod_eq_of_lt hx]
    have hdiv : (x + img.width * n) / img.width = n := by
      rw [Nat.add_mul_div_left _ _ (by omega : 0 < img.width), Nat.div_eq_of_lt hx,
        Nat.zero_add]
    refine ⟨hw, hh, ?_, fun i => ?_⟩
    · show (List.set _ _ _).length = _
      rw [List.length_set, hl]
    · show (List.set _ _ _).getD i _ = _
      rw [getD_set_eq, hw, hl, hpix i]
      by_cases hi : x + img.width * n = i
      · subst hi
        rw [if_pos ⟨rfl, hidx⟩, hmod, hdiv, if_pos ⟨rfl, Nat.lt_succ_self n⟩]
      · rw [if_neg (fun hc => hi hc.1)]
        by_cases hc : i % img.width = x ∧ i / img.width < n
        · rw [if_pos hc, if_pos ⟨hc.1, by omega⟩]
        · rw [if_neg hc, if_neg]
          rintro ⟨h1, h2⟩
          have hq : i / img.width = n := by
            rcases Nat.lt_succ_iff_lt_or_eq.mp h2 with h | h
            · exact absurd ⟨h1, h⟩ hc
            · exact h
          have := Nat.div_add_mod i img.width
          rw [hq, h1] at this
          omega

/-- The outer loop of a column-by-column pixel loop after `m` columns. -/
theorem columnsLoop_spec (g : Nat → Nat → Color) (img : Image)
    (hsz : img.WellSized) (m : Nat) (hm : m ≤ img.width) :
    (forLoop m (fun x im =>
        forLoop img.height (fun y im => im.setPixel x y (g x y)) im) img).width = img.width ∧
    (forLoop m (fun x im =>
        forLoop img.height (fun y im => im.setPixel x y (g x y)) im) img).height
      = img.height ∧
    (forLoop m (fun x im =>
        forLoop img.height (fun y im => im.setPixel x y (g x y)) im) img).pixels.length
      = img.pixels.length ∧
    ∀ i : Nat,
      (forLoop m (fun x im =>
          forLoop img.height (fun y im => im.setPixel x y (g x y)) im) img).pixels.getD i
          ⟨0, 0, 0, 0⟩ =
        if i % img.width < m ∧ i / img.width < img.height then
          g (i % img.width) (i / img.width)
        else img.pixels.getD i ⟨0, 0, 0, 0⟩ := by
  induction m with
  | zero =>
    rw [forLoop_zero]
    refine ⟨rfl, rfl, rfl, fun i => ?_⟩
    rw [if_neg (fun hc => Nat.not_lt_zero _ hc.1)]
  | succ m ih =>
    obtain ⟨hw, hh, hl, hpix⟩ := ih (by omega)
    rw [forLoop_succ]
    have hsz1 : Image.WellSized (forLoop m (fun x im =>
        forLoop img.height (fun y im => im.setPixel x y (g x y)) im) img) := by
      unfold Image.WellSized
      rw [hl, hw, hh]; exact hsz
    have hcol := columnLoop_spec g _ m hsz1 (by rw [hw]; omega) img.height (by rw [hh])
    rw [hw, hh, hl] at hcol
    obtain ⟨cw, ch, cl, cpix⟩ := hcol
    refine ⟨cw, ch, cl, fun i => ?_⟩
    rw [cpix i, hpix i]
    by_cases hc : i % img.width = m ∧ i / img.width < img.height
    · rw [if_pos hc, if_pos ⟨by omega, hc.2⟩, hc.1]
    · rw [if_neg hc]
      by_cases hlt : i % img.width < m ∧ i / img.width < img.height
      · rw [if_pos hlt, if_pos ⟨by omega, hlt.2⟩]
      · rw [if_neg hlt, if_neg]
        rintro ⟨h1, h2⟩
        rcases Nat.lt_succ_iff_lt_or_eq.mp h1 with h | h
        · exact hlt ⟨h, h2⟩
        · exact hc ⟨h, h2⟩

theorem meanBlur_spec (original : Image) (hsz : original.WellSized) :
    (MeanBlurFilter.Apply original).width = original.width ∧
    (MeanBlurFilter.Apply original).height = original.height ∧
    (MeanBlurFilter.Apply original).WellSized ∧
    ∀ x y : Nat, x < original.width → y < original.height →
      (MeanBlurFilter.Apply original).getPixel x y =
        ⟨channelSum Color.r original x y % 256 / 9, channelSum Color.g original x y % 256 / 9,
          channelSum Color.b original x y % 256 / 9,
          channelSum Color.a original x y % 256 / 9⟩ := by
  obtain ⟨hw, hh, hl, hpix⟩ := columnsLoop_spec
    (fun x y => (neighbourhoodSum original x y).divFloat (F32.ofNat 9)) original hsz
    original.width (le_refl _)
  have hw2 : (MeanBlurFilter.Apply original).width = original.width := hw
  have hh2 : (MeanBlurFilter.Apply original).height = original.height := hh
  have hl2 : (MeanBlurFilter.Apply original).pixels.length = original.pixels.length := hl
  refine ⟨hw2, hh2, ?_, ?_⟩
  · unfold Image.WellSized
    rw [hl2, hw2, hh2]; exact hsz
  · intro x y hx hy
    rw [getPixel_of_lt _ x y (by rw [hw2]; exact hx) (by rw [hh2]; exact hy), hw2]
    have hmod : (x + original.width * y) % original.width = x := by
      rw [Nat.add_mul_mod_self_left, Nat.mod_eq_of_lt hx]
    have hdiv : (x + original.width * y) / original.width = y := by
      rw [Nat.add_mul_div_left _ _ (by omega : 0 < original.width), Nat.div_eq_of_lt hx,
        Nat.zero_add]
    have hval := hpix (x + original.width * y)
    rw [hmod, hdiv, if_pos ⟨hx, hy⟩] at hval
    show (forLoop original.width (fun x im =>
      forLoop original.height (fun y im => im.setPixel x y
        ((neighbourhoodSum original x y).divFloat (F32.ofNat 9))) im) original).pixels.getD
        (x + original.width * y) ⟨0, 0, 0, 0⟩ = _
    rw [hval, blurred_pixel_value]

/-- C27: the output of `MeanBlurFilter::Apply` has the width and height of the
input, but its channels are not the averages over the neighbourhood: each
channel sum is reduced modulo 256 before it is divided by 9 (the `Color` sum is
kept in `unsigned char`).  The averages are obtained only while the channel sum
stays below 256; the one-pixel image of colour (100, 100, 100, 255) is blurred to
(14, 14, 14, 27), whereas the average of its neighbourhood is (100, 100, 100, 255). -/
theorem meanBlur_wraps :
    (∀ original : Image, original.WellSized →
      (MeanBlurFilter.Apply original).width = original.width ∧
      (MeanBlurFilter.Apply original).height = original.height ∧
      ∀ x y : Nat, x < original.width → y < original.height →
        (MeanBlurFilter.Apply original).getPixel x y =
          ⟨channelSum Color.r original x y % 256 / 9,
            channelSum Color.g original x y % 256 / 9,
            channelSum Color.b original x y % 256 / 9,
            channelSum Color.a original x y % 256 / 9⟩) ∧
    MeanBlurFilter.Apply grayPixel =
      { width := 1, height := 1, pixels := [⟨14, 14, 14, 27⟩] } ∧
    channelSum Color.r grayPixel 0 0 / 9 = 100 ∧
    channelSum Color.a grayPixel 0 0 / 9 = 255 := by
  refine ⟨?_, by decide, by decide, by decide⟩
  intro original hsz
  obtain ⟨hw, hh, _, hpix⟩ := meanBlur_spec original hsz
  exact ⟨hw, hh, hpix⟩

/-- Witness of C27: on a 2 by 1 image whose channel sums stay below 256 the
output pixel (0, 0) is the truncated average of the neighbourhood. -/
theorem meanBlur_wraps_witness :
    (MeanBlurFilter.Apply darkPair).getPixel 0 0 = ⟨13, 14, 0, 5⟩ := by
  have h := (meanBlur_wraps.1 darkPair rfl).2.2 0 0 (by decide) (by decide)
  rw [show (MeanBlurFilter.Apply darkPair).getPixel 0 0 = _ from h]
  decide

end csci3081
